import Mathlib

/-!
# cpp-rest-api: request parser, request/response model and handler registry

A shallow embedding of `src/utils.cc`, `src/tcp.cc` (reader buffer, `Send` and
the writer) and `src/http.cc`.

* A `std::string` is a list of bytes; a byte is written as a `Char`, so that
  literals stay readable.  The code only copies and compares bytes and maps
  `A`..`Z` to lower case, so every `Char` stands for one byte.
* `size_t` values are natural numbers; `std::string::npos` is `2^64 - 1` and
  `size_t` subtraction is taken modulo `2^64`.
* `std::map<std::string, std::string>` is an association list kept in strictly
  increasing key order, which is also the iteration order of the source.
* `std::multimap<std::string, HttpHandler>` is a list kept in key order, equal
  keys in insertion order.
-/

/-- A byte string (`std::string`). -/
abbrev Str := List Char

/-- The value `std::string::npos`, also `(size_t)-1`. -/
def npos : Nat := 2 ^ 64 - 1

/-- Conversion of a signed integer to `size_t`. -/
def toSizeT (i : Int) : Nat := (i % (2 ^ 64 : Int)).toNat

/-- Subtraction of two `size_t` values. -/
def sizeSub (a b : Nat) : Nat := (a % 2 ^ 64 + 2 ^ 64 - b % 2 ^ 64) % 2 ^ 64

def kStringEmpty : Str := []
def kStringSpace : Str := " ".toList
def kStringSlash : Str := "/".toList
def kStringColon : Str := ":".toList
def kHttpProtocol1_1 : Str := "HTTP/1.1".toList
def kHttpLineFeed : Str := "\r\n".toList
def kHttpDoubleLineFeed : Str := "\r\n\r\n".toList
def kHttpConnectionTimeout : Int := 10000

/-! ## utils.cc -/

/-- The search `text.find(token)`: the first index at which `token` occurs in
`text`, `none` when it does not occur. -/
def StrFind (token : Str) : Str → Option Nat
  | [] => if token.isEmpty then some 0 else none
  | c :: rest =>
    if token.isPrefixOf (c :: rest) then some 0
    else (StrFind token rest).map (fun p => p + 1)

/-- The call `StringPosition(text, token, start)`, that is
`text.find(token, start)`, with `npos` for "not found". -/
def StringPosition (text token : Str) (start : Nat) : Nat :=
  if start ≤ text.length then
    match StrFind token (text.drop start) with
    | some p => start + p
    | none => npos
  else npos

/-- The two-argument `StringContains(text, token)`. -/
def StringContains (text token : Str) : Bool :=
  StringPosition text token 0 != npos

/-- The call `StringStartsWith(text, token)`: `text.find(token) == 0`. -/
def StringStartsWith (text token : Str) : Bool :=
  StringPosition text token 0 == 0

/-- The function `std::tolower` in the "C" locale. -/
def tolower (c : Char) : Char :=
  if 65 ≤ c.toNat ∧ c.toNat ≤ 90 then Char.ofNat (c.toNat + 32) else c

def StringToLower (text : Str) : Str := text.map tolower

/-- The call `StringLtrim(text, token)`:
`text.erase(0, text.find_first_not_of(token))`. -/
def StringLtrim (text token : Str) : Str :=
  text.dropWhile (fun c => token.contains c)

/-- The call `StringRtrim(text, token)`:
`text.erase(text.find_last_not_of(token) + 1)`. -/
def StringRtrim (text token : Str) : Str :=
  (text.reverse.dropWhile (fun c => token.contains c)).reverse

def StringTrim (text token : Str) : Str :=
  StringRtrim (StringLtrim text token) token

/-- The overload `StringPopSegment(std::string &text, const std::string
&delimiter)`; the result is the returned segment and the new `text`. -/
def StringPopSegment (text delimiter : Str) : Str × Str :=
  let position := StringPosition text delimiter 0
  if position = npos then (kStringEmpty, text)
  else (text.take position, text.drop (position + delimiter.length))

/-- The overload `StringPopSegment(std::string &text, size_t position)`; the
result is the returned segment and the new `text`. -/
def StringPopSegmentAt (text : Str) (position : Nat) : Str × Str :=
  if position = npos then (kStringEmpty, text)
  else if position ≥ text.length then (text, [])
  else (text.take position, text.drop (position + 1))

/-- The character class of `isspace` in the "C" locale. -/
def isspace (c : Char) : Bool :=
  c.toNat == 32 || (9 ≤ c.toNat && c.toNat ≤ 13)

def isdigit (c : Char) : Bool := 48 ≤ c.toNat && c.toNat ≤ 57

/-- The library call `atoi(s)`, as `(int) strtol(s, NULL, 10)`: leading white
space, an optional sign, the longest run of decimal digits, saturated to the
range of `long` and truncated to 32 bits. -/
def atoi (s : Str) : Int :=
  let s1 := s.dropWhile isspace
  let neg := s1.head? == some '-'
  let s2 := if s1.head? == some '-' || s1.head? == some '+' then s1.tail else s1
  let v : Nat := (s2.takeWhile isdigit).foldl (fun acc d => acc * 10 + (d.toNat - 48)) 0
  let l : Int := if neg then max (-(v : Int)) (-(2 ^ 63 : Int)) else min (v : Int) (2 ^ 63 - 1)
  (l + 2 ^ 31) % 2 ^ 32 - 2 ^ 31

/-- The call `std::to_string(size_t)`. -/
def to_string (n : Nat) : Str := Nat.toDigits 10 (n % 2 ^ 64)

/-! ## http.h, http.cc: constants -/

inductive HttpMethod where
  | INVALID | POST | GET | HEAD | PUT | DELETE | CONNECT | UPDATE | TRACE
  | PATCH | OPTIONS
  deriving DecidableEq, Repr

inductive HttpStage where
  | START | METHOD | URL | PROTOCOL | HEADER | BODY | END | FAILED
  deriving DecidableEq, Repr

open HttpMethod HttpStage

/-- The table of `HttpConstants::GetMethod`. -/
def string_to_method : List (Str × HttpMethod) :=
  [("INVALID".toList, INVALID), ("POST".toList, POST), ("GET".toList, GET),
   ("HEAD".toList, HEAD), ("PUT".toList, PUT), ("DELETE".toList, DELETE),
   ("CONNECT".toList, CONNECT), ("UPDATE".toList, UPDATE),
   ("TRACE".toList, TRACE), ("PATCH".toList, PATCH),
   ("OPTIONS".toList, OPTIONS)]

def HttpConstants.GetMethod (method_string : Str) : HttpMethod :=
  match string_to_method.lookup method_string with
  | some m => m
  | none => INVALID

/-- The table of `HttpConstants::GetMethodString`. -/
def method_to_string : List (HttpMethod × Str) :=
  [(INVALID, "INVALID".toList), (POST, "POST".toList), (GET, "GET".toList),
   (HEAD, "HEAD".toList), (PUT, "PUT".toList), (DELETE, "DELETE".toList),
   (CONNECT, "CONNECT".toList), (UPDATE, "UPDATE".toList),
   (TRACE, "TRACE".toList), (PATCH, "PATCH".toList),
   (OPTIONS, "OPTIONS".toList)]

def HttpConstants.GetMethodString (method : HttpMethod) : Str :=
  match method_to_string.lookup method with
  | some s => s
  | none => kStringEmpty

/-- The table of `HttpConstants::GetStatusString`. -/
def status_to_string : List (Int × Str) :=
  [(100, "Continue".toList), (101, "Switching Protocols".toList),
   (102, "Processing".toList), (200, "OK".toList), (201, "Created".toList),
   (202, "Accepted".toList), (204, "No Content".toList),
   (301, "Moved Permanently".toList), (302, "Found".toList),
   (303, "See Other".toList), (304, "Not Modfied".toList),
   (400, "Bad Request".toList), (401, "Unauthorized".toList),
   (403, "Forbidden".toList), (404, "Not Found".toList),
   (405, "Method Not Allowed".toList), (406, "Not Acceptable".toList),
   (408, "Request Timeout".toList), (410, "Gone".toList),
   (411, "Length Required".toList),
   (413, "Request Entity Too Large".toList),
   (414, "Request URI Too Long".toList),
   (415, "Unsupported Media Type".toList),
   (417, "Expectation Failed".toList),
   (422, "Unprocessable Entity".toList), (423, "Locked".toList),
   (429, "Too Many Requests".toList),
   (500, "Internal Server Error".toList), (501, "Not Implemented".toList),
   (502, "Bad Gateway".toList), (503, "Service Unavailable".toList)]

def HttpConstants.GetStatusString (status : Int) : Str :=
  match status_to_string.lookup status with
  | some s => s
  | none => kStringEmpty

/-! ## The header map -/

/-- The order of `std::string::operator<`: lexicographic on bytes. -/
def StrLess : Str → Str → Bool
  | [], [] => false
  | [], _ :: _ => true
  | _ :: _, [] => false
  | a :: s, b :: t =>
    if a.toNat < b.toNat then true
    else if b.toNat < a.toNat then false
    else StrLess s t

/-- A `std::map<std::string, std::string>`: the entries in increasing key
order. -/
abbrev HeaderMap := List (Str × Str)

/-- The assignment `headers[key] = value`. -/
def HeaderMap.set : HeaderMap → Str → Str → HeaderMap
  | [], key, value => [(key, value)]
  | (k, v) :: rest, key, value =>
    if key = k then (k, value) :: rest
    else if StrLess key k then (key, value) :: (k, v) :: rest
    else (k, v) :: HeaderMap.set rest key value

/-- The lookup `headers.find(key)`. -/
def HeaderMap.find (m : HeaderMap) (key : Str) : Option Str :=
  m.lookup key

/-! ## HttpRequest -/

structure HttpRequest where
  method_ : HttpMethod
  url_ : Str
  protocol_ : Str
  headers_ : HeaderMap
  body_ : Str
  deriving DecidableEq, Repr

/-- The state set by the constructor and by `HttpRequest::Initialize`. -/
def HttpRequest.Initialize : HttpRequest :=
  { method_ := GET, url_ := kStringSlash, protocol_ := kHttpProtocol1_1,
    headers_ := [], body_ := kStringEmpty }

def HttpRequest.SetMethod (r : HttpRequest) (method : HttpMethod) : HttpRequest :=
  { r with method_ := method }

def HttpRequest.SetUrl (r : HttpRequest) (url : Str) : HttpRequest :=
  { r with url_ := url }

def HttpRequest.SetProtocol (r : HttpRequest) (protocol : Str) : HttpRequest :=
  { r with protocol_ := protocol }

def HttpRequest.AddHeader (r : HttpRequest) (key value : Str) : HttpRequest :=
  { r with headers_ := r.headers_.set (StringToLower key) value }

def HttpRequest.GetHeader (r : HttpRequest) (key : Str) : Str :=
  match r.headers_.find (StringToLower key) with
  | some v => v
  | none => kStringEmpty

def HttpRequest.AppendToBody (r : HttpRequest) (text : Str) : HttpRequest :=
  { r with body_ := r.body_ ++ text }

def HttpRequest.CountHeaders (r : HttpRequest) : Nat := r.headers_.length

/-- The header lines written by `AsString`, in the iteration order of the
map. -/
def headerLines : HeaderMap → Str
  | [] => []
  | (k, v) :: rest =>
    k ++ kStringColon ++ kStringSpace ++ v ++ kHttpLineFeed ++ headerLines rest

def HttpRequest.AsString (r : HttpRequest) : Str :=
  HttpConstants.GetMethodString r.method_ ++ kStringSpace ++ r.url_ ++
    kStringSpace ++ r.protocol_ ++ kHttpLineFeed ++ headerLines r.headers_ ++
    kHttpLineFeed ++ r.body_

/-! ## HttpConnection and the parser -/

/-- The connection: the request in progress, the stage, the buffer of the
reader, the buffer of the writer and the expiry in milliseconds. -/
structure HttpConnection where
  request_ : HttpRequest
  stage_ : HttpStage
  reader_ : Str
  writer_ : Str
  expiry_ : Int
  deriving DecidableEq, Repr

/-- The connection made by the constructor at clock value `now`. -/
def HttpConnection.new (now : Int) : HttpConnection :=
  { request_ := HttpRequest.Initialize, stage_ := START, reader_ := [],
    writer_ := [], expiry_ := now + kHttpConnectionTimeout }

/-- Bytes received by `ReadSome` are appended to the buffer of the reader. -/
def HttpConnection.Receive (c : HttpConnection) (bytes : Str) : HttpConnection :=
  { c with reader_ := c.reader_ ++ bytes }

/-- The `for (;;)` loop of the HEADER stage.  Every turn pops one line off the
buffer; `fuel` bounds the number of turns and `none` means that it ran out.
The result is `(true, request, buffer)` when the loop left through `break`
and `(false, request, buffer)` when it left through `stage_ = FAILED`. -/
def HeaderLoop : Nat → HttpRequest → Str → Option (Bool × HttpRequest × Str)
  | 0, _, _ => none
  | fuel + 1, request, buffer =>
    let popped := StringPopSegment buffer kHttpLineFeed
    let line := StringTrim popped.1 kStringSpace
    if line.isEmpty then some (true, request, popped.2)
    else
      let split := StringPopSegment line kStringColon
      let key := StringTrim split.1 kStringSpace
      if key.isEmpty then some (false, request, popped.2)
      else
        let value := StringTrim split.2 kStringSpace
        if value.isEmpty then some (false, request, popped.2)
        else HeaderLoop fuel (request.AddHeader key value) popped.2

/-- The value given to `content_length` in `case BODY:`, that is
`content_length_string.empty() ? -1 : atoi(content_length_string.c_str())`
converted to `size_t`. -/
def BodyContentLength (request : HttpRequest) : Nat :=
  let content_length_string := request.GetHeader "content-length".toList
  if content_length_string.isEmpty then toSizeT (-1)
  else toSizeT (atoi content_length_string)

/-- The code of `case BODY:` to the end of the switch. -/
def ParseBody (c : HttpConnection) : HttpConnection :=
  let content_length := BodyContentLength c.request_
  if content_length = toSizeT (-1) then { c with stage_ := END }
  else
    let popped := StringPopSegmentAt c.reader_
      (sizeSub content_length c.request_.body_.length)
    let request := c.request_.AppendToBody popped.1
    if request.body_.length < content_length then
      { c with request_ := request, reader_ := popped.2 }
    else { c with request_ := request, reader_ := popped.2, stage_ := END }

/-- The code of `case HEADER:` to the end of the switch.  A line is at least
two bytes of the buffer, so `length + 1` turns of the loop are enough. -/
def ParseHeader (c : HttpConnection) : HttpConnection :=
  if !StringContains c.reader_ kHttpDoubleLineFeed then c
  else
    match HeaderLoop (c.reader_.length + 1) c.request_ c.reader_ with
    | none => c
    | some (true, request, buffer) =>
      ParseBody { c with request_ := request, reader_ := buffer, stage_ := BODY }
    | some (false, request, buffer) =>
      { c with request_ := request, reader_ := buffer, stage_ := FAILED }

/-- The code of `case PROTOCOL:` to the end of the switch. -/
def ParseProtocol (c : HttpConnection) : HttpConnection :=
  let position := StringPosition c.reader_ kHttpLineFeed 0
  if position = npos then c
  else
    let popped := StringPopSegmentAt c.reader_ position
    if popped.1.isEmpty || popped.1 != kHttpProtocol1_1 then
      { c with reader_ := popped.2, stage_ := FAILED }
    else
      ParseHeader { c with request_ := c.request_.SetProtocol kHttpProtocol1_1,
                           reader_ := popped.2, stage_ := HEADER }

/-- The code of `case URL:` to the end of the switch. -/
def ParseUrl (c : HttpConnection) : HttpConnection :=
  let position := StringPosition c.reader_ kStringSpace 0
  if position = npos then c
  else
    let popped := StringPopSegmentAt c.reader_ position
    if popped.1.isEmpty || !StringStartsWith popped.1 kStringSlash ||
        StringContains popped.1 (kStringSlash ++ kStringSlash) then
      { c with reader_ := popped.2, stage_ := FAILED }
    else
      ParseProtocol { c with request_ := c.request_.SetUrl popped.1,
                             reader_ := popped.2, stage_ := PROTOCOL }

/-- The code of `case START: case METHOD:` to the end of the switch. -/
def ParseMethod (c : HttpConnection) : HttpConnection :=
  let position := StringPosition c.reader_ kStringSpace 0
  if position = npos then c
  else
    let popped := StringPopSegmentAt c.reader_ position
    if popped.1.isEmpty then { c with reader_ := popped.2, stage_ := FAILED }
    else
      let method := HttpConstants.GetMethod popped.1
      if method = INVALID then { c with reader_ := popped.2, stage_ := FAILED }
      else
        ParseUrl { c with request_ := c.request_.SetMethod method,
                          reader_ := popped.2, stage_ := URL }

/-- The method `HttpConnection::Parse`: the switch on the stage, each case
falling through to the next. -/
def HttpConnection.Parse (c : HttpConnection) : HttpConnection :=
  match c.stage_ with
  | START => ParseMethod c
  | METHOD => ParseMethod c
  | URL => ParseUrl c
  | PROTOCOL => ParseProtocol c
  | HEADER => ParseHeader c
  | BODY => ParseBody c
  | END => c
  | FAILED => c

/-- One call of `Parse` on a fresh connection whose reader holds `bytes`. -/
def parseFresh (bytes : Str) : HttpConnection :=
  ((HttpConnection.new 0).Receive bytes).Parse

/-- Delivery of `bytes` one byte per readable event, `Parse` called after each
byte. -/
def parseByteByByte (c : HttpConnection) (bytes : Str) : HttpConnection :=
  bytes.foldl (fun conn b => (conn.Receive [b]).Parse) c

/-! ## HttpResponse -/

structure HttpResponse where
  protocol_ : Str
  status_ : Int
  message_ : Str
  headers_ : HeaderMap
  body_ : Str
  deriving DecidableEq, Repr

/-- The state set by the constructor of `HttpResponse`. -/
def HttpResponse.Initialize : HttpResponse :=
  { protocol_ := kHttpProtocol1_1, status_ := 200,
    message_ := HttpConstants.GetStatusString 200, headers_ := [],
    body_ := kStringEmpty }

def HttpResponse.SetStatus (r : HttpResponse) (status : Int) : HttpResponse :=
  { r with status_ := status }

def HttpResponse.SetMessage (r : HttpResponse) (message : Str) : HttpResponse :=
  { r with message_ := message }

def HttpResponse.SetBody (r : HttpResponse) (body : Str) : HttpResponse :=
  { r with body_ := body }

def HttpResponse.AddHeader (r : HttpResponse) (key value : Str) : HttpResponse :=
  { r with headers_ := r.headers_.set (StringToLower key) value }

/-- The overload `AddHeader(const std::string &key, size_t value)`. -/
def HttpResponse.AddHeaderSize (r : HttpResponse) (key : Str) (value : Nat) :
    HttpResponse :=
  { r with headers_ := r.headers_.set (StringToLower key) (to_string value) }

def HttpResponse.GetHeader (r : HttpResponse) (key : Str) : Str :=
  match r.headers_.find (StringToLower key) with
  | some v => v
  | none => kStringEmpty

/-- The builder `HttpResponse::Build(status)`; `now` is the value returned by
`time(nullptr)`. -/
def HttpResponse.Build (status : Int) (now : Int) : HttpResponse :=
  (((((HttpResponse.Initialize.SetStatus status).SetMessage
    (HttpConstants.GetStatusString status)).AddHeaderSize "date".toList
    (toSizeT now)).AddHeader "server".toList
    "alvagis version 1.0".toList).AddHeaderSize "content-length".toList 0)

/-- The builder `HttpResponse::Build(status, body)`. -/
def HttpResponse.BuildBody (status : Int) (body : Str) (now : Int) :
    HttpResponse :=
  ((((((HttpResponse.Initialize.SetStatus status).SetMessage
    (HttpConstants.GetStatusString status)).AddHeaderSize "date".toList
    (toSizeT now)).AddHeader "server".toList
    "alvagis version 1.0".toList).AddHeaderSize "content-length".toList
    body.length).SetBody body)

def HttpResponse.AsString (r : HttpResponse) : Str :=
  r.protocol_ ++ kStringSpace ++ (if r.status_ < 0 then '-' :: Nat.toDigits 10 r.status_.natAbs else Nat.toDigits 10 r.status_.natAbs) ++
    kStringSpace ++ r.message_ ++ kHttpLineFeed ++ headerLines r.headers_ ++
    kHttpLineFeed ++ r.body_

/-! ## HttpHandler and the registry of HttpServer -/

/-- A callback `std::function<HttpResponse(const HttpRequest &)>`. -/
abbrev HttpCallback := HttpRequest → HttpResponse

structure HttpHandler where
  method_ : HttpMethod
  url_ : Str
  callback_ : HttpCallback

/-- A `std::multimap<std::string, HttpHandler>`: the entries in key order,
entries of one key in the order of their insertion. -/
abbrev HandlerMap := List (Str × HttpHandler)

/-- The call `handlers.insert(std::make_pair(url, handler))`: the new entry
goes behind every entry whose key is not greater. -/
def HandlerMap.insert : HandlerMap → Str → HttpHandler → HandlerMap
  | [], url, handler => [(url, handler)]
  | (k, h) :: rest, url, handler =>
    if StrLess url k then (url, handler) :: (k, h) :: rest
    else (k, h) :: HandlerMap.insert rest url handler

/-- The call `handlers.equal_range(url)`: the entries whose key is `url`. -/
def HandlerMap.equal_range (m : HandlerMap) (url : Str) : HandlerMap :=
  m.filter (fun e => e.1 == url)

/-- The fields of `HttpServer` that registration and dispatch use. -/
structure HttpServer where
  running_ : Bool
  handlers_ : HandlerMap

/-- The server made by the constructor. -/
def HttpServer.new : HttpServer := { running_ := false, handlers_ := [] }

def HttpServer.RegisterHandler (s : HttpServer) (method : HttpMethod)
    (url : Str) (callback : HttpCallback) : HttpServer :=
  if s.running_ then s
  else
    let handler : HttpHandler := { method_ := method, url_ := url, callback_ := callback }
    let registered :=
      (s.handlers_.equal_range handler.url_).any (fun e => handler.method_ == e.2.method_)
    if registered then s
    else { s with handlers_ := s.handlers_.insert url handler }

/-- The loop of `ExecuteHandler` over the range.  The state is the response so
far and the handlers whose callback has been invoked so far, in order. -/
def ExecuteHandlerLoop (request : HttpRequest) :
    HandlerMap → HttpResponse × List HttpHandler → HttpResponse × List HttpHandler
  | [], acc => acc
  | (_, h) :: rest, acc =>
    if request.method_ = h.method_ then
      ExecuteHandlerLoop request rest (h.callback_ request, acc.2 ++ [h])
    else ExecuteHandlerLoop request rest acc

/-- The method `HttpServer::ExecuteHandler` with the list of the handlers
whose callback it invoked; `now` is the value of `time(nullptr)`. -/
def HttpServer.ExecuteHandlerTrace (s : HttpServer) (request : HttpRequest)
    (now : Int) : HttpResponse × List HttpHandler :=
  ExecuteHandlerLoop request (s.handlers_.equal_range request.url_)
    (HttpResponse.Build 404 now, [])

def HttpServer.ExecuteHandler (s : HttpServer) (request : HttpRequest)
    (now : Int) : HttpResponse :=
  (s.ExecuteHandlerTrace request now).1

/-- The registry after the calls `RegisterHandler(method, url, callback)` of
`regs`, made in order on a new server. -/
def registerAll (s : HttpServer) (regs : List (HttpMethod × Str × HttpCallback)) :
    HttpServer :=
  regs.foldl (fun srv r => srv.RegisterHandler r.1 r.2.1 r.2.2) s

/-- Two connections agree when they have the same stage, request, writer
buffer and expiry, and the same reader buffer unless the stage is END. -/
def Agree (c1 c2 : HttpConnection) : Prop :=
  c1.stage_ = c2.stage_ ∧ c1.request_ = c2.request_ ∧ c1.writer_ = c2.writer_ ∧
    c1.expiry_ = c2.expiry_ ∧ (c1.stage_ ≠ END → c1.reader_ = c2.reader_)

/-- The buffer still holds the end of a header block: it contains
`\r\n\r\n` or begins with `\r\n`. -/
def HeaderBlockAhead (buffer : Str) : Prop :=
  kHttpDoubleLineFeed <:+: buffer ∨ kHttpLineFeed <+: buffer

/-- The method `HttpConnection::Restart`; `now` is the value returned by
`TimeEpochMilliseconds()`. -/
def HttpConnection.Restart (c : HttpConnection) (now : Int) : HttpConnection :=
  { c with stage_ := START, expiry_ := now + kHttpConnectionTimeout }

/-- Delivery of a byte stream in chunks, `Parse` called after each chunk. -/
def parseChunks (c : HttpConnection) (chunks : List Str) : HttpConnection :=
  chunks.foldl (fun conn chunk => (conn.Receive chunk).Parse) c

/-! ## The connection map of HttpServer -/

/-- The member `connections_`, a `std::map<int, HttpConnection *>`: the
connections by descriptor. -/
abbrev ConnectionMap := List (Int × HttpConnection)

/-- The lookup `connections_.find(descriptor)`. -/
def ConnectionMap.find (m : ConnectionMap) (descriptor : Int) : Option HttpConnection :=
  m.lookup descriptor

/-- A change made through the pointer stored under `descriptor`. -/
def ConnectionMap.update (m : ConnectionMap) (descriptor : Int)
    (connection : HttpConnection) : ConnectionMap :=
  m.map (fun e => if e.1 = descriptor then (e.1, connection) else e)

/-- The method `HttpServer::DeleteConnection`: the entry of `descriptor` is
erased from the map (and the descriptor leaves the multiplexer). -/
def HttpServer.DeleteConnection (m : ConnectionMap) (descriptor : Int) : ConnectionMap :=
  m.filter (fun e => e.1 != descriptor)

/-- The branch `else if (epoll_instance_.IsWritable(i))` of `HttpServer::Serve`
for the event of `descriptor`.  The socket and the multiplexer are the
environment: `afterSend` is the writer buffer that `SendSome` leaves,
`hasErrors` the value of `Writer.HasErrors()` after it, `setReadable` the
result of `epoll_instance_.SetReadable(i)` and `now` the clock read by
`Restart`. -/
def HttpServer.WritableEvent (m : ConnectionMap) (descriptor : Int)
    (afterSend : Str) (hasErrors setReadable : Bool) (now : Int) : ConnectionMap :=
  match m.find descriptor with
  | none => m
  | some found =>
    let connection : HttpConnection := { found with writer_ := afterSend }
    if connection.writer_.isEmpty then
      if connection.request_.GetHeader "connection".toList == "keep-alive".toList then
        if !setReadable then
          HttpServer.DeleteConnection (m.update descriptor (connection.Restart now)) descriptor
        else m.update descriptor (connection.Restart now)
      else HttpServer.DeleteConnection (m.update descriptor connection) descriptor
    else if hasErrors then
      HttpServer.DeleteConnection (m.update descriptor connection) descriptor
    else m.update descriptor connection

/-- The bound on the body that `Parse` keeps: in stage BODY the body is
shorter than `content_length`, which is not the `-1` of "no length"; in stage
END either `content_length` is that `-1` and the body is empty, or it is not
and the body has `content_length` bytes; in every other stage the body is empty. -/
def BodyWithinLength (c : HttpConnection) : Prop :=
  match c.stage_ with
  | BODY =>
    c.request_.body_.length < BodyContentLength c.request_ ∧
      BodyContentLength c.request_ ≠ toSizeT (-1)
  | END =>
    (BodyContentLength c.request_ = toSizeT (-1) ∧ c.request_.body_ = []) ∨
      (BodyContentLength c.request_ ≠ toSizeT (-1) ∧
        c.request_.body_.length = BodyContentLength c.request_)
  | _ => c.request_.body_ = []

/-- The representation invariant of a `std::map`: the keys are in strictly
increasing order. -/
def HeaderMap.WellFormed (m : HeaderMap) : Prop :=
  m.Pairwise (fun a b => StrLess a.1 b.1 = true)

/-! ## The expiry sweep of HttpServer -/

/-- The loop of `HttpServer::DeleteExpiredConnections` from its turn number
`index` on, over the entries not yet visited.  The clock is read once in every
turn: `clock index` is the value that `TimeEpochMilliseconds()` returns in
turn `index`.  An expired entry is erased (its descriptor leaves the
multiplexer and the connection is deleted), any other entry is stepped over. -/
def DeleteExpiredLoop (clock : Nat → Int) : Nat → ConnectionMap → ConnectionMap
  | _, [] => []
  | index, (descriptor, connection) :: rest =>
    if connection.expiry_ ≤ clock index then DeleteExpiredLoop clock (index + 1) rest
    else (descriptor, connection) :: DeleteExpiredLoop clock (index + 1) rest

/-- The method `HttpServer::DeleteExpiredConnections`. -/
def HttpServer.DeleteExpiredConnections (m : ConnectionMap) (clock : Nat → Int) :
    ConnectionMap :=
  DeleteExpiredLoop clock 0 m

/-! ## Stages that wait for input -/

/-- The conditions under which `Parse` returns from the stage it was entered
at with that stage kept: no space in the buffer (START, METHOD, URL), no
`\r\n` in the buffer (PROTOCOL), no `\r\n\r\n` in the buffer (HEADER), and in
BODY an empty buffer while the body is shorter than `content_length`. -/
def LacksInput (c : HttpConnection) : Bool :=
  match c.stage_ with
  | START => StringPosition c.reader_ kStringSpace 0 == npos
  | METHOD => StringPosition c.reader_ kStringSpace 0 == npos
  | URL => StringPosition c.reader_ kStringSpace 0 == npos
  | PROTOCOL => StringPosition c.reader_ kHttpLineFeed 0 == npos
  | HEADER => !StringContains c.reader_ kHttpDoubleLineFeed
  | BODY =>
    c.reader_.isEmpty && BodyContentLength c.request_ != toSizeT (-1) &&
      decide (c.request_.body_.length < BodyContentLength c.request_)
  | END => false
  | FAILED => false

/-- A call of `Parse` finds nothing to do: the stage is END or FAILED, or the
stage waits for input. -/
def Settled (c : HttpConnection) : Prop :=
  c.stage_ = END ∨ c.stage_ = FAILED ∨ LacksInput c = true

/-! ## tcp.h, tcp.cc: sending -/

def kTcpSendBufferSize : Nat := 65536
def kTcpMaximumPayloadSize : Nat := 16777216

inductive IoStatusCode where
  | SUCCESS | NONE | ERROR | DISCONNECT | BLOCKED | TIMEOUT | OVERFLOW
  | SOCKET_FLAGS | NOT_LISTENING | NOT_CONNECTED | BAD | INTERRUPTED
  | EMPTY_BUFFER
  deriving DecidableEq, Repr

/-- The value of `errno` after `send` has returned `-1`, as far as `Send`
tells the values apart; `EWOULDBLOCK` counts as `EAGAIN`. -/
inductive SendErrno where
  | EAGAIN | EINTR | other
  deriving DecidableEq, Repr

/-- What the environment answers in one turn of the loop of `Send`: `bytes` is
the result of `send(descriptor_, &payload[0], length, 0)`, `errno` the error
number when that result is `-1`, and `clock` the value that
`TimeEpochMilliseconds()` returns when the turn reads the clock. -/
structure SendTurn where
  bytes : Int
  errno : SendErrno
  clock : Int
  deriving DecidableEq, Repr

/-- The socket as `Send` sees it on entry: the results of `IsBlocking()`,
`IsConnected()` and `IsGood()`. -/
structure TcpSocket where
  blocking : Bool
  connected_ : Bool
  good : Bool
  deriving DecidableEq, Repr

/-- The `for (;;)` loop of `TcpSocket::Send`; `start` is the clock value read
before the loop.  Every turn takes the next answer of the environment; `none`
means that the loop asks for one more answer than `turns` holds.  The result
is the returned status and the payload that is left. -/
def SendLoop (timeout start : Int) : List SendTurn → Str → Option (IoStatusCode × Str)
  | [], _ => none
  | turn :: turns, payload =>
    if turn.bytes = -1 then
      match turn.errno with
      | SendErrno.EAGAIN =>
        if timeout = 0 then some (IoStatusCode.BLOCKED, payload)
        else if turn.clock - start ≥ timeout then some (IoStatusCode.TIMEOUT, payload)
        else SendLoop timeout start turns payload
      | SendErrno.EINTR =>
        if timeout = 0 then some (IoStatusCode.INTERRUPTED, payload)
        else if turn.clock - start ≥ timeout then some (IoStatusCode.TIMEOUT, payload)
        else SendLoop timeout start turns payload
      | SendErrno.other => some (IoStatusCode.ERROR, payload)
    else if turn.bytes = 0 then some (IoStatusCode.ERROR, payload)
    else
      let erased := payload.drop (toSizeT turn.bytes)
      if erased.isEmpty then some (IoStatusCode.SUCCESS, erased)
      else if turn.clock - start ≥ timeout then some (IoStatusCode.TIMEOUT, erased)
      else SendLoop timeout start turns erased

/-- The method `TcpSocket::Send(payload, timeout)`. -/
def TcpSocket.Send (socket : TcpSocket) (start : Int) (turns : List SendTurn)
    (payload : Str) (timeout : Int) : Option (IoStatusCode × Str) :=
  if socket.blocking then some (IoStatusCode.SOCKET_FLAGS, payload)
  else if !socket.connected_ then some (IoStatusCode.NOT_CONNECTED, payload)
  else if !socket.good then some (IoStatusCode.BAD, payload)
  else if payload.length > kTcpMaximumPayloadSize then some (IoStatusCode.OVERFLOW, payload)
  else SendLoop timeout start turns payload

/-- The writer: its buffer and the status of the last transfer. -/
structure TcpWriter where
  buffer_ : Str
  status_ : IoStatusCode
  deriving DecidableEq, Repr

def TcpWriter.HasErrors (w : TcpWriter) : Bool :=
  w.status_ != IoStatusCode.SUCCESS && w.status_ != IoStatusCode.BLOCKED

def TcpWriter.IsEmpty (w : TcpWriter) : Bool := w.buffer_.isEmpty

/-- The method `TcpWriter::SendSome`: `status_ = socket_->Send(buffer_)`, the
timeout being the default `0`. -/
def TcpWriter.SendSome (w : TcpWriter) (socket : TcpSocket) (start : Int)
    (turns : List SendTurn) : Option TcpWriter :=
  match socket.Send start turns w.buffer_ 0 with
  | none => none
  | some (status, buffer) => some { buffer_ := buffer, status_ := status }

/-! ## utils.cc: replacing -/

/-- The `while` loop of `StringReplace`, with the values of `text`, `offset`
and `number` at the head of a turn.  `fuel` bounds the number of turns and
`none` means that it ran out.  The result is the text at the end of the loop
and the returned `number`. -/
def StringReplaceLoop (from_ to_ : Str) : Nat → Str → Nat → Nat → Option (Str × Nat)
  | 0, _, _, _ => none
  | fuel + 1, text, offset, number =>
    let position := StringPosition text from_ offset
    if position = npos then some (text, number)
    else
      StringReplaceLoop from_ to_ fuel
        (text.take position ++ to_ ++ text.drop (position + from_.length))
        (position + to_.length) (number + 1)

/-- The function `StringReplace(text, from, to)`: the new text and the number
of replacements.  With a non-empty `from` every turn of the loop shortens the
part of the text behind `offset`, so `length + 1` turns are enough; with an
empty `from` the loop of the source does not end. -/
def StringReplace (text from_ to_ : Str) : Option (Str × Nat) :=
  StringReplaceLoop from_ to_ (text.length + 1) text 0 0

/-- Where `StringReplaceAll` stands after a bounded number of passes: it has
returned and left `text`, or its loop is still running with `text`, or a pass
did not come to an end. -/
inductive ReplaceAllState where
  | returned (text : Str)
  | running (text : Str)
  | stuck
  deriving DecidableEq, Repr

/-- The loop `while (StringReplace(text, from, to) > 0)` of `StringReplaceAll`,
run for at most `fuel` passes. -/
def StringReplaceAllLoop (from_ to_ : Str) : Nat → Str → ReplaceAllState
  | 0, text => ReplaceAllState.running text
  | fuel + 1, text =>
    match StringReplace text from_ to_ with
    | none => ReplaceAllState.stuck
    | some (replaced, number) =>
      if number > 0 then StringReplaceAllLoop from_ to_ fuel replaced
      else ReplaceAllState.returned replaced

/-- The function `StringReplaceAll(text, from, to)`, run for at most `fuel`
passes of its loop. -/
def StringReplaceAll (fuel : Nat) (text from_ to_ : Str) : ReplaceAllState :=
  if StringContains to_ from_ then ReplaceAllState.returned text
  else StringReplaceAllLoop from_ to_ fuel text

/-! ## Lemmas -/

/-! ### Searching -/

theorem StrFind_bound (tok : Str) : ∀ (text : Str) (p : Nat),
    StrFind tok text = some p → p + tok.length ≤ text.length := by
  intro text
  induction text with
  | nil =>
    intro p h
    unfold StrFind at h
    split at h
    · rename_i he
      have : tok = [] := by simpa using he
      subst this
      simp at h
      simp [← h]
    · simp at h
  | cons c rest ih =>
    intro p h
    unfold StrFind at h
    split at h
    · rename_i hp
      have hpre : tok <+: c :: rest := List.isPrefixOf_iff_prefix.mp hp
      have := hpre.length_le
      simp at h
      subst h
      simpa using this
    · cases hr : StrFind tok rest with
      | none => simp [hr] at h
      | some q =>
        simp [hr] at h
        have := ih q hr
        subst h
        simp
        omega

theorem StrFind_single (d : Char) (rest : Str) : ∀ (pre : Str), d ∉ pre →
    StrFind [d] (pre ++ d :: rest) = some pre.length := by
  intro pre
  induction pre with
  | nil => intro _; simp [StrFind, List.isPrefixOf]
  | cons c pre ih =>
    intro h
    have hc : d ≠ c := fun e => h (by simp [e])
    have hpre : d ∉ pre := fun e => h (by simp [e])
    simp [StrFind, List.isPrefixOf, hc, ih hpre]

theorem StrFind_isSome_iff (tok : Str) : ∀ (text : Str),
    (StrFind tok text).isSome ↔ tok <:+: text := by
  intro text
  induction text with
  | nil =>
    unfold StrFind
    by_cases he : tok = []
    · simp [he]
    · have : tok.isEmpty = false := by simpa using he
      simp [this, he]
  | cons c rest ih =>
    unfold StrFind
    rw [List.infix_cons_iff]
    by_cases hp : tok.isPrefixOf (c :: rest) = true
    · simp [hp, List.isPrefixOf_iff_prefix.mp hp]
    · have hn : ¬ tok <+: c :: rest := fun e => hp (List.isPrefixOf_iff_prefix.mpr e)
      simp [hp, hn, ih]

theorem StringPosition_zero (text tok : Str) :
    StringPosition text tok 0 =
      match StrFind tok text with
      | some p => p
      | none => npos := by
  simp [StringPosition]

theorem StringPosition_found (text tok : Str) (p : Nat)
    (h : StrFind tok text = some p) : StringPosition text tok 0 = p := by
  simp [StringPosition_zero, h]

theorem StringPosition_found_ne_npos (text tok : Str) (p : Nat)
    (h : StrFind tok text = some p) (hlen : text.length < npos) :
    StringPosition text tok 0 ≠ npos := by
  rw [StringPosition_found text tok p h]
  have := StrFind_bound tok text p h
  omega

theorem StringContains_iff (text tok : Str) (hlen : text.length < npos) :
    StringContains text tok = true ↔ tok <:+: text := by
  rw [← StrFind_isSome_iff]
  unfold StringContains
  cases h : StrFind tok text with
  | none => simp [StringPosition_zero, h]
  | some p =>
    have := StringPosition_found_ne_npos text tok p h hlen
    simp [this]

theorem StringStartsWith_slash (text : Str) (hlen : text.length < npos) :
    StringStartsWith text kStringSlash = true ↔ text.head? = some '/' := by
  unfold StringStartsWith kStringSlash
  cases text with
  | nil => simp [StringPosition_zero, StrFind, npos]
  | cons c rest =>
    by_cases hc : c = '/'
    · subst hc
      simp [StringPosition_zero, StrFind, List.isPrefixOf]
    · have hc2 : ¬ '/' = c := fun e => hc e.symm
      simp only [StringPosition_zero, StrFind]
      have : (List.isPrefixOf "/".toList (c :: rest)) = false := by
        simp [List.isPrefixOf, hc2]
      simp only [this]
      cases hr : StrFind "/".toList rest with
      | none => simp [npos, hc]
      | some q => simp [hc]

theorem StringPopSegmentAt_found (pre rest : Str) (d : Char)
    (hlen : (pre ++ d :: rest).length < npos) :
    StringPopSegmentAt (pre ++ d :: rest) pre.length = (pre, rest) := by
  unfold StringPopSegmentAt
  have h1 : pre.length ≠ npos := by
    simp at hlen; omega
  have h2 : ¬ pre.length ≥ (pre ++ d :: rest).length := by simp
  simp only [h1, h2, if_false]
  simp

/-! ### Fields that the later stages leave alone -/

theorem HeaderLoop_fields : ∀ (fuel : Nat) (request : HttpRequest) (buffer : Str)
    (ok : Bool) (request2 : HttpRequest) (buffer2 : Str),
    HeaderLoop fuel request buffer = some (ok, request2, buffer2) →
    request2.method_ = request.method_ ∧ request2.url_ = request.url_ ∧
    request2.protocol_ = request.protocol_ ∧ request2.body_ = request.body_ := by
  intro fuel
  induction fuel with
  | zero => intro request buffer ok request2 buffer2 h; simp [HeaderLoop] at h
  | succ n ih =>
    intro request buffer ok request2 buffer2 h
    unfold HeaderLoop at h
    simp only at h
    split at h
    · simp at h; obtain ⟨_, h2, _⟩ := h; subst h2; simp
    · split at h
      · simp at h; obtain ⟨_, h2, _⟩ := h; subst h2; simp
      · split at h
        · simp at h; obtain ⟨_, h2, _⟩ := h; subst h2; simp
        · have := ih _ _ _ _ _ h
          simpa [HttpRequest.AddHeader] using this

theorem ParseBody_fields (c : HttpConnection) :
    (ParseBody c).request_.method_ = c.request_.method_ ∧
    (ParseBody c).request_.url_ = c.request_.url_ ∧
    (ParseBody c).request_.protocol_ = c.request_.protocol_ ∧
    (ParseBody c).request_.headers_ = c.request_.headers_ := by
  unfold ParseBody
  simp only
  split
  · simp
  · split <;> simp [HttpRequest.AppendToBody]

theorem ParseHeader_fields (c : HttpConnection) :
    (ParseHeader c).request_.method_ = c.request_.method_ ∧
    (ParseHeader c).request_.url_ = c.request_.url_ ∧
    (ParseHeader c).request_.protocol_ = c.request_.protocol_ := by
  unfold ParseHeader
  split
  · simp
  · split
    · simp
    · rename_i request buffer h
      have h1 := HeaderLoop_fields _ _ _ _ _ _ h
      have h2 := ParseBody_fields
        { c with request_ := request, reader_ := buffer, stage_ := BODY }
      simp only at h2
      exact ⟨h2.1.trans h1.1, h2.2.1.trans h1.2.1, h2.2.2.1.trans h1.2.2.1⟩
    · rename_i request buffer h
      have h1 := HeaderLoop_fields _ _ _ _ _ _ h
      exact ⟨h1.1, h1.2.1, h1.2.2.1⟩

theorem ParseProtocol_fields (c : HttpConnection) :
    (ParseProtocol c).request_.method_ = c.request_.method_ ∧
    (ParseProtocol c).request_.url_ = c.request_.url_ := by
  unfold ParseProtocol
  simp only
  split
  · simp
  · split
    · simp
    · have h := ParseHeader_fields
        { c with request_ := c.request_.SetProtocol kHttpProtocol1_1,
                 reader_ := (StringPopSegmentAt c.reader_
                   (StringPosition c.reader_ kHttpLineFeed 0)).2,
                 stage_ := HEADER }
      simp only [HttpRequest.SetProtocol] at h
      exact ⟨h.1, h.2.1⟩

theorem ParseUrl_method (c : HttpConnection) :
    (ParseUrl c).request_.method_ = c.request_.method_ := by
  unfold ParseUrl
  simp only
  split
  · simp
  · split
    · simp
    · have h := ParseProtocol_fields
        { c with request_ := c.request_.SetUrl
                   (StringPopSegmentAt c.reader_
                     (StringPosition c.reader_ kStringSpace 0)).1,
                 reader_ := (StringPopSegmentAt c.reader_
                   (StringPosition c.reader_ kStringSpace 0)).2,
                 stage_ := PROTOCOL }
      simp only [HttpRequest.SetUrl] at h
      exact h.1

/-! ### The three stages of the request line -/

theorem StrFind_crlf (rest : Str) : ∀ (pre : Str),
    ¬ kHttpLineFeed <:+: pre ++ ['\r'] →
    StrFind kHttpLineFeed (pre ++ '\r' :: '\n' :: rest) = some pre.length := by
  intro pre
  induction pre with
  | nil => intro _; simp [StrFind, kHttpLineFeed, List.isPrefixOf]
  | cons c pre ih =>
    intro h
    have htail : ¬ kHttpLineFeed <:+: pre ++ ['\r'] := by
      intro e
      exact h (by
        have : pre ++ ['\r'] <:+ (c :: pre) ++ ['\r'] := by
          simp
        exact e.trans this.isInfix)
    have hnp : (kHttpLineFeed.isPrefixOf (c :: pre ++ '\r' :: '\n' :: rest)) = false := by
      cases hb : kHttpLineFeed.isPrefixOf (c :: pre ++ '\r' :: '\n' :: rest) with
      | false => rfl
      | true =>
        exfalso
        cases pre with
        | nil => simp [kHttpLineFeed, List.isPrefixOf] at hb
        | cons d pre2 =>
          simp [kHttpLineFeed, List.isPrefixOf] at hb
          apply h
          obtain ⟨h1, h2⟩ := hb
          subst h1; subst h2
          exact ⟨[], pre2 ++ ['\r'], by simp [kHttpLineFeed]⟩
    have hcons : (c :: pre) ++ '\r' :: '\n' :: rest = c :: (pre ++ '\r' :: '\n' :: rest) := rfl
    rw [hcons, StrFind]
    rw [show (c :: pre ++ '\r' :: '\n' :: rest) = c :: (pre ++ '\r' :: '\n' :: rest) from rfl] at hnp
    simp [hnp, ih htail]

theorem lookup_mem {α β : Type} [BEq α] [LawfulBEq α] (k : α) (v : β) :
    ∀ (l : List (α × β)), l.lookup k = some v → (k, v) ∈ l := by
  intro l
  induction l with
  | nil => intro h; simp at h
  | cons e es ih =>
    intro h
    obtain ⟨k2, v2⟩ := e
    rw [List.lookup_cons] at h
    cases hk : (k == k2) with
    | true =>
      rw [hk] at h
      have : k = k2 := by simpa using hk
      simp at h
      simp [this, h]
    | false =>
      rw [hk] at h
      exact List.mem_cons_of_mem _ (ih h)

theorem GetMethod_recognized (tok : Str) (m : HttpMethod)
    (h : (tok, m) ∈ [("POST".toList, POST), ("GET".toList, GET),
      ("HEAD".toList, HEAD), ("PUT".toList, PUT), ("DELETE".toList, DELETE),
      ("CONNECT".toList, CONNECT), ("UPDATE".toList, UPDATE),
      ("TRACE".toList, TRACE), ("PATCH".toList, PATCH),
      ("OPTIONS".toList, OPTIONS)]) :
    HttpConstants.GetMethod tok = m ∧ m ≠ INVALID ∧ ' ' ∉ tok ∧ tok ≠ [] := by
  simp only [List.mem_cons, Prod.mk.injEq, List.mem_singleton, List.not_mem_nil, or_false] at h
  rcases h with h | h | h | h | h | h | h | h | h | h <;>
    (obtain ⟨h1, h2⟩ := h; subst h1; subst h2; decide)

theorem GetMethod_unrecognized (tok : Str)
    (h : tok ∉ ["POST".toList, "GET".toList, "HEAD".toList, "PUT".toList,
      "DELETE".toList, "CONNECT".toList, "UPDATE".toList, "TRACE".toList,
      "PATCH".toList, "OPTIONS".toList]) :
    HttpConstants.GetMethod tok = INVALID := by
  unfold HttpConstants.GetMethod
  cases hl : string_to_method.lookup tok with
  | none => rfl
  | some m =>
    have hm := lookup_mem tok m string_to_method hl
    simp only [string_to_method, List.mem_cons, Prod.mk.injEq, List.mem_singleton,
      List.not_mem_nil, or_false] at hm
    simp only [List.mem_cons, List.mem_singleton, List.not_mem_nil, or_false, not_or] at h
    rcases hm with hm | hm | hm | hm | hm | hm | hm | hm | hm | hm | hm
    · exact hm.2
    all_goals (exfalso; simp [hm.1] at h)

theorem ParseMethod_step (c : HttpConnection) (tok rest : Str)
    (hbuf : c.reader_ = tok ++ ' ' :: rest) (hsp : ' ' ∉ tok)
    (hlen : c.reader_.length < npos) :
    ParseMethod c =
      if tok.isEmpty then { c with reader_ := rest, stage_ := FAILED }
      else if HttpConstants.GetMethod tok = INVALID then
        { c with reader_ := rest, stage_ := FAILED }
      else ParseUrl { c with request_ := c.request_.SetMethod (HttpConstants.GetMethod tok),
                             reader_ := rest, stage_ := URL } := by
  have hfind : StrFind kStringSpace c.reader_ = some tok.length := by
    rw [hbuf]; exact StrFind_single ' ' rest tok hsp
  have hpos : StringPosition c.reader_ kStringSpace 0 = tok.length :=
    StringPosition_found _ _ _ hfind
  have hne : tok.length ≠ npos := by
    have := StringPosition_found_ne_npos _ _ _ hfind hlen
    rwa [hpos] at this
  have hpop : StringPopSegmentAt c.reader_ tok.length = (tok, rest) := by
    rw [hbuf]; rw [hbuf] at hlen; exact StringPopSegmentAt_found tok rest ' ' hlen
  unfold ParseMethod
  simp only [hpos, hne, if_false, hpop]

theorem ParseUrl_step (c : HttpConnection) (tok rest : Str)
    (hbuf : c.reader_ = tok ++ ' ' :: rest) (hsp : ' ' ∉ tok)
    (hlen : c.reader_.length < npos) :
    ParseUrl c =
      if tok.isEmpty || !StringStartsWith tok kStringSlash ||
          StringContains tok (kStringSlash ++ kStringSlash) then
        { c with reader_ := rest, stage_ := FAILED }
      else ParseProtocol { c with request_ := c.request_.SetUrl tok,
                                  reader_ := rest, stage_ := PROTOCOL } := by
  have hfind : StrFind kStringSpace c.reader_ = some tok.length := by
    rw [hbuf]; exact StrFind_single ' ' rest tok hsp
  have hpos : StringPosition c.reader_ kStringSpace 0 = tok.length :=
    StringPosition_found _ _ _ hfind
  have hne : tok.length ≠ npos := by
    have := StringPosition_found_ne_npos _ _ _ hfind hlen
    rwa [hpos] at this
  have hpop : StringPopSegmentAt c.reader_ tok.length = (tok, rest) := by
    rw [hbuf]; rw [hbuf] at hlen; exact StringPopSegmentAt_found tok rest ' ' hlen
  unfold ParseUrl
  simp only [hpos, hne, if_false, hpop]

theorem ParseProtocol_step (c : HttpConnection) (tok rest : Str)
    (hbuf : c.reader_ = tok ++ '\r' :: '\n' :: rest)
    (hfirst : ¬ kHttpLineFeed <:+: tok ++ ['\r'])
    (hlen : c.reader_.length < npos) :
    ParseProtocol c =
      if tok.isEmpty || tok != kHttpProtocol1_1 then
        { c with reader_ := '\n' :: rest, stage_ := FAILED }
      else ParseHeader { c with request_ := c.request_.SetProtocol kHttpProtocol1_1,
                                reader_ := '\n' :: rest, stage_ := HEADER } := by
  have hfind : StrFind kHttpLineFeed c.reader_ = some tok.length := by
    rw [hbuf]; exact StrFind_crlf rest tok hfirst
  have hpos : StringPosition c.reader_ kHttpLineFeed 0 = tok.length :=
    StringPosition_found _ _ _ hfind
  have hne : tok.length ≠ npos := by
    have := StringPosition_found_ne_npos _ _ _ hfind hlen
    rwa [hpos] at this
  have hpop : StringPopSegmentAt c.reader_ tok.length = (tok, '\n' :: rest) := by
    rw [hbuf]; rw [hbuf] at hlen; exact StringPopSegmentAt_found tok ('\n' :: rest) '\r' hlen
  unfold ParseProtocol
  simp only [hpos, hne, if_false, hpop]

theorem url_check_iff (url : Str) (hlen : url.length < npos) :
    (url.isEmpty || !StringStartsWith url kStringSlash ||
      StringContains url (kStringSlash ++ kStringSlash)) = true ↔
    (url = [] ∨ url.head? ≠ some '/' ∨ "//".toList <:+: url) := by
  have hstart := StringStartsWith_slash url hlen
  have hcont := StringContains_iff url (kStringSlash ++ kStringSlash) hlen
  have hss : kStringSlash ++ kStringSlash = "//".toList := by decide
  rw [hss] at hcont ⊢
  rw [Bool.or_eq_true, Bool.or_eq_true, hcont, or_assoc]
  have e1 : url.isEmpty = true ↔ url = [] := by simp
  have e2 : (!StringStartsWith url kStringSlash) = true ↔ url.head? ≠ some '/' := by
    rw [Ne, ← hstart]; simp
  rw [e1, e2]

theorem Parse_request_line_url (c : HttpConnection) (tok url rest : Str) (m : HttpMethod)
    (hstage : c.stage_ = START)
    (hm : (tok, m) ∈ [("POST".toList, POST), ("GET".toList, GET),
        ("HEAD".toList, HEAD), ("PUT".toList, PUT), ("DELETE".toList, DELETE),
        ("CONNECT".toList, CONNECT), ("UPDATE".toList, UPDATE),
        ("TRACE".toList, TRACE), ("PATCH".toList, PATCH),
        ("OPTIONS".toList, OPTIONS)])
    (hbuf : c.reader_ = tok ++ ' ' :: (url ++ ' ' :: rest)) (hsp : ' ' ∉ url)
    (hlen : c.reader_.length < npos) :
    c.Parse =
      if (url = [] ∨ url.head? ≠ some '/' ∨ "//".toList <:+: url) then
        { c with request_ := c.request_.SetMethod m, reader_ := rest, stage_ := FAILED }
      else ParseProtocol
        { c with request_ := (c.request_.SetMethod m).SetUrl url, reader_ := rest,
                 stage_ := PROTOCOL } := by
  obtain ⟨h1, h2, h3, h4⟩ := GetMethod_recognized tok m hm
  have he : tok.isEmpty = false := by simpa using h4
  have hP : c.Parse = ParseUrl
      { c with request_ := c.request_.SetMethod m, reader_ := url ++ ' ' :: rest, stage_ := URL } := by
    have hstep := ParseMethod_step c tok (url ++ ' ' :: rest) hbuf h3 hlen
    simp [HttpConnection.Parse, hstage, hstep, he, h1, h2]
  have hlen2 : (url ++ ' ' :: rest).length < npos := by
    rw [hbuf] at hlen; simp at hlen ⊢; omega
  have hlen3 : url.length < npos := by
    simp at hlen2; omega
  have hstep := ParseUrl_step
    { c with request_ := c.request_.SetMethod m, reader_ := url ++ ' ' :: rest, stage_ := URL }
    url rest rfl hsp hlen2
  have hiff := url_check_iff url hlen3
  rw [hP, hstep]
  by_cases hb : (url = [] ∨ url.head? ≠ some '/' ∨ "//".toList <:+: url)
  · rw [if_pos hb, if_pos (hiff.mpr hb)]
  · rw [if_neg hb, if_neg (fun e => hb (hiff.mp e))]

/-! ### The handler registry -/

theorem HandlerMap_insert_split (url : Str) (handler : HttpHandler) :
    ∀ (l : HandlerMap), ∃ l1 l2 : HandlerMap,
      l = l1 ++ l2 ∧ HandlerMap.insert l url handler = l1 ++ (url, handler) :: l2 := by
  intro l
  induction l with
  | nil => exact ⟨[], [], rfl, rfl⟩
  | cons e rest ih =>
    obtain ⟨k, h⟩ := e
    by_cases hlt : StrLess url k = true
    · exact ⟨[], (k, h) :: rest, rfl, by simp [HandlerMap.insert, hlt]⟩
    · obtain ⟨l1, l2, h1, h2⟩ := ih
      refine ⟨(k, h) :: l1, l2, by simp [h1], ?_⟩
      simp [HandlerMap.insert, hlt, h2]

theorem HandlerMap_insert_filter (p : Str × HttpHandler → Bool) (url : Str)
    (handler : HttpHandler) (l : HandlerMap) :
    (p (url, handler) = false →
      (HandlerMap.insert l url handler).filter p = l.filter p) ∧
    (p (url, handler) = true → l.filter p = [] →
      (HandlerMap.insert l url handler).filter p = [(url, handler)]) := by
  obtain ⟨l1, l2, h1, h2⟩ := HandlerMap_insert_split url handler l
  constructor
  · intro hp
    rw [h2, h1, List.filter_append, List.filter_append, List.filter_cons_of_neg (by simp [hp])]
  · intro hp hnil
    rw [h1, List.filter_append, List.append_eq_nil] at hnil
    rw [h2, List.filter_append, List.filter_cons_of_pos hp, hnil.1, hnil.2]
    rfl

/-- The entries of a registry stored for `url` and `method`. -/
theorem registered_iff_filter (l : HandlerMap) (url : Str) (method : HttpMethod) :
    ((l.equal_range url).any (fun e => method == e.2.method_)) =
      !(l.filter (fun e => e.1 == url && method == e.2.method_)).isEmpty := by
  unfold HandlerMap.equal_range
  induction l with
  | nil => rfl
  | cons e rest ih =>
    by_cases h1 : (e.1 == url) = true
    · by_cases h2 : (method == e.2.method_) = true
      · simp [List.filter_cons, h1, h2]
      · simp only [List.filter_cons, h1, h2, if_true, List.any_cons, Bool.false_or,
          Bool.and_false] at ih ⊢
        simpa using ih
    · simp only [List.filter_cons, h1, Bool.false_and] at ih ⊢
      simpa using ih

theorem RegisterHandler_running (s : HttpServer) (method : HttpMethod) (url : Str)
    (callback : HttpCallback) :
    (s.RegisterHandler method url callback).running_ = s.running_ := by
  unfold HttpServer.RegisterHandler
  split
  · rfl
  · simp only
    split <;> rfl

theorem RegisterHandler_filter (s : HttpServer) (method : HttpMethod) (url : Str)
    (callback : HttpCallback) (hrun : s.running_ = false) (u : Str) (m : HttpMethod) :
    (s.RegisterHandler method url callback).handlers_.filter
        (fun e => e.1 == u && m == e.2.method_) =
      if ((method == m && url == u) &&
          (s.handlers_.filter (fun e => e.1 == u && m == e.2.method_)).isEmpty) = true then
        [(url, { method_ := method, url_ := url, callback_ := callback })]
      else s.handlers_.filter (fun e => e.1 == u && m == e.2.method_) := by
  unfold HttpServer.RegisterHandler
  simp only [hrun, Bool.false_eq_true, if_false]
  rw [registered_iff_filter]
  have hins := HandlerMap_insert_filter (fun e => e.1 == u && m == e.2.method_) url
    { method_ := method, url_ := url, callback_ := callback } s.handlers_
  by_cases hsame : (method == m && url == u) = true
  · have hm : method = m := by simp at hsame; exact hsame.1
    have hu : url = u := by simp at hsame; exact hsame.2
    subst hm; subst hu
    cases hnil : (s.handlers_.filter (fun e => e.1 == url && method == e.2.method_)).isEmpty with
    | true =>
      have hnil2 : s.handlers_.filter (fun e => e.1 == url && method == e.2.method_) = [] :=
        List.isEmpty_iff.mp hnil
      simp only [hsame, Bool.and_self, if_true, Bool.not_true, Bool.false_eq_true, if_false]
      exact hins.2 (by simp) hnil2
    | false =>
      simp only [Bool.and_false, Bool.false_eq_true, if_false, Bool.not_false, if_true]
  · have hsame2 : (method == m && url == u) = false := by simpa using hsame
    rw [hsame2, Bool.false_and, if_neg Bool.false_ne_true]
    have hp : (fun e : Str × HttpHandler => e.1 == u && m == e.2.method_)
        (url, { method_ := method, url_ := url, callback_ := callback }) = false := by
      simp only [Bool.and_eq_false_iff]
      simp only [Bool.and_eq_false_iff] at hsame2
      rcases hsame2 with h | h
      · right
        simp only [beq_eq_false_iff_ne, ne_eq] at h ⊢
        exact fun e => h e.symm
      · left; exact h
    cases hnil : (s.handlers_.filter (fun e => e.1 == url && method == e.2.method_)).isEmpty with
    | true =>
      simp only [Bool.not_true, Bool.false_eq_true, if_false]
      exact hins.1 hp
    | false =>
      simp only [Bool.not_false, if_true]

theorem registerAll_running (regs : List (HttpMethod × Str × HttpCallback)) :
    ∀ (s : HttpServer), (registerAll s regs).running_ = s.running_ := by
  induction regs with
  | nil => intro s; rfl
  | cons g rest ih =>
    intro s
    simp only [registerAll, List.foldl_cons] at ih ⊢
    rw [ih, RegisterHandler_running]

theorem registerAll_filter (u : Str) (m : HttpMethod)
    (regs : List (HttpMethod × Str × HttpCallback)) :
    ∀ (s : HttpServer), s.running_ = false →
    (registerAll s regs).handlers_.filter (fun e => e.1 == u && m == e.2.method_) =
      if (s.handlers_.filter (fun e => e.1 == u && m == e.2.method_)).isEmpty = true then
        match regs.find? (fun g => g.1 == m && g.2.1 == u) with
        | some g => [(g.2.1, { method_ := g.1, url_ := g.2.1, callback_ := g.2.2 })]
        | none => []
      else s.handlers_.filter (fun e => e.1 == u && m == e.2.method_) := by
  induction regs with
  | nil =>
    intro s _
    cases h : (s.handlers_.filter (fun e => e.1 == u && m == e.2.method_)).isEmpty with
    | true =>
      simp only [registerAll, List.foldl_nil, if_true, List.find?_nil]
      exact List.isEmpty_iff.mp h
    | false =>
      simp only [registerAll, List.foldl_nil, Bool.false_eq_true, if_false]
  | cons g rest ih =>
    intro s hrun
    have hrun2 : (s.RegisterHandler g.1 g.2.1 g.2.2).running_ = false := by
      rw [RegisterHandler_running]; exact hrun
    have hstep := RegisterHandler_filter s g.1 g.2.1 g.2.2 hrun u m
    have h := ih (s.RegisterHandler g.1 g.2.1 g.2.2) hrun2
    simp only [registerAll, List.foldl_cons] at h ⊢
    rw [h, hstep]
    cases hnil : (s.handlers_.filter (fun e => e.1 == u && m == e.2.method_)).isEmpty with
    | true =>
      by_cases hsame : (g.1 == m && g.2.1 == u) = true
      · simp only [hsame, List.find?_cons, Bool.and_self, if_true, List.isEmpty_cons,
          Bool.false_eq_true, if_false]
      · have hsame2 : (g.1 == m && g.2.1 == u) = false := by simpa using hsame
        simp only [hsame2, List.find?_cons, Bool.false_and, Bool.false_eq_true, if_false,
          hnil, if_true]
    | false =>
      simp only [Bool.and_false, Bool.false_eq_true, if_false, hnil]

theorem ExecuteHandlerLoop_filter (request : HttpRequest) :
    ∀ (l : HandlerMap) (acc : HttpResponse × List HttpHandler),
    ExecuteHandlerLoop request l acc =
      ExecuteHandlerLoop request
        (l.filter (fun e => request.method_ == e.2.method_)) acc := by
  intro l
  induction l with
  | nil => intro acc; rfl
  | cons e rest ih =>
    intro acc
    obtain ⟨k, h⟩ := e
    by_cases hm : request.method_ = h.method_
    · simp only [ExecuteHandlerLoop, hm, if_true, List.filter_cons, beq_self_eq_true]
      rw [ih]
      simp [hm]
    · have hb : (request.method_ == h.method_) = false := by simpa using hm
      simp only [ExecuteHandlerLoop, hm, if_false, List.filter_cons, hb]
      rw [ih]
      simp

theorem ExecuteHandlerTrace_filter (s : HttpServer) (request : HttpRequest) (now : Int) :
    s.ExecuteHandlerTrace request now =
      ExecuteHandlerLoop request
        (s.handlers_.filter (fun e => e.1 == request.url_ && request.method_ == e.2.method_))
        (HttpResponse.Build 404 now, []) := by
  unfold HttpServer.ExecuteHandlerTrace HandlerMap.equal_range
  rw [ExecuteHandlerLoop_filter, List.filter_filter]
  congr 2
  funext e
  rw [Bool.and_comm]

theorem Build_not_found (now : Int) :
    (HttpResponse.Build 404 now).status_ = 404 ∧
    (HttpResponse.Build 404 now).message_ = "Not Found".toList ∧
    (HttpResponse.Build 404 now).body_ = [] ∧
    (HttpResponse.Build 404 now).GetHeader "content-length".toList = "0".toList :=
  ⟨rfl, rfl, rfl, rfl⟩

theorem registerAll_dispatch (regs : List (HttpMethod × Str × HttpCallback))
    (r : HttpRequest) (now : Int) :
    (registerAll HttpServer.new regs).ExecuteHandlerTrace r now =
      match regs.find? (fun g => g.1 == r.method_ && g.2.1 == r.url_) with
      | some g => (g.2.2 r, [{ method_ := g.1, url_ := g.2.1, callback_ := g.2.2 }])
      | none => (HttpResponse.Build 404 now, []) := by
  rw [ExecuteHandlerTrace_filter, registerAll_filter r.url_ r.method_ regs HttpServer.new rfl]
  simp only [HttpServer.new, List.filter_nil, List.isEmpty_nil, if_true]
  cases hf : regs.find? (fun g => g.1 == r.method_ && g.2.1 == r.url_) with
  | none => rfl
  | some g =>
    have hp := List.find?_some hf
    have hm : r.method_ = g.1 := by simp at hp; exact hp.1.symm
    simp [ExecuteHandlerLoop, hm]

/-! ### Resuming the parser -/

theorem toSizeT_lt (i : Int) : toSizeT i < 2 ^ 64 := by
  unfold toSizeT
  have h1 : (0 : Int) ≤ i % (2 ^ 64 : Int) := Int.emod_nonneg _ (by norm_num)
  have h2 : i % (2 ^ 64 : Int) < (2 ^ 64 : Int) := Int.emod_lt_of_pos _ (by norm_num)
  omega

theorem toSizeT_neg_one : toSizeT (-1) = npos := by decide

theorem BodyContentLength_lt (request : HttpRequest) :
    BodyContentLength request < 2 ^ 64 := by
  unfold BodyContentLength
  simp only
  split <;> exact toSizeT_lt _

theorem sizeSub_le (n k : Nat) (hk : k ≤ n) (hn : n < 2 ^ 64) : sizeSub n k = n - k := by
  unfold sizeSub
  have h1 : n % 2 ^ 64 = n := Nat.mod_eq_of_lt hn
  have h2 : k % 2 ^ 64 = k := Nat.mod_eq_of_lt (by omega)
  rw [h1, h2]
  have h3 : n + 2 ^ 64 - k = (n - k) + 2 ^ 64 := by omega
  rw [h3, Nat.add_mod_right]
  exact Nat.mod_eq_of_lt (by omega)

theorem StringPopSegmentAt_take (text : Str) (position : Nat) (h : position ≠ npos) :
    StringPopSegmentAt text position = (text.take position, text.drop (position + 1)) := by
  unfold StringPopSegmentAt
  rw [if_neg h]
  split
  · rename_i hge
    rw [List.take_of_length_le hge, List.drop_of_length_le (by omega)]
  · rfl

theorem ParseBody_end (c : HttpConnection)
    (hn : BodyContentLength c.request_ = toSizeT (-1)) :
    ParseBody c = { c with stage_ := END } := by
  unfold ParseBody
  simp only [hn, if_true]

theorem ParseBody_take (c : HttpConnection)
    (hn : BodyContentLength c.request_ ≠ toSizeT (-1))
    (hk : c.request_.body_.length ≤ BodyContentLength c.request_) :
    ParseBody c =
      { c with
        request_ := c.request_.AppendToBody
          (c.reader_.take (BodyContentLength c.request_ - c.request_.body_.length)),
        reader_ := c.reader_.drop
          (BodyContentLength c.request_ - c.request_.body_.length + 1),
        stage_ :=
          if (c.request_.AppendToBody (c.reader_.take
              (BodyContentLength c.request_ - c.request_.body_.length))).body_.length <
              BodyContentLength c.request_ then c.stage_
          else END } := by
  have hlt := BodyContentLength_lt c.request_
  have hsub := sizeSub_le _ _ hk hlt
  have hne : BodyContentLength c.request_ - c.request_.body_.length ≠ npos := by
    rw [toSizeT_neg_one] at hn
    unfold npos at hn ⊢
    omega
  unfold ParseBody
  simp only [hn, if_false, hsub, StringPopSegmentAt_take _ _ hne]
  split <;> rfl

theorem BodyContentLength_AppendToBody (request : HttpRequest) (text : Str) :
    BodyContentLength (request.AppendToBody text) = BodyContentLength request := rfl

theorem Agree_refl (c : HttpConnection) : Agree c c :=
  ⟨rfl, rfl, rfl, rfl, fun _ => rfl⟩

theorem Agree_trans (c1 c2 c3 : HttpConnection) (h12 : Agree c1 c2) (h23 : Agree c2 c3) :
    Agree c1 c3 := by
  obtain ⟨a1, a2, a3, a4, a5⟩ := h12
  obtain ⟨b1, b2, b3, b4, b5⟩ := h23
  exact ⟨a1.trans b1, a2.trans b2, a3.trans b3, a4.trans b4,
    fun h => (a5 h).trans (b5 (a1 ▸ h))⟩

theorem Agree_eq_of_not_end (c1 c2 : HttpConnection) (h : Agree c1 c2)
    (hne : c1.stage_ ≠ END) : c1 = c2 := by
  obtain ⟨a1, a2, a3, a4, a5⟩ := h
  cases c1; cases c2
  simp only at a1 a2 a3 a4 a5 hne
  simp [a1, a2, a3, a4, a5 hne]

theorem Parse_at_end (c : HttpConnection) (h : c.stage_ = END) : c.Parse = c := by
  simp [HttpConnection.Parse, h]

theorem Parse_at_failed (c : HttpConnection) (h : c.stage_ = FAILED) : c.Parse = c := by
  simp [HttpConnection.Parse, h]

theorem Agree_step (c1 c2 : HttpConnection) (x : Str) (h : Agree c1 c2) :
    Agree ((c1.Receive x).Parse) ((c2.Receive x).Parse) := by
  by_cases he : c1.stage_ = END
  · have he2 : c2.stage_ = END := h.1 ▸ he
    rw [Parse_at_end _ (by simpa [HttpConnection.Receive] using he),
      Parse_at_end _ (by simpa [HttpConnection.Receive] using he2)]
    obtain ⟨a1, a2, a3, a4, _⟩ := h
    refine ⟨a1, a2, a3, a4, fun hne => absurd he hne⟩
  · rw [Agree_eq_of_not_end c1 c2 h he]
    exact Agree_refl _

theorem ParseBody_resume (c : HttpConnection) (x : Str) (hstage : c.stage_ = BODY)
    (hbody : c.request_.body_ = []) :
    Agree (((ParseBody c).Receive x).Parse) (ParseBody (c.Receive x)) := by
  by_cases hn : BodyContentLength c.request_ = toSizeT (-1)
  · rw [ParseBody_end c hn, ParseBody_end (c.Receive x) (by simpa [HttpConnection.Receive] using hn)]
    rw [Parse_at_end _ rfl]
    exact ⟨rfl, rfl, rfl, rfl, fun _ => rfl⟩
  · have hk : c.request_.body_.length ≤ BodyContentLength c.request_ := by simp [hbody]
    have hR : ParseBody (c.Receive x) = _ :=
      ParseBody_take (c.Receive x) (by simpa [HttpConnection.Receive] using hn)
        (by simpa [HttpConnection.Receive] using hk)
    have hL : ParseBody c = _ := ParseBody_take c hn hk
    rw [hR, hL]
    simp only [HttpConnection.Receive, hbody, List.length_nil, Nat.sub_zero,
      HttpRequest.AppendToBody, List.nil_append, hstage]
    generalize hnv : BodyContentLength c.request_ = n at *
    by_cases hlen : c.reader_.length < n
    · have ht : c.reader_.take n = c.reader_ := List.take_of_length_le (by omega)
      have hd : c.reader_.drop (n + 1) = [] := List.drop_of_length_le (by omega)
      have hlt : (c.reader_.take n).length < n := by rw [ht]; exact hlen
      simp only [hlt, hlen, if_true, hd, List.nil_append, ht]
      have hP : ∀ d : HttpConnection, d.stage_ = BODY → d.Parse = ParseBody d := by
        intro d hd; simp [HttpConnection.Parse, hd]
      rw [hP _ rfl]
      have hnv2 : BodyContentLength (HttpRequest.mk c.request_.method_ c.request_.url_
          c.request_.protocol_ c.request_.headers_ c.reader_) = n := by
        rw [← hnv]; rfl
      have hd2 := ParseBody_take
        (HttpConnection.mk (HttpRequest.mk c.request_.method_ c.request_.url_
          c.request_.protocol_ c.request_.headers_ c.reader_) BODY x c.writer_ c.expiry_)
        (by rw [hnv2]; exact hn) (by rw [hnv2]; exact Nat.le_of_lt hlen)
      rw [hd2]
      simp only [hnv2, HttpRequest.AppendToBody]
      have e1 : List.take n (c.reader_ ++ x) = c.reader_ ++ List.take (n - c.reader_.length) x := by
        rw [List.take_append_eq_append_take, ht]
      have e2 : List.drop (n + 1) (c.reader_ ++ x) = List.drop (n - c.reader_.length + 1) x := by
        rw [List.drop_append_eq_append_drop, hd, List.nil_append]
        congr 1
        omega
      rw [e1, e2]
      exact Agree_refl _
    · have ht : List.take n (c.reader_ ++ x) = List.take n c.reader_ := by
        rw [List.take_append_eq_append_take]
        have : n - c.reader_.length = 0 := by omega
        rw [this]; simp
      have hl : (List.take n c.reader_).length = n := by
        rw [List.length_take]; omega
      rw [ht]
      simp only [hl, Nat.lt_irrefl, if_false]
      rw [Parse_at_end _ rfl]
      exact ⟨rfl, rfl, rfl, rfl, fun h => absurd rfl h⟩

theorem StrFind_append (tok x : Str) : ∀ (text : Str) (p : Nat),
    StrFind tok text = some p → StrFind tok (text ++ x) = some p := by
  intro text
  induction text with
  | nil =>
    intro p h
    unfold StrFind at h
    split at h
    · rename_i he
      have ht : tok = [] := by simpa using he
      subst ht
      simp at h
      subst h
      cases x <;> simp [StrFind, List.isPrefixOf]
    · simp at h
  | cons c rest ih =>
    intro p h
    have hb := StrFind_bound tok _ _ h
    unfold StrFind at h
    rw [List.cons_append, StrFind]
    split at h
    · rename_i hp
      have hpre : tok <+: c :: rest := List.isPrefixOf_iff_prefix.mp hp
      have hpre2 : tok <+: c :: (rest ++ x) := by
        have := hpre.trans (List.prefix_append (c :: rest) x)
        simpa using this
      rw [if_pos (List.isPrefixOf_iff_prefix.mpr hpre2)]
      exact h
    · rename_i hp
      cases hr : StrFind tok rest with
      | none => simp [hr] at h
      | some q =>
        have hq := StrFind_bound tok _ _ hr
        have hnp : ¬ tok.isPrefixOf (c :: (rest ++ x)) = true := by
          intro e
          have e1 : tok <+: (c :: rest) ++ x := by
            simpa using List.isPrefixOf_iff_prefix.mp e
          have e2 : c :: rest <+: (c :: rest) ++ x := List.prefix_append _ _
          have e3 : tok <+: c :: rest :=
            List.prefix_of_prefix_length_le e1 e2 (by simp; omega)
          exact hp (List.isPrefixOf_iff_prefix.mpr e3)
        rw [if_neg hnp, ih q hr]
        simpa [hr] using h

theorem StringPopSegment_found (text delimiter : Str) (p : Nat)
    (h : StrFind delimiter text = some p) :
    StringPopSegment text delimiter =
      if p = npos then ([], text)
      else (text.take p, text.drop (p + delimiter.length)) := by
  unfold StringPopSegment
  simp only [StringPosition_found text delimiter p h, kStringEmpty]

theorem StringPopSegment_not_found (text delimiter : Str)
    (h : StrFind delimiter text = none) :
    StringPopSegment text delimiter = ([], text) := by
  unfold StringPopSegment
  simp [StringPosition_zero, h, kStringEmpty]

theorem StringTrim_nil (token : Str) : StringTrim [] token = [] := rfl

theorem PopSegment_line_shorter (buffer : Str)
    (h : (StringPopSegment buffer kHttpLineFeed).1 ≠ []) :
    (StringPopSegment buffer kHttpLineFeed).2.length + 2 ≤ buffer.length := by
  cases hf : StrFind kHttpLineFeed buffer with
  | none =>
    rw [StringPopSegment_not_found _ _ hf] at h
    exact absurd rfl h
  | some p =>
    have hb := StrFind_bound _ _ _ hf
    rw [StringPopSegment_found _ _ p hf] at h ⊢
    by_cases hp : p = npos
    · rw [if_pos hp] at h
      exact absurd rfl h
    · rw [if_neg hp]
      have : kHttpLineFeed.length = 2 := rfl
      simp only [List.length_drop, this] at hb ⊢
      omega

theorem HeaderBlockAhead_found (buffer : Str) (h : HeaderBlockAhead buffer) :
    ∃ p, StrFind kHttpLineFeed buffer = some p := by
  have hin : kHttpLineFeed <:+: buffer := by
    rcases h with h | h
    · have : kHttpLineFeed <:+: kHttpDoubleLineFeed :=
        ⟨[], kHttpLineFeed, by decide⟩
      exact this.trans h
    · exact h.isInfix
  have := (StrFind_isSome_iff kHttpLineFeed buffer).mpr hin
  exact Option.isSome_iff_exists.mp this

theorem HeaderBlockAhead_drop : ∀ (buffer : Str) (p : Nat),
    StrFind kHttpLineFeed buffer = some p → kHttpDoubleLineFeed <:+: buffer →
    HeaderBlockAhead (buffer.drop (p + 2)) := by
  intro buffer
  induction buffer with
  | nil => intro p h; simp [StrFind, kHttpLineFeed] at h
  | cons c rest ih =>
    intro p h hd
    unfold StrFind at h
    split at h
    · rename_i hp
      simp at h
      subst h
      have hpre : kHttpLineFeed <+: c :: rest := List.isPrefixOf_iff_prefix.mp hp
      obtain ⟨t, ht⟩ := hpre
      simp only [kHttpLineFeed, String.toList] at ht
      simp at ht
      obtain ⟨hc, hrest⟩ := ht
      subst hc
      subst hrest
      simp only [Nat.zero_add, List.drop_succ_cons, List.drop_zero]
      rw [List.infix_cons_iff] at hd
      rcases hd with hd | hd
      · right
        obtain ⟨u, hu⟩ := hd
        simp [kHttpDoubleLineFeed] at hu
        exact ⟨u, by simpa [kHttpLineFeed] using hu⟩
      · rw [List.infix_cons_iff] at hd
        rcases hd with hd | hd
        · obtain ⟨u, hu⟩ := hd
          simp [kHttpDoubleLineFeed] at hu
        · left; exact hd
    · rename_i hp
      cases hr : StrFind kHttpLineFeed rest with
      | none => simp [hr] at h
      | some q =>
        simp [hr] at h
        subst h
        rw [List.infix_cons_iff] at hd
        rcases hd with hd | hd
        · exfalso
          apply hp
          apply List.isPrefixOf_iff_prefix.mpr
          have : kHttpLineFeed <+: kHttpDoubleLineFeed := ⟨kHttpLineFeed, by decide⟩
          exact this.trans hd
        · simpa using ih q hr hd

theorem PopSegment_line_append (buffer x : Str) (h : HeaderBlockAhead buffer) :
    (StringPopSegment (buffer ++ x) kHttpLineFeed).1 =
      (StringPopSegment buffer kHttpLineFeed).1 ∧
    (StringPopSegment (buffer ++ x) kHttpLineFeed).2 =
      (StringPopSegment buffer kHttpLineFeed).2 ++ x ∧
    ((StringPopSegment buffer kHttpLineFeed).1 ≠ [] →
      HeaderBlockAhead (StringPopSegment buffer kHttpLineFeed).2) := by
  obtain ⟨p, hf⟩ := HeaderBlockAhead_found buffer h
  have hf2 := StrFind_append kHttpLineFeed x buffer p hf
  have hb := StrFind_bound _ _ _ hf
  have h2 : kHttpLineFeed.length = 2 := rfl
  rw [StringPopSegment_found _ _ p hf, StringPopSegment_found _ _ p hf2]
  by_cases hp : p = npos
  · rw [if_pos hp, if_pos hp]
    exact ⟨rfl, rfl, fun e => absurd rfl e⟩
  · rw [if_neg hp, if_neg hp]
    simp only [h2] at hb ⊢
    refine ⟨?_, ?_, ?_⟩
    · rw [List.take_append_of_le_length (by omega)]
    · rw [List.drop_append_of_le_length (by omega)]
    · intro hne
      rcases h with h | h
      · exact HeaderBlockAhead_drop buffer p hf h
      · exfalso
        have h0 : StrFind kHttpLineFeed buffer = some 0 := by
          cases buffer with
          | nil => simp [kHttpLineFeed] at h
          | cons c rest =>
            unfold StrFind
            rw [if_pos (List.isPrefixOf_iff_prefix.mpr h)]
        rw [hf] at h0
        simp at h0
        subst h0
        simp at hne

theorem HeaderLoop_fuel : ∀ (n : Nat) (request : HttpRequest) (buffer : Str) (fuel : Nat),
    buffer.length ≤ n → n < fuel →
    HeaderLoop fuel request buffer = HeaderLoop (n + 1) request buffer ∧
    (HeaderLoop (n + 1) request buffer).isSome = true := by
  intro n
  induction n with
  | zero =>
    intro request buffer fuel hlen hfuel
    have hb : buffer = [] := List.length_eq_zero.mp (Nat.le_zero.mp hlen)
    subst hb
    cases fuel with
    | zero => omega
    | succ f =>
      have hpop : StringPopSegment [] kHttpLineFeed = ([], []) := by decide
      simp [HeaderLoop, hpop, StringTrim_nil]
  | succ n ih =>
    intro request buffer fuel hlen hfuel
    cases fuel with
    | zero => omega
    | succ f =>
      rw [HeaderLoop, HeaderLoop]
      simp only
      split
      · exact ⟨rfl, rfl⟩
      · rename_i hline
        have hne : (StringPopSegment buffer kHttpLineFeed).1 ≠ [] := by
          intro e
          rw [e, StringTrim_nil] at hline
          exact hline rfl
        have hshort := PopSegment_line_shorter buffer hne
        split
        · exact ⟨rfl, rfl⟩
        · split
          · exact ⟨rfl, rfl⟩
          · exact ih _ _ f (by omega) (by omega)

theorem HeaderLoop_append (x : Str) : ∀ (fuel : Nat) (request : HttpRequest) (buffer : Str)
    (ok : Bool) (request2 : HttpRequest) (buffer2 : Str),
    HeaderBlockAhead buffer →
    HeaderLoop fuel request buffer = some (ok, request2, buffer2) →
    HeaderLoop fuel request (buffer ++ x) = some (ok, request2, buffer2 ++ x) := by
  intro fuel
  induction fuel with
  | zero => intro request buffer ok request2 buffer2 _ h; simp [HeaderLoop] at h
  | succ f ih =>
    intro request buffer ok request2 buffer2 hinv h
    obtain ⟨h1, h2, h3⟩ := PopSegment_line_append buffer x hinv
    rw [HeaderLoop] at h ⊢
    simp only [h1, h2] at h ⊢
    split at h
    · rename_i hline
      rw [if_pos hline]
      simp only [Option.some.injEq, Prod.mk.injEq] at h ⊢
      obtain ⟨e1, e2, e3⟩ := h
      exact ⟨e1, e2, by rw [e3]⟩
    · rename_i hline
      rw [if_neg hline]
      have hne : (StringPopSegment buffer kHttpLineFeed).1 ≠ [] := by
        intro e
        rw [e, StringTrim_nil] at hline
        exact hline rfl
      split at h
      · rename_i hkey
        rw [if_pos hkey]
        simp only [Option.some.injEq, Prod.mk.injEq] at h ⊢
        obtain ⟨e1, e2, e3⟩ := h
        exact ⟨e1, e2, by rw [e3]⟩
      · rename_i hkey
        rw [if_neg hkey]
        split at h
        · rename_i hval
          rw [if_pos hval]
          simp only [Option.some.injEq, Prod.mk.injEq] at h ⊢
          obtain ⟨e1, e2, e3⟩ := h
          exact ⟨e1, e2, by rw [e3]⟩
        · rename_i hval
          rw [if_neg hval]
          exact ih _ _ _ _ _ (h3 hne) h

theorem ParseHeader_stalled (c : HttpConnection)
    (hc : StringContains c.reader_ kHttpDoubleLineFeed = false) : ParseHeader c = c := by
  unfold ParseHeader
  simp [hc]

theorem ParseHeader_eq (c : HttpConnection) (ok : Bool) (request : HttpRequest)
    (buffer : Str) (hc : StringContains c.reader_ kHttpDoubleLineFeed = true)
    (hL : HeaderLoop (c.reader_.length + 1) c.request_ c.reader_ =
      some (ok, request, buffer)) :
    ParseHeader c =
      if ok = true then
        ParseBody { c with request_ := request, reader_ := buffer, stage_ := BODY }
      else { c with request_ := request, reader_ := buffer, stage_ := FAILED } := by
  unfold ParseHeader
  rw [hc, hL]
  cases ok <;> simp

theorem ParseHeader_resume (c : HttpConnection) (x : Str) (hstage : c.stage_ = HEADER)
    (hbody : c.request_.body_ = []) :
    Agree (((ParseHeader c).Receive x).Parse) (ParseHeader (c.Receive x)) := by
  cases hc : StringContains c.reader_ kHttpDoubleLineFeed with
  | false =>
    rw [ParseHeader_stalled c hc]
    have : (c.Receive x).Parse = ParseHeader (c.Receive x) := by
      simp [HttpConnection.Parse, HttpConnection.Receive, hstage]
    rw [this]
    exact Agree_refl _
  | true =>
    have hfind : ∃ q, StrFind kHttpDoubleLineFeed c.reader_ = some q ∧ q ≠ npos := by
      cases hf : StrFind kHttpDoubleLineFeed c.reader_ with
      | none => simp [StringContains, StringPosition_zero, hf] at hc
      | some q =>
        refine ⟨q, rfl, ?_⟩
        simpa [StringContains, StringPosition_zero, hf] using hc
    obtain ⟨q, hq, hqn⟩ := hfind
    have hinfix : kHttpDoubleLineFeed <:+: c.reader_ :=
      (StrFind_isSome_iff _ _).mp (by rw [hq]; rfl)
    have hc2 : StringContains (c.Receive x).reader_ kHttpDoubleLineFeed = true := by
      have := StrFind_append kHttpDoubleLineFeed x c.reader_ q hq
      simp [StringContains, StringPosition_zero, HttpConnection.Receive, this, hqn]
    obtain ⟨hf1, hsome⟩ := HeaderLoop_fuel c.reader_.length c.request_ c.reader_
      ((c.reader_ ++ x).length + 1) (Nat.le_refl _) (by simp; omega)
    obtain ⟨r, hr⟩ := Option.isSome_iff_exists.mp hsome
    obtain ⟨ok, request, buffer⟩ := r
    have hL2 : HeaderLoop ((c.Receive x).reader_.length + 1) (c.Receive x).request_
        (c.Receive x).reader_ = some (ok, request, buffer ++ x) := by
      have := HeaderLoop_append x ((c.reader_ ++ x).length + 1) c.request_ c.reader_
        ok request buffer (Or.inl hinfix) (by rw [hf1, hr])
      simpa [HttpConnection.Receive] using this
    rw [ParseHeader_eq c ok request buffer hc hr,
      ParseHeader_eq (c.Receive x) ok request (buffer ++ x) hc2 hL2]
    cases ok with
    | false =>
      simp only [Bool.false_eq_true, if_false]
      rw [Parse_at_failed _ rfl]
      exact ⟨rfl, rfl, rfl, rfl, fun _ => rfl⟩
    | true =>
      simp only [if_true]
      have hb2 : request.body_ = [] := by
        rw [(HeaderLoop_fields _ _ _ _ _ _ hr).2.2.2, hbody]
      exact ParseBody_resume
        { c with request_ := request, reader_ := buffer, stage_ := BODY } x rfl hb2

theorem PopSegmentAt_append (buffer x token : Str) (htok : 0 < token.length)
    (hne : StringPosition buffer token 0 ≠ npos) :
    StringPosition (buffer ++ x) token 0 = StringPosition buffer token 0 ∧
    StringPopSegmentAt (buffer ++ x) (StringPosition buffer token 0) =
      ((StringPopSegmentAt buffer (StringPosition buffer token 0)).1,
       (StringPopSegmentAt buffer (StringPosition buffer token 0)).2 ++ x) := by
  cases hf : StrFind token buffer with
  | none => simp [StringPosition_zero, hf] at hne
  | some p =>
    have hb := StrFind_bound _ _ _ hf
    have hf2 := StrFind_append token x buffer p hf
    rw [StringPosition_found _ _ p hf] at hne ⊢
    rw [StringPosition_found _ _ p hf2]
    refine ⟨rfl, ?_⟩
    rw [StringPopSegmentAt_take _ _ hne, StringPopSegmentAt_take _ _ hne]
    rw [List.take_append_of_le_length (by omega), List.drop_append_of_le_length (by omega)]


theorem ParseProtocol_go (c : HttpConnection) (x : Str)
    (hpos : StringPosition c.reader_ kHttpLineFeed 0 ≠ npos) :
    ParseProtocol (c.Receive x) =
      if ((StringPopSegmentAt c.reader_ (StringPosition c.reader_ kHttpLineFeed 0)).1.isEmpty ||
          (StringPopSegmentAt c.reader_ (StringPosition c.reader_ kHttpLineFeed 0)).1 !=
            kHttpProtocol1_1) = true then
        { c with reader_ := (StringPopSegmentAt c.reader_
                    (StringPosition c.reader_ kHttpLineFeed 0)).2 ++ x,
                 stage_ := FAILED }
      else
        ParseHeader { c with request_ := c.request_.SetProtocol kHttpProtocol1_1,
                             reader_ := (StringPopSegmentAt c.reader_
                                (StringPosition c.reader_ kHttpLineFeed 0)).2 ++ x,
                             stage_ := HEADER } := by
  obtain ⟨h1, h2⟩ := PopSegmentAt_append c.reader_ x kHttpLineFeed (by decide) hpos
  unfold ParseProtocol
  simp only [HttpConnection.Receive, h1, hpos, if_false, h2]

theorem ParseProtocol_resume (c : HttpConnection) (x : Str) (hstage : c.stage_ = PROTOCOL)
    (hbody : c.request_.body_ = []) :
    Agree (((ParseProtocol c).Receive x).Parse) (ParseProtocol (c.Receive x)) := by
  by_cases hpos : StringPosition c.reader_ kHttpLineFeed 0 = npos
  · have hs : ParseProtocol c = c := by simp [ParseProtocol, hpos]
    rw [hs]
    have : (c.Receive x).Parse = ParseProtocol (c.Receive x) := by
      simp [HttpConnection.Parse, HttpConnection.Receive, hstage]
    rw [this]
    exact Agree_refl _
  · have hL := ParseProtocol_go c [] hpos
    have hc : c.Receive [] = c := by simp [HttpConnection.Receive]
    rw [hc] at hL
    simp only [List.append_nil] at hL
    rw [hL, ParseProtocol_go c x hpos]
    split
    · rw [Parse_at_failed _ rfl]
      exact ⟨rfl, rfl, rfl, rfl, fun _ => rfl⟩
    · exact ParseHeader_resume
        { c with request_ := c.request_.SetProtocol kHttpProtocol1_1,
                 reader_ := (StringPopSegmentAt c.reader_
                    (StringPosition c.reader_ kHttpLineFeed 0)).2,
                 stage_ := HEADER } x rfl hbody

theorem ParseUrl_go (c : HttpConnection) (x : Str)
    (hpos : StringPosition c.reader_ kStringSpace 0 ≠ npos) :
    ParseUrl (c.Receive x) =
      if ((StringPopSegmentAt c.reader_ (StringPosition c.reader_ kStringSpace 0)).1.isEmpty ||
          !StringStartsWith
            (StringPopSegmentAt c.reader_ (StringPosition c.reader_ kStringSpace 0)).1
            kStringSlash ||
          StringContains
            (StringPopSegmentAt c.reader_ (StringPosition c.reader_ kStringSpace 0)).1
            (kStringSlash ++ kStringSlash)) = true then
        { c with reader_ := (StringPopSegmentAt c.reader_
                    (StringPosition c.reader_ kStringSpace 0)).2 ++ x,
                 stage_ := FAILED }
      else
        ParseProtocol
          { c with request_ := c.request_.SetUrl
                     (StringPopSegmentAt c.reader_ (StringPosition c.reader_ kStringSpace 0)).1,
                   reader_ := (StringPopSegmentAt c.reader_
                      (StringPosition c.reader_ kStringSpace 0)).2 ++ x,
                   stage_ := PROTOCOL } := by
  obtain ⟨h1, h2⟩ := PopSegmentAt_append c.reader_ x kStringSpace (by decide) hpos
  unfold ParseUrl
  simp only [HttpConnection.Receive, h1, hpos, if_false, h2]

theorem ParseUrl_resume (c : HttpConnection) (x : Str) (hstage : c.stage_ = URL)
    (hbody : c.request_.body_ = []) :
    Agree (((ParseUrl c).Receive x).Parse) (ParseUrl (c.Receive x)) := by
  by_cases hpos : StringPosition c.reader_ kStringSpace 0 = npos
  · have hs : ParseUrl c = c := by simp [ParseUrl, hpos]
    rw [hs]
    have : (c.Receive x).Parse = ParseUrl (c.Receive x) := by
      simp [HttpConnection.Parse, HttpConnection.Receive, hstage]
    rw [this]
    exact Agree_refl _
  · have hL := ParseUrl_go c [] hpos
    have hc : c.Receive [] = c := by simp [HttpConnection.Receive]
    rw [hc] at hL
    simp only [List.append_nil] at hL
    rw [hL, ParseUrl_go c x hpos]
    split
    · rw [Parse_at_failed _ rfl]
      exact ⟨rfl, rfl, rfl, rfl, fun _ => rfl⟩
    · exact ParseProtocol_resume
        { c with request_ := c.request_.SetUrl
                   (StringPopSegmentAt c.reader_ (StringPosition c.reader_ kStringSpace 0)).1,
                 reader_ := (StringPopSegmentAt c.reader_
                    (StringPosition c.reader_ kStringSpace 0)).2,
                 stage_ := PROTOCOL } x rfl hbody

theorem ParseMethod_go (c : HttpConnection) (x : Str)
    (hpos : StringPosition c.reader_ kStringSpace 0 ≠ npos) :
    ParseMethod (c.Receive x) =
      if (StringPopSegmentAt c.reader_ (StringPosition c.reader_ kStringSpace 0)).1.isEmpty =
          true then
        { c with reader_ := (StringPopSegmentAt c.reader_
                    (StringPosition c.reader_ kStringSpace 0)).2 ++ x,
                 stage_ := FAILED }
      else if HttpConstants.GetMethod
          (StringPopSegmentAt c.reader_ (StringPosition c.reader_ kStringSpace 0)).1 =
          INVALID then
        { c with reader_ := (StringPopSegmentAt c.reader_
                    (StringPosition c.reader_ kStringSpace 0)).2 ++ x,
                 stage_ := FAILED }
      else
        ParseUrl
          { c with request_ := c.request_.SetMethod (HttpConstants.GetMethod
                     (StringPopSegmentAt c.reader_ (StringPosition c.reader_ kStringSpace 0)).1),
                   reader_ := (StringPopSegmentAt c.reader_
                      (StringPosition c.reader_ kStringSpace 0)).2 ++ x,
                   stage_ := URL } := by
  obtain ⟨h1, h2⟩ := PopSegmentAt_append c.reader_ x kStringSpace (by decide) hpos
  unfold ParseMethod
  simp only [HttpConnection.Receive, h1, hpos, if_false, h2]

theorem ParseMethod_resume (c : HttpConnection) (x : Str) (hstage : c.stage_ = START)
    (hbody : c.request_.body_ = []) :
    Agree (((ParseMethod c).Receive x).Parse) (ParseMethod (c.Receive x)) := by
  by_cases hpos : StringPosition c.reader_ kStringSpace 0 = npos
  · have hs : ParseMethod c = c := by simp [ParseMethod, hpos]
    rw [hs]
    have : (c.Receive x).Parse = ParseMethod (c.Receive x) := by
      simp [HttpConnection.Parse, HttpConnection.Receive, hstage]
    rw [this]
    exact Agree_refl _
  · have hL := ParseMethod_go c [] hpos
    have hc : c.Receive [] = c := by simp [HttpConnection.Receive]
    rw [hc] at hL
    simp only [List.append_nil] at hL
    rw [hL, ParseMethod_go c x hpos]
    split
    · rw [Parse_at_failed _ rfl]
      exact ⟨rfl, rfl, rfl, rfl, fun _ => rfl⟩
    · split
      · rw [Parse_at_failed _ rfl]
        exact ⟨rfl, rfl, rfl, rfl, fun _ => rfl⟩
      · exact ParseUrl_resume
          { c with request_ := c.request_.SetMethod (HttpConstants.GetMethod
                     (StringPopSegmentAt c.reader_ (StringPosition c.reader_ kStringSpace 0)).1),
                   reader_ := (StringPopSegmentAt c.reader_
                      (StringPosition c.reader_ kStringSpace 0)).2,
                   stage_ := URL } x rfl hbody

theorem parseByteByByte_agree (bytes : Str) : ∀ (c1 c2 : HttpConnection),
    Agree c1 c2 → Agree (parseByteByByte c1 bytes) (parseByteByByte c2 bytes) := by
  induction bytes with
  | nil => intro c1 c2 h; exact h
  | cons b rest ih =>
    intro c1 c2 h
    simp only [parseByteByByte, List.foldl_cons] at ih ⊢
    exact ih _ _ (Agree_step c1 c2 [b] h)

theorem Parse_at_start (c : HttpConnection) (h : c.stage_ = START) :
    c.Parse = ParseMethod c := by
  simp [HttpConnection.Parse, h]

theorem Receive_Receive (c : HttpConnection) (x y : Str) :
    (c.Receive x).Receive y = c.Receive (x ++ y) := by
  simp [HttpConnection.Receive]

theorem parseByteByByte_batch (now : Int) (bytes : Str) : ∀ (buffer : Str),
    Agree (parseByteByByte ((HttpConnection.new now).Receive buffer).Parse bytes)
      ((HttpConnection.new now).Receive (buffer ++ bytes)).Parse := by
  induction bytes with
  | nil => intro buffer; rw [List.append_nil]; exact Agree_refl _
  | cons b rest ih =>
    intro buffer
    have hstep : Agree ((((HttpConnection.new now).Receive buffer).Parse.Receive [b]).Parse)
        ((HttpConnection.new now).Receive (buffer ++ [b])).Parse := by
      have h := ParseMethod_resume ((HttpConnection.new now).Receive buffer) [b] rfl rfl
      rw [Receive_Receive] at h
      rw [Parse_at_start ((HttpConnection.new now).Receive buffer) rfl,
        Parse_at_start ((HttpConnection.new now).Receive (buffer ++ [b])) rfl]
      exact h
    have h1 := parseByteByByte_agree rest _ _ hstep
    have h2 := ih (buffer ++ [b])
    rw [List.append_assoc] at h2
    have e : parseByteByByte ((HttpConnection.new now).Receive buffer).Parse (b :: rest) =
        parseByteByByte ((((HttpConnection.new now).Receive buffer).Parse.Receive [b]).Parse)
          rest := by
      simp only [parseByteByByte, List.foldl_cons]
    rw [e]
    exact Agree_trans _ _ _ h1 h2

/-! ### Registering twice, stored handlers -/

theorem filter_isEmpty_of_none (l : HandlerMap) (u : Str) (m : HttpMethod)
    (h : ∀ e ∈ l, ¬ (e.1 = u ∧ e.2.method_ = m)) :
    (l.filter (fun e => e.1 == u && m == e.2.method_)).isEmpty = true := by
  rw [List.isEmpty_iff, List.filter_eq_nil_iff]
  intro e he hp
  simp only [Bool.and_eq_true, beq_iff_eq] at hp
  exact h e he ⟨hp.1, hp.2.symm⟩

theorem RegisterHandler_registered (s : HttpServer) (method : HttpMethod) (url : Str)
    (callback : HttpCallback) (hrun : s.running_ = false) :
    ((s.RegisterHandler method url callback).handlers_.filter
      (fun e => e.1 == url && method == e.2.method_)).isEmpty = false := by
  rw [RegisterHandler_filter s method url callback hrun url method]
  cases hnil : (s.handlers_.filter (fun e => e.1 == url && method == e.2.method_)).isEmpty with
  | true => simp
  | false => simp [hnil]

theorem RegisterHandler_twice (s : HttpServer) (method : HttpMethod) (url : Str)
    (c1 c2 : HttpCallback) :
    (s.RegisterHandler method url c1).RegisterHandler method url c2 =
      s.RegisterHandler method url c1 := by
  cases hrun : s.running_ with
  | true =>
    have h1 : s.RegisterHandler method url c1 = s := by
      simp [HttpServer.RegisterHandler, hrun]
    rw [h1]
    simp [HttpServer.RegisterHandler, hrun]
  | false =>
    have hrun2 : (s.RegisterHandler method url c1).running_ = false := by
      rw [RegisterHandler_running]; exact hrun
    have hreg := RegisterHandler_registered s method url c1 hrun
    have hany : ((s.RegisterHandler method url c1).handlers_.equal_range url).any
        (fun e => method == e.2.method_) = true := by
      rw [registered_iff_filter, hreg]; rfl
    generalize s.RegisterHandler method url c1 = t at hrun2 hany ⊢
    unfold HttpServer.RegisterHandler
    simp only [hrun2, Bool.false_eq_true, if_false, hany, if_true]

theorem RegisterHandler_dispatch_new (s : HttpServer) (method : HttpMethod) (url : Str)
    (callback : HttpCallback) (r : HttpRequest) (now : Int) (hrun : s.running_ = false)
    (hnone : ∀ e ∈ s.handlers_, ¬ (e.1 = url ∧ e.2.method_ = method))
    (hurl : r.url_ = url) (hmethod : r.method_ = method) :
    (s.RegisterHandler method url callback).ExecuteHandlerTrace r now =
      (callback r, [{ method_ := method, url_ := url, callback_ := callback }]) := by
  subst hurl; subst hmethod
  have hemp := filter_isEmpty_of_none s.handlers_ r.url_ r.method_ hnone
  rw [ExecuteHandlerTrace_filter,
    RegisterHandler_filter s r.method_ r.url_ callback hrun r.url_ r.method_, hemp]
  simp [ExecuteHandlerLoop]

/-- The invariant of the registry: every entry is stored under the url of its
handler, and no two entries have the same url and method. -/
theorem RegisterHandler_invariant (s : HttpServer) (method : HttpMethod) (url : Str)
    (callback : HttpCallback)
    (hkey : ∀ e ∈ s.handlers_, e.1 = e.2.url_)
    (hpair : s.handlers_.Pairwise
      (fun a b => ¬ (a.2.url_ = b.2.url_ ∧ a.2.method_ = b.2.method_))) :
    (∀ e ∈ (s.RegisterHandler method url callback).handlers_, e.1 = e.2.url_) ∧
    (s.RegisterHandler method url callback).handlers_.Pairwise
      (fun a b => ¬ (a.2.url_ = b.2.url_ ∧ a.2.method_ = b.2.method_)) := by
  unfold HttpServer.RegisterHandler
  split
  · exact ⟨hkey, hpair⟩
  · simp only
    rw [registered_iff_filter]
    cases hnil : (s.handlers_.filter (fun e => e.1 == url && method == e.2.method_)).isEmpty with
    | false => exact ⟨hkey, hpair⟩
    | true =>
      simp only [Bool.not_true, Bool.false_eq_true, if_false]
      obtain ⟨l1, l2, h1, h2⟩ := HandlerMap_insert_split url
        { method_ := method, url_ := url, callback_ := callback } s.handlers_
      rw [h2]
      have hno : ∀ e ∈ s.handlers_, ¬ (e.1 = url ∧ method = e.2.method_) := by
        have := List.isEmpty_iff.mp hnil
        rw [List.filter_eq_nil_iff] at this
        intro e he hp
        exact this e he (by simp [hp.1, hp.2])
      constructor
      · intro e he
        rw [List.mem_append, List.mem_cons] at he
        rcases he with he | he | he
        · exact hkey e (by rw [h1]; exact List.mem_append_left _ he)
        · rw [he]
        · exact hkey e (by rw [h1]; exact List.mem_append_right _ he)
      · have hsymm : Symmetric (fun a b : Str × HttpHandler =>
            ¬ (a.2.url_ = b.2.url_ ∧ a.2.method_ = b.2.method_)) := by
          intro a b hab hba
          exact hab ⟨hba.1.symm, hba.2.symm⟩
        rw [List.pairwise_middle (fun {a b} hab => hsymm hab), List.pairwise_cons, ← h1]
        refine ⟨?_, hpair⟩
        intro e he hp
        simp only at hp
        exact hno e he ⟨(hkey e he).trans hp.1.symm, hp.2⟩

theorem registerAll_invariant (regs : List (HttpMethod × Str × HttpCallback)) :
    ∀ (s : HttpServer), (∀ e ∈ s.handlers_, e.1 = e.2.url_) →
    s.handlers_.Pairwise
      (fun a b => ¬ (a.2.url_ = b.2.url_ ∧ a.2.method_ = b.2.method_)) →
    (∀ e ∈ (registerAll s regs).handlers_, e.1 = e.2.url_) ∧
    (registerAll s regs).handlers_.Pairwise
      (fun a b => ¬ (a.2.url_ = b.2.url_ ∧ a.2.method_ = b.2.method_)) := by
  induction regs with
  | nil => intro s h1 h2; exact ⟨h1, h2⟩
  | cons g rest ih =>
    intro s h1 h2
    obtain ⟨k1, k2⟩ := RegisterHandler_invariant s g.1 g.2.1 g.2.2 h1 h2
    simp only [registerAll, List.foldl_cons] at ih ⊢
    exact ih _ k1 k2

/-! ### Serialising a built response -/

theorem to_string_eq (n : Nat) (h : n < 2 ^ 64) : to_string n = (toString n).toList := by
  unfold to_string
  rw [Nat.mod_eq_of_lt h]
  rfl

theorem status_decimal (s : Int) :
    (if s < 0 then '-' :: Nat.toDigits 10 s.natAbs else Nat.toDigits 10 s.natAbs) =
      (toString s).toList := by
  cases s with
  | ofNat n =>
    have : ¬ (Int.ofNat n < 0) := by simp
    rw [if_neg this]
    rfl
  | negSucc n =>
    have : Int.negSucc n < 0 := Int.negSucc_lt_zero n
    rw [if_pos this]
    rfl

theorem BuildBody_eq (s : Int) (b : Str) (t : Int) :
    HttpResponse.BuildBody s b t =
      { protocol_ := "HTTP/1.1".toList, status_ := s,
        message_ := HttpConstants.GetStatusString s,
        headers_ := [("content-length".toList, to_string b.length),
                     ("date".toList, to_string (toSizeT t)),
                     ("server".toList, "alvagis version 1.0".toList)],
        body_ := b } := by
  rfl

theorem Build_eq (s : Int) (t : Int) :
    HttpResponse.Build s t =
      { protocol_ := "HTTP/1.1".toList, status_ := s,
        message_ := HttpConstants.GetStatusString s,
        headers_ := [("content-length".toList, "0".toList),
                     ("date".toList, to_string (toSizeT t)),
                     ("server".toList, "alvagis version 1.0".toList)],
        body_ := [] } := by
  rfl

theorem BuildBody_AsString (s : Int) (b : Str) (t : Int) :
    (HttpResponse.BuildBody s b t).AsString =
      "HTTP/1.1 ".toList ++ (toString s).toList ++ " ".toList ++
        HttpConstants.GetStatusString s ++ "\r\n".toList ++
        "content-length: ".toList ++ to_string b.length ++ "\r\n".toList ++
        "date: ".toList ++ to_string (toSizeT t) ++ "\r\n".toList ++
        "server: alvagis version 1.0\r\n".toList ++ "\r\n".toList ++ b := by
  rw [BuildBody_eq]
  unfold HttpResponse.AsString
  rw [status_decimal]
  simp [headerLines, kStringSpace, kStringColon, kHttpLineFeed]

theorem Build_AsString (s : Int) (t : Int) :
    (HttpResponse.Build s t).AsString =
      "HTTP/1.1 ".toList ++ (toString s).toList ++ " ".toList ++
        HttpConstants.GetStatusString s ++ "\r\n".toList ++
        "content-length: 0\r\n".toList ++
        "date: ".toList ++ to_string (toSizeT t) ++ "\r\n".toList ++
        "server: alvagis version 1.0\r\n".toList ++ "\r\n".toList := by
  rw [Build_eq]
  unfold HttpResponse.AsString
  rw [status_decimal]
  simp [headerLines, kStringSpace, kStringColon, kHttpLineFeed]

theorem toSizeT_of_nonneg (t : Int) (h0 : 0 ≤ t) (h : t < 2 ^ 64) :
    toSizeT t = t.toNat := by
  unfold toSizeT
  rw [Int.emod_eq_of_lt h0 h]

/-! ### Reason phrases, the header map -/

theorem GetStatusString_unlisted (s : Int)
    (h : s ∉ [(100 : Int), 101, 102, 200, 201, 202, 204, 301, 302, 303, 304, 400, 401,
      403, 404, 405, 406, 408, 410, 411, 413, 414, 415, 417, 422, 423, 429, 500, 501,
      502, 503]) :
    HttpConstants.GetStatusString s = [] := by
  unfold HttpConstants.GetStatusString
  cases hl : status_to_string.lookup s with
  | none => rfl
  | some v =>
    exfalso
    apply h
    have hm := lookup_mem s v status_to_string hl
    have hk : s ∈ status_to_string.map Prod.fst := List.mem_map_of_mem Prod.fst hm
    exact hk

theorem HeaderMap_find_set (key value : Str) : ∀ (m : HeaderMap),
    (HeaderMap.set m key value).find key = some value := by
  intro m
  induction m with
  | nil => simp [HeaderMap.set, HeaderMap.find, List.lookup]
  | cons e rest ih =>
    obtain ⟨k, v⟩ := e
    unfold HeaderMap.set
    by_cases h1 : key = k
    · subst h1
      simp [HeaderMap.find, List.lookup]
    · rw [if_neg h1]
      by_cases h2 : StrLess key k = true
      · rw [if_pos h2]
        simp [HeaderMap.find, List.lookup]
      · rw [if_neg h2]
        have hb : (key == k) = false := by simpa using h1
        simp only [HeaderMap.find, List.lookup, hb] at ih ⊢
        exact ih

theorem HeaderMap_find_set_other (key value other : Str) (hne : other ≠ key) :
    ∀ (m : HeaderMap), (HeaderMap.set m key value).find other = m.find other := by
  intro m
  have hb : (other == key) = false := by simpa using hne
  induction m with
  | nil => simp [HeaderMap.set, HeaderMap.find, List.lookup, hb]
  | cons e rest ih =>
    obtain ⟨k, v⟩ := e
    unfold HeaderMap.set
    by_cases h1 : key = k
    · subst h1
      simp [HeaderMap.find, List.lookup, hb]
    · rw [if_neg h1]
      by_cases h2 : StrLess key k = true
      · rw [if_pos h2]
        simp [HeaderMap.find, List.lookup, hb]
      · rw [if_neg h2]
        simp only [HeaderMap.find, List.lookup] at ih ⊢
        cases hk : (other == k) with
        | true => rfl
        | false => exact ih

theorem HeaderMap_set_set (key v1 v2 : Str) : ∀ (m : HeaderMap),
    HeaderMap.set (HeaderMap.set m key v1) key v2 = HeaderMap.set m key v2 := by
  intro m
  induction m with
  | nil => simp [HeaderMap.set]
  | cons e rest ih =>
    obtain ⟨k, v⟩ := e
    by_cases h1 : key = k
    · subst h1
      simp [HeaderMap.set]
    · by_cases h2 : StrLess key k = true
      · simp [HeaderMap.set, h1, h2]
      · simp [HeaderMap.set, h1, h2, ih]

theorem HeaderMap_set_length (key v1 v2 : Str) : ∀ (m : HeaderMap),
    (HeaderMap.set m key v1).length = (HeaderMap.set m key v2).length := by
  intro m
  induction m with
  | nil => simp [HeaderMap.set]
  | cons e rest ih =>
    obtain ⟨k, v⟩ := e
    by_cases h1 : key = k
    · subst h1
      simp [HeaderMap.set]
    · by_cases h2 : StrLess key k = true
      · simp [HeaderMap.set, h1, h2]
      · simp [HeaderMap.set, h1, h2, ih]

/-! ### The connection map -/

theorem ConnectionMap_find_cons_self (d : Int) (v : HttpConnection) (rest : ConnectionMap) :
    ConnectionMap.find ((d, v) :: rest) d = some v := by
  simp [ConnectionMap.find, List.lookup]

theorem ConnectionMap_find_cons_ne (d k : Int) (v : HttpConnection) (rest : ConnectionMap)
    (h : d ≠ k) : ConnectionMap.find ((k, v) :: rest) d = ConnectionMap.find rest d := by
  have hb : (d == k) = false := by simpa using h
  simp [ConnectionMap.find, List.lookup, hb]

theorem ConnectionMap_update_cons_self (d : Int) (v c2 : HttpConnection)
    (rest : ConnectionMap) :
    ConnectionMap.update ((d, v) :: rest) d c2 = (d, c2) :: ConnectionMap.update rest d c2 := by
  simp [ConnectionMap.update]

theorem ConnectionMap_update_cons_ne (d k : Int) (v c2 : HttpConnection)
    (rest : ConnectionMap) (h : k ≠ d) :
    ConnectionMap.update ((k, v) :: rest) d c2 = (k, v) :: ConnectionMap.update rest d c2 := by
  simp [ConnectionMap.update, h]

theorem DeleteConnection_cons_self (d : Int) (v : HttpConnection) (rest : ConnectionMap) :
    HttpServer.DeleteConnection ((d, v) :: rest) d = HttpServer.DeleteConnection rest d := by
  simp [HttpServer.DeleteConnection]

theorem DeleteConnection_cons_ne (d k : Int) (v : HttpConnection) (rest : ConnectionMap)
    (h : k ≠ d) :
    HttpServer.DeleteConnection ((k, v) :: rest) d =
      (k, v) :: HttpServer.DeleteConnection rest d := by
  simp [HttpServer.DeleteConnection, h]

theorem ConnectionMap_find_update (d : Int) (c2 : HttpConnection) : ∀ (m : ConnectionMap)
    (c : HttpConnection), m.find d = some c → (m.update d c2).find d = some c2 := by
  intro m
  induction m with
  | nil => intro c h; simp [ConnectionMap.find] at h
  | cons e rest ih =>
    intro c h
    obtain ⟨k, v⟩ := e
    by_cases hk : k = d
    · subst hk
      rw [ConnectionMap_update_cons_self, ConnectionMap_find_cons_self]
    · have hd : d ≠ k := fun e => hk e.symm
      rw [ConnectionMap_find_cons_ne d k v rest hd] at h
      rw [ConnectionMap_update_cons_ne d k v c2 rest hk, ConnectionMap_find_cons_ne _ _ _ _ hd]
      exact ih c h

theorem ConnectionMap_find_update_other (d d2 : Int) (c2 : HttpConnection) (hne : d2 ≠ d) :
    ∀ (m : ConnectionMap), (m.update d c2).find d2 = m.find d2 := by
  intro m
  induction m with
  | nil => rfl
  | cons e rest ih =>
    obtain ⟨k, v⟩ := e
    by_cases hk : k = d
    · subst hk
      rw [ConnectionMap_update_cons_self, ConnectionMap_find_cons_ne _ _ _ _ hne,
        ConnectionMap_find_cons_ne _ _ _ _ hne]
      exact ih
    · rw [ConnectionMap_update_cons_ne d k v c2 rest hk]
      by_cases hd : d2 = k
      · subst hd
        rw [ConnectionMap_find_cons_self, ConnectionMap_find_cons_self]
      · rw [ConnectionMap_find_cons_ne _ _ _ _ hd, ConnectionMap_find_cons_ne _ _ _ _ hd]
        exact ih

theorem DeleteConnection_find (d : Int) : ∀ (m : ConnectionMap),
    (HttpServer.DeleteConnection m d).find d = none := by
  intro m
  induction m with
  | nil => rfl
  | cons e rest ih =>
    obtain ⟨k, v⟩ := e
    by_cases hk : k = d
    · subst hk
      rw [DeleteConnection_cons_self]
      exact ih
    · have hd : d ≠ k := fun e => hk e.symm
      rw [DeleteConnection_cons_ne d k v rest hk, ConnectionMap_find_cons_ne _ _ _ _ hd]
      exact ih

theorem DeleteConnection_find_other (d d2 : Int) (hne : d2 ≠ d) : ∀ (m : ConnectionMap),
    (HttpServer.DeleteConnection m d).find d2 = m.find d2 := by
  intro m
  induction m with
  | nil => rfl
  | cons e rest ih =>
    obtain ⟨k, v⟩ := e
    by_cases hk : k = d
    · subst hk
      rw [DeleteConnection_cons_self, ConnectionMap_find_cons_ne _ _ _ _ hne]
      exact ih
    · rw [DeleteConnection_cons_ne d k v rest hk]
      by_cases hd : d2 = k
      · subst hd
        rw [ConnectionMap_find_cons_self, ConnectionMap_find_cons_self]
      · rw [ConnectionMap_find_cons_ne _ _ _ _ hd, ConnectionMap_find_cons_ne _ _ _ _ hd]
        exact ih

theorem WritableEvent_drained (m : ConnectionMap) (d : Int) (c : HttpConnection)
    (hasErrors : Bool) (now : Int) (hfind : m.find d = some c) :
    HttpServer.WritableEvent m d [] hasErrors true now =
      if c.request_.GetHeader "connection".toList = "keep-alive".toList then
        m.update d ({ c with writer_ := [] }.Restart now)
      else HttpServer.DeleteConnection (m.update d { c with writer_ := [] }) d := by
  unfold HttpServer.WritableEvent
  rw [hfind]
  simp only [List.isEmpty_nil, if_true, Bool.not_true, Bool.false_eq_true, if_false,
    beq_iff_eq]

/-! ### The body never outgrows the declared length -/

theorem wrap32_range (l : Int) :
    -(2 ^ 31 : Int) ≤ (l + 2 ^ 31) % 2 ^ 32 - 2 ^ 31 ∧
      (l + 2 ^ 31) % 2 ^ 32 - 2 ^ 31 < 2 ^ 31 := by
  have h1 : (0 : Int) ≤ (l + 2 ^ 31) % 2 ^ 32 := Int.emod_nonneg _ (by norm_num)
  have h2 : (l + 2 ^ 31) % 2 ^ 32 < (2 ^ 32 : Int) := Int.emod_lt_of_pos _ (by norm_num)
  constructor <;> omega

theorem atoi_range (s : Str) : -(2 ^ 31 : Int) ≤ atoi s ∧ atoi s < 2 ^ 31 := by
  unfold atoi
  exact wrap32_range _

theorem toSizeT_atoi_eq_neg_one (s : Str) : toSizeT (atoi s) = toSizeT (-1) ↔ atoi s = -1 := by
  obtain ⟨h1, h2⟩ := atoi_range s
  constructor
  · intro h
    unfold toSizeT at h
    have e1 : (0 : Int) ≤ atoi s % (2 ^ 64 : Int) := Int.emod_nonneg _ (by norm_num)
    have e2 : ((-1 : Int) % (2 ^ 64 : Int)) = 2 ^ 64 - 1 := by decide
    rw [e2] at h
    have e3 : atoi s % (2 ^ 64 : Int) = 2 ^ 64 - 1 := by
      have := congrArg (fun n : Nat => (n : Int)) h
      simp only [Int.toNat_of_nonneg e1] at this
      rw [this]
      decide
    omega
  · intro h
    rw [h]

theorem toSizeT_atoi_nonneg (s : Str) (h : 0 ≤ atoi s) : (toSizeT (atoi s) : Int) = atoi s := by
  obtain ⟨_, h2⟩ := atoi_range s
  unfold toSizeT
  rw [Int.emod_eq_of_lt h (by omega), Int.toNat_of_nonneg h]

theorem BodyContentLength_eq (request : HttpRequest) :
    BodyContentLength request =
      if request.GetHeader "content-length".toList = [] then toSizeT (-1)
      else toSizeT (atoi (request.GetHeader "content-length".toList)) := by
  unfold BodyContentLength
  simp only [List.isEmpty_iff]

theorem ParseBody_within (c : HttpConnection) (hstage : c.stage_ = BODY)
    (hk : c.request_.body_.length ≤ BodyContentLength c.request_)
    (h0 : BodyContentLength c.request_ = toSizeT (-1) → c.request_.body_ = []) :
    BodyWithinLength (ParseBody c) := by
  by_cases hn : BodyContentLength c.request_ = toSizeT (-1)
  · rw [ParseBody_end c hn]
    unfold BodyWithinLength
    simp only
    exact Or.inl ⟨hn, h0 hn⟩
  · rw [ParseBody_take c hn hk]
    by_cases hlt : (c.request_.AppendToBody (c.reader_.take
        (BodyContentLength c.request_ - c.request_.body_.length))).body_.length <
        BodyContentLength c.request_
    · rw [if_pos hlt]
      unfold BodyWithinLength
      simp only [hstage]
      exact ⟨hlt, hn⟩
    · rw [if_neg hlt]
      unfold BodyWithinLength
      simp only
      right
      rw [BodyContentLength_AppendToBody]
      refine ⟨hn, ?_⟩
      simp only [HttpRequest.AppendToBody, List.length_append, List.length_take] at hlt ⊢
      omega

theorem ParseHeader_within (c : HttpConnection) (hstage : c.stage_ = HEADER)
    (hbody : c.request_.body_ = []) : BodyWithinLength (ParseHeader c) := by
  cases hc : StringContains c.reader_ kHttpDoubleLineFeed with
  | false =>
    rw [ParseHeader_stalled c hc]
    unfold BodyWithinLength
    simp only [hstage]
    exact hbody
  | true =>
    obtain ⟨_, hsome⟩ := HeaderLoop_fuel c.reader_.length c.request_ c.reader_
      (c.reader_.length + 1) (Nat.le_refl _) (Nat.lt_succ_self _)
    obtain ⟨r, hr⟩ := Option.isSome_iff_exists.mp hsome
    obtain ⟨ok, request, buffer⟩ := r
    have hb2 : request.body_ = [] := by
      rw [(HeaderLoop_fields _ _ _ _ _ _ hr).2.2.2, hbody]
    rw [ParseHeader_eq c ok request buffer hc hr]
    cases ok with
    | false =>
      simp only [Bool.false_eq_true, if_false]
      unfold BodyWithinLength
      simp only
      exact hb2
    | true =>
      simp only [if_true]
      apply ParseBody_within _ rfl
      · simp only [hb2, List.length_nil]
        exact Nat.zero_le _
      · intro _
        exact hb2

theorem ParseProtocol_within (c : HttpConnection) (hstage : c.stage_ = PROTOCOL)
    (hbody : c.request_.body_ = []) : BodyWithinLength (ParseProtocol c) := by
  unfold ParseProtocol
  simp only
  split
  · unfold BodyWithinLength
    simp only [hstage]
    exact hbody
  · split
    · unfold BodyWithinLength
      simp only
      exact hbody
    · exact ParseHeader_within _ rfl hbody

theorem ParseUrl_within (c : HttpConnection) (hstage : c.stage_ = URL)
    (hbody : c.request_.body_ = []) : BodyWithinLength (ParseUrl c) := by
  unfold ParseUrl
  simp only
  split
  · unfold BodyWithinLength
    simp only [hstage]
    exact hbody
  · split
    · unfold BodyWithinLength
      simp only
      exact hbody
    · exact ParseProtocol_within _ rfl hbody

theorem ParseMethod_within (c : HttpConnection)
    (hstage : c.stage_ = START ∨ c.stage_ = METHOD)
    (hbody : c.request_.body_ = []) : BodyWithinLength (ParseMethod c) := by
  unfold ParseMethod
  simp only
  split
  · unfold BodyWithinLength
    rcases hstage with h | h <;> simp only [h] <;> exact hbody
  · split
    · unfold BodyWithinLength
      simp only
      exact hbody
    · split
      · unfold BodyWithinLength
        simp only
        exact hbody
      · exact ParseUrl_within _ rfl hbody

theorem Parse_within (c : HttpConnection) (x : Str) (h : BodyWithinLength c) :
    BodyWithinLength ((c.Receive x).Parse) := by
  unfold BodyWithinLength at h
  cases hs : c.stage_ with
  | START =>
    rw [hs] at h
    rw [Parse_at_start _ (by simpa [HttpConnection.Receive] using hs)]
    exact ParseMethod_within _ (Or.inl hs) h
  | METHOD =>
    rw [hs] at h
    have : (c.Receive x).Parse = ParseMethod (c.Receive x) := by
      simp [HttpConnection.Parse, HttpConnection.Receive, hs]
    rw [this]
    exact ParseMethod_within _ (Or.inr hs) h
  | URL =>
    rw [hs] at h
    have : (c.Receive x).Parse = ParseUrl (c.Receive x) := by
      simp [HttpConnection.Parse, HttpConnection.Receive, hs]
    rw [this]
    exact ParseUrl_within _ hs h
  | PROTOCOL =>
    rw [hs] at h
    have : (c.Receive x).Parse = ParseProtocol (c.Receive x) := by
      simp [HttpConnection.Parse, HttpConnection.Receive, hs]
    rw [this]
    exact ParseProtocol_within _ hs h
  | HEADER =>
    rw [hs] at h
    have : (c.Receive x).Parse = ParseHeader (c.Receive x) := by
      simp [HttpConnection.Parse, HttpConnection.Receive, hs]
    rw [this]
    exact ParseHeader_within _ hs h
  | BODY =>
    rw [hs] at h
    have : (c.Receive x).Parse = ParseBody (c.Receive x) := by
      simp [HttpConnection.Parse, HttpConnection.Receive, hs]
    rw [this]
    exact ParseBody_within _ hs (Nat.le_of_lt h.1) (fun e => absurd e h.2)
  | END =>
    rw [hs] at h
    rw [Parse_at_end _ (by simpa [HttpConnection.Receive] using hs)]
    unfold BodyWithinLength
    simp only [HttpConnection.Receive, hs]
    exact h
  | FAILED =>
    rw [hs] at h
    rw [Parse_at_failed _ (by simpa [HttpConnection.Receive] using hs)]
    unfold BodyWithinLength
    simp only [HttpConnection.Receive, hs]
    exact h

theorem parseChunks_within (chunks : List Str) : ∀ (c : HttpConnection),
    BodyWithinLength c → BodyWithinLength (parseChunks c chunks) := by
  induction chunks with
  | nil => intro c h; exact h
  | cons x rest ih =>
    intro c h
    simp only [parseChunks, List.foldl_cons] at ih ⊢
    exact ih _ (Parse_within c x h)

theorem BodyWithinLength_facts (c : HttpConnection) (h : BodyWithinLength c) :
    (c.stage_ = END →
      (BodyContentLength c.request_ = toSizeT (-1) ∧ c.request_.body_ = []) ∨
      (BodyContentLength c.request_ ≠ toSizeT (-1) ∧
        c.request_.body_.length = BodyContentLength c.request_)) ∧
    (BodyContentLength c.request_ ≠ toSizeT (-1) →
      c.request_.body_.length ≤ BodyContentLength c.request_) ∧
    (BodyContentLength c.request_ = toSizeT (-1) → c.request_.body_ = []) := by
  unfold BodyWithinLength at h
  cases hs : c.stage_ with
  | START =>
    rw [hs] at h
    simp only at h
    exact ⟨fun e => absurd e (by decide), fun _ => by rw [h]; exact Nat.zero_le _, fun _ => h⟩
  | METHOD =>
    rw [hs] at h
    simp only at h
    exact ⟨fun e => absurd e (by decide), fun _ => by rw [h]; exact Nat.zero_le _, fun _ => h⟩
  | URL =>
    rw [hs] at h
    simp only at h
    exact ⟨fun e => absurd e (by decide), fun _ => by rw [h]; exact Nat.zero_le _, fun _ => h⟩
  | PROTOCOL =>
    rw [hs] at h
    simp only at h
    exact ⟨fun e => absurd e (by decide), fun _ => by rw [h]; exact Nat.zero_le _, fun _ => h⟩
  | HEADER =>
    rw [hs] at h
    simp only at h
    exact ⟨fun e => absurd e (by decide), fun _ => by rw [h]; exact Nat.zero_le _, fun _ => h⟩
  | FAILED =>
    rw [hs] at h
    simp only at h
    exact ⟨fun e => absurd e (by decide), fun _ => by rw [h]; exact Nat.zero_le _, fun _ => h⟩
  | BODY =>
    rw [hs] at h
    simp only at h
    exact ⟨fun e => absurd e (by decide), fun _ => Nat.le_of_lt h.1, fun e => absurd e h.2⟩
  | END =>
    rw [hs] at h
    simp only at h
    refine ⟨fun _ => h, ?_, ?_⟩
    · intro hne
      rcases h with h | h
      · exact absurd h.1 hne
      · exact Nat.le_of_eq h.2
    · intro he
      rcases h with h | h
      · exact h.2
      · exact absurd he h.1

theorem BodyWithinLength_bound (c : HttpConnection) (h : BodyWithinLength c) :
    (c.stage_ = END →
      c.request_.GetHeader "content-length".toList = [] ∨
      atoi (c.request_.GetHeader "content-length".toList) = -1 ∨
      c.request_.body_.length =
        toSizeT (atoi (c.request_.GetHeader "content-length".toList))) ∧
    (c.request_.GetHeader "content-length".toList ≠ [] →
      atoi (c.request_.GetHeader "content-length".toList) ≠ -1 →
      c.request_.body_.length ≤
        toSizeT (atoi (c.request_.GetHeader "content-length".toList))) ∧
    ((c.request_.GetHeader "content-length".toList = [] ∨
      atoi (c.request_.GetHeader "content-length".toList) = -1) →
      c.request_.body_ = []) := by
  have hcl := BodyContentLength_eq c.request_
  have hiff := toSizeT_atoi_eq_neg_one (c.request_.GetHeader "content-length".toList)
  obtain ⟨f1, f2, f3⟩ := BodyWithinLength_facts c h
  by_cases he : c.request_.GetHeader "content-length".toList = []
  · rw [if_pos he] at hcl
    exact ⟨fun _ => Or.inl he, fun hne => absurd he hne, fun _ => f3 hcl⟩
  · rw [if_neg he] at hcl
    rw [hcl] at f1 f2 f3
    refine ⟨?_, ?_, ?_⟩
    · intro hend
      rcases f1 hend with g | g
      · exact Or.inr (Or.inl (hiff.mp g.1))
      · exact Or.inr (Or.inr g.2)
    · intro _ hne
      exact f2 (fun e => hne (hiff.mp e))
    · intro hor
      rcases hor with g | g
      · exact absurd g he
      · exact f3 (hiff.mpr g)

/-! ### The order of the header map -/

theorem Char_eq_of_toNat_eq (a b : Char) (h : a.toNat = b.toNat) : a = b := by
  rw [← Char.ofNat_toNat a, ← Char.ofNat_toNat b, h]

theorem StrLess_irrefl : ∀ (a : Str), StrLess a a = false := by
  intro a
  induction a with
  | nil => rfl
  | cons c rest ih => simp [StrLess, ih]

theorem StrLess_trans : ∀ (a b c : Str), StrLess a b = true → StrLess b c = true →
    StrLess a c = true := by
  intro a
  induction a with
  | nil =>
    intro b c hab hbc
    cases b with
    | nil => simp [StrLess] at hab
    | cons y ys =>
      cases c with
      | nil => simp [StrLess] at hbc
      | cons z zs => rfl
  | cons x xs ih =>
    intro b c hab hbc
    cases b with
    | nil => simp [StrLess] at hab
    | cons y ys =>
      cases c with
      | nil => simp [StrLess] at hbc
      | cons z zs =>
        unfold StrLess at hab hbc ⊢
        by_cases h1 : x.toNat < y.toNat
        · by_cases h2 : y.toNat < z.toNat
          · rw [if_pos (Nat.lt_trans h1 h2)]
          · rw [if_neg h2] at hbc
            by_cases h3 : z.toNat < y.toNat
            · rw [if_pos h3] at hbc
              exact absurd hbc (by decide)
            · rw [if_pos (by omega)]
        · rw [if_neg h1] at hab
          by_cases h1b : y.toNat < x.toNat
          · rw [if_pos h1b] at hab
            exact absurd hab (by decide)
          · rw [if_neg h1b] at hab
            by_cases h2 : y.toNat < z.toNat
            · rw [if_pos (by omega)]
            · rw [if_neg h2] at hbc
              by_cases h3 : z.toNat < y.toNat
              · rw [if_pos h3] at hbc
                exact absurd hbc (by decide)
              · rw [if_neg h3] at hbc
                rw [if_neg (by omega), if_neg (by omega)]
                exact ih ys zs hab hbc

theorem StrLess_total : ∀ (a b : Str), a ≠ b → StrLess a b = false → StrLess b a = true := by
  intro a
  induction a with
  | nil =>
    intro b hne h
    cases b with
    | nil => exact absurd rfl hne
    | cons y ys => simp [StrLess] at h
  | cons x xs ih =>
    intro b hne h
    cases b with
    | nil => rfl
    | cons y ys =>
      unfold StrLess at h ⊢
      by_cases h1 : x.toNat < y.toNat
      · rw [if_pos h1] at h
        exact absurd h (by decide)
      · rw [if_neg h1] at h
        by_cases h2 : y.toNat < x.toNat
        · rw [if_pos h2]
        · rw [if_neg h2] at h
          rw [if_neg h2, if_neg h1]
          have hxy : x = y := Char_eq_of_toNat_eq x y (by omega)
          apply ih ys _ h
          intro e
          exact hne (by rw [hxy, e])

theorem HeaderMap_set_keys (key value : Str) : ∀ (m : HeaderMap) (e : Str × Str),
    e ∈ HeaderMap.set m key value → e.1 = key ∨ e ∈ m := by
  intro m
  induction m with
  | nil =>
    intro e he
    simp only [HeaderMap.set, List.mem_singleton] at he
    exact Or.inl (by rw [he])
  | cons p rest ih =>
    intro e he
    obtain ⟨k, v⟩ := p
    unfold HeaderMap.set at he
    by_cases h1 : key = k
    · rw [if_pos h1, List.mem_cons] at he
      rcases he with he | he
      · exact Or.inl (by rw [he, h1])
      · exact Or.inr (List.mem_cons_of_mem _ he)
    · rw [if_neg h1] at he
      by_cases h2 : StrLess key k = true
      · rw [if_pos h2, List.mem_cons] at he
        rcases he with he | he
        · exact Or.inl (by rw [he])
        · exact Or.inr he
      · rw [if_neg h2, List.mem_cons] at he
        rcases he with he | he
        · exact Or.inr (by rw [he]; exact List.mem_cons_self _ _)
        · rcases ih e he with g | g
          · exact Or.inl g
          · exact Or.inr (List.mem_cons_of_mem _ g)

theorem HeaderMap_set_wellFormed (key value : Str) : ∀ (m : HeaderMap),
    m.WellFormed → (HeaderMap.set m key value).WellFormed := by
  intro m
  induction m with
  | nil => intro _; simp [HeaderMap.set, HeaderMap.WellFormed]
  | cons p rest ih =>
    intro hw
    obtain ⟨k, v⟩ := p
    unfold HeaderMap.WellFormed at hw ih ⊢
    rw [List.pairwise_cons] at hw
    obtain ⟨hk, hrest⟩ := hw
    unfold HeaderMap.set
    by_cases h1 : key = k
    · rw [if_pos h1, List.pairwise_cons]
      exact ⟨hk, hrest⟩
    · rw [if_neg h1]
      by_cases h2 : StrLess key k = true
      · rw [if_pos h2, List.pairwise_cons, List.pairwise_cons]
        refine ⟨?_, hk, hrest⟩
        intro e he
        rw [List.mem_cons] at he
        rcases he with he | he
        · rw [he]; exact h2
        · exact StrLess_trans _ _ _ h2 (hk e he)
      · rw [if_neg h2, List.pairwise_cons]
        refine ⟨?_, ih hrest⟩
        intro e he
        rcases HeaderMap_set_keys key value rest e he with g | g
        · rw [g]
          exact StrLess_total key k h1 (by simpa using h2)
        · exact hk e g

theorem HeaderMap_wellFormed_nodup (m : HeaderMap) (h : m.WellFormed) :
    (m.map Prod.fst).Nodup := by
  unfold HeaderMap.WellFormed at h
  rw [List.Nodup, List.pairwise_map]
  refine h.imp ?_
  intro a b hab e
  rw [e, StrLess_irrefl] at hab
  exact absurd hab (by decide)

/-! ### The two overloads of PopSegment -/

theorem StrFind_first (tok : Str) : ∀ (text : Str) (p : Nat),
    StrFind tok text = some p →
    tok <+: text.drop p ∧ ∀ q, q < p → ¬ tok <+: text.drop q := by
  intro text
  induction text with
  | nil =>
    intro p h
    unfold StrFind at h
    split at h
    · rename_i he
      have : tok = [] := by simpa using he
      subst this
      simp at h
      subst h
      simp
    · simp at h
  | cons c rest ih =>
    intro p h
    unfold StrFind at h
    split at h
    · rename_i hp
      simp at h
      subst h
      exact ⟨by simpa using List.isPrefixOf_iff_prefix.mp hp, fun q hq => by omega⟩
    · rename_i hp
      cases hr : StrFind tok rest with
      | none => simp [hr] at h
      | some r =>
        simp [hr] at h
        subst h
        obtain ⟨h1, h2⟩ := ih r hr
        refine ⟨by simpa using h1, ?_⟩
        intro q hq
        cases q with
        | zero =>
          intro hpre
          exact hp (List.isPrefixOf_iff_prefix.mpr (by simpa using hpre))
        | succ q =>
          have := h2 q (by omega)
          simpa using this

theorem StringPopSegmentAt_suffix (text : Str) (position : Nat) :
    (StringPopSegmentAt text position).2 <:+ text := by
  unfold StringPopSegmentAt
  split
  · exact List.suffix_refl _
  · split
    · exact List.nil_suffix
    · exact List.drop_suffix _ _

theorem StringPopSegment_suffix (text delimiter : Str) :
    (StringPopSegment text delimiter).2 <:+ text := by
  unfold StringPopSegment
  simp only
  split
  · exact List.suffix_refl _
  · exact List.drop_suffix _ _

/-! ### Parse takes bytes off the front of the buffer only -/

theorem HeaderLoop_suffix : ∀ (fuel : Nat) (request : HttpRequest) (buffer : Str)
    (ok : Bool) (request2 : HttpRequest) (buffer2 : Str),
    HeaderLoop fuel request buffer = some (ok, request2, buffer2) →
    buffer2 <:+ buffer := by
  intro fuel
  induction fuel with
  | zero => intro request buffer ok request2 buffer2 h; simp [HeaderLoop] at h
  | succ fuel ih =>
    intro request buffer ok request2 buffer2 h
    have hpop := StringPopSegment_suffix buffer kHttpLineFeed
    unfold HeaderLoop at h
    simp only at h
    split at h
    · simp only [Option.some.injEq, Prod.mk.injEq] at h
      rw [← h.2.2]; exact hpop
    · split at h
      · simp only [Option.some.injEq, Prod.mk.injEq] at h
        rw [← h.2.2]; exact hpop
      · split at h
        · simp only [Option.some.injEq, Prod.mk.injEq] at h
          rw [← h.2.2]; exact hpop
        · exact (ih _ _ _ _ _ h).trans hpop

theorem ParseBody_suffix (c : HttpConnection) : (ParseBody c).reader_ <:+ c.reader_ := by
  unfold ParseBody
  simp only
  split
  · exact List.suffix_refl _
  · split
    · exact StringPopSegmentAt_suffix _ _
    · exact StringPopSegmentAt_suffix _ _

theorem ParseHeader_suffix (c : HttpConnection) : (ParseHeader c).reader_ <:+ c.reader_ := by
  unfold ParseHeader
  split
  · exact List.suffix_refl _
  · split
    · exact List.suffix_refl _
    · rename_i request buffer hL
      exact (ParseBody_suffix _).trans (HeaderLoop_suffix _ _ _ _ _ _ hL)
    · rename_i request buffer hL
      exact HeaderLoop_suffix _ _ _ _ _ _ hL

theorem ParseProtocol_suffix (c : HttpConnection) :
    (ParseProtocol c).reader_ <:+ c.reader_ := by
  unfold ParseProtocol
  simp only
  split
  · exact List.suffix_refl _
  · split
    · exact StringPopSegmentAt_suffix _ _
    · exact (ParseHeader_suffix _).trans (StringPopSegmentAt_suffix _ _)

theorem ParseUrl_suffix (c : HttpConnection) : (ParseUrl c).reader_ <:+ c.reader_ := by
  unfold ParseUrl
  simp only
  split
  · exact List.suffix_refl _
  · split
    · exact StringPopSegmentAt_suffix _ _
    · exact (ParseProtocol_suffix _).trans (StringPopSegmentAt_suffix _ _)

theorem ParseMethod_suffix (c : HttpConnection) : (ParseMethod c).reader_ <:+ c.reader_ := by
  unfold ParseMethod
  simp only
  split
  · exact List.suffix_refl _
  · split
    · exact StringPopSegmentAt_suffix _ _
    · split
      · exact StringPopSegmentAt_suffix _ _
      · exact (ParseUrl_suffix _).trans (StringPopSegmentAt_suffix _ _)

/-! ### The expiry sweep -/

theorem DeleteExpiredLoop_constant (now : Int) : ∀ (m : ConnectionMap) (index : Nat),
    DeleteExpiredLoop (fun _ => now) index m =
      m.filter (fun e => decide (¬ e.2.expiry_ ≤ now)) := by
  intro m
  induction m with
  | nil => intro index; rfl
  | cons e rest ih =>
    intro index
    obtain ⟨d, c⟩ := e
    unfold DeleteExpiredLoop
    by_cases h : c.expiry_ ≤ now
    · rw [if_pos h, ih, List.filter_cons_of_neg (by simpa using h)]
    · rw [if_neg h, ih, List.filter_cons_of_pos (by simpa using h)]

theorem DeleteExpiredLoop_between (clock : Nat → Int) (lo hi : Int)
    (hclock : ∀ i, lo ≤ clock i ∧ clock i ≤ hi) : ∀ (m : ConnectionMap) (index : Nat),
    (∀ e, e ∈ DeleteExpiredLoop clock index m → e ∈ m ∧ lo < e.2.expiry_) ∧
    (∀ e, e ∈ m → hi < e.2.expiry_ → e ∈ DeleteExpiredLoop clock index m) := by
  intro m
  induction m with
  | nil => intro index; simp [DeleteExpiredLoop]
  | cons e rest ih =>
    intro index
    obtain ⟨d, c⟩ := e
    obtain ⟨h1, h2⟩ := ih (index + 1)
    obtain ⟨hlo, hhi⟩ := hclock index
    unfold DeleteExpiredLoop
    by_cases h : c.expiry_ ≤ clock index
    · rw [if_pos h]
      constructor
      · intro e he
        exact ⟨List.mem_cons_of_mem _ (h1 e he).1, (h1 e he).2⟩
      · intro e he hexp
        rcases List.mem_cons.mp he with heq | hmem
        · subst heq
          simp only at hexp
          omega
        · exact h2 e hmem hexp
    · rw [if_neg h]
      constructor
      · intro e he
        rcases List.mem_cons.mp he with heq | hmem
        · subst heq
          refine ⟨List.mem_cons_self _ _, ?_⟩
          simp only
          omega
        · exact ⟨List.mem_cons_of_mem _ (h1 e hmem).1, (h1 e hmem).2⟩
      · intro e he hexp
        rcases List.mem_cons.mp he with heq | hmem
        · subst heq
          exact List.mem_cons_self _ _
        · exact List.mem_cons_of_mem _ (h2 e hmem hexp)

/-! ### Parse yields only when the stage waits for input -/

theorem StringPopSegmentAt_nil (position : Nat) :
    StringPopSegmentAt [] position = ([], []) := by
  unfold StringPopSegmentAt
  split
  · rfl
  · simp

theorem PopBody_rest_empty (reader body : Str) (n : Nat) (hn : n < 2 ^ 64)
    (hne : n ≠ npos)
    (hlt : (body ++ (StringPopSegmentAt reader (sizeSub n body.length)).1).length < n) :
    (StringPopSegmentAt reader (sizeSub n body.length)).2 = [] := by
  have hb : body.length ≤ n := by
    rw [List.length_append] at hlt
    omega
  have hpos : sizeSub n body.length = n - body.length := sizeSub_le n body.length hb hn
  have hp : n - body.length ≠ npos := by
    unfold npos at hne ⊢
    omega
  rw [hpos] at hlt ⊢
  rw [StringPopSegmentAt_take reader _ hp] at hlt ⊢
  simp only [List.length_append, List.length_take] at hlt
  exact List.drop_eq_nil_of_le (by omega)

theorem Settled_of_end (c : HttpConnection) (h : c.stage_ = END) : Settled c := Or.inl h

theorem Settled_of_failed (c : HttpConnection) (h : c.stage_ = FAILED) : Settled c :=
  Or.inr (Or.inl h)

theorem ParseBody_settled (c : HttpConnection) (hs : c.stage_ = BODY) :
    Settled (ParseBody c) := by
  unfold ParseBody
  simp only
  split
  · exact Settled_of_end _ rfl
  · rename_i hn
    split
    · rename_i hlt
      have hempty := PopBody_rest_empty c.reader_ c.request_.body_
        (BodyContentLength c.request_) (BodyContentLength_lt _)
        (by rw [← toSizeT_neg_one]; exact hn) hlt
      right; right
      unfold LacksInput
      simp only [hs]
      rw [hempty, BodyContentLength_AppendToBody]
      simp only [List.isEmpty_nil, Bool.true_and, Bool.and_eq_true, bne_iff_ne, ne_eq,
        decide_eq_true_eq]
      exact ⟨hn, hlt⟩
    · exact Settled_of_end _ rfl

theorem ParseHeader_settled (c : HttpConnection) (hs : c.stage_ = HEADER) :
    Settled (ParseHeader c) := by
  by_cases hc : StringContains c.reader_ kHttpDoubleLineFeed = true
  · have hsome := (HeaderLoop_fuel c.reader_.length c.request_ c.reader_
      (c.reader_.length + 1) (Nat.le_refl _) (Nat.lt_succ_self _)).2
    cases hL : HeaderLoop (c.reader_.length + 1) c.request_ c.reader_ with
    | none => rw [hL] at hsome; exact absurd hsome (by decide)
    | some r =>
      obtain ⟨ok, request, buffer⟩ := r
      rw [ParseHeader_eq c ok request buffer hc hL]
      cases ok with
      | true =>
        rw [if_pos rfl]
        exact ParseBody_settled _ rfl
      | false =>
        rw [if_neg (by decide)]
        exact Settled_of_failed _ rfl
  · have hf : StringContains c.reader_ kHttpDoubleLineFeed = false := by
      simpa using hc
    rw [ParseHeader_stalled c hf]
    right; right
    unfold LacksInput
    simp only [hs, hf, Bool.not_false]

theorem ParseProtocol_settled (c : HttpConnection) (hs : c.stage_ = PROTOCOL) :
    Settled (ParseProtocol c) := by
  unfold ParseProtocol
  simp only
  split
  · rename_i hp
    right; right
    unfold LacksInput
    simp only [hs, hp, beq_self_eq_true]
  · split
    · exact Settled_of_failed _ rfl
    · exact ParseHeader_settled _ rfl

theorem ParseUrl_settled (c : HttpConnection) (hs : c.stage_ = URL) :
    Settled (ParseUrl c) := by
  unfold ParseUrl
  simp only
  split
  · rename_i hp
    right; right
    unfold LacksInput
    simp only [hs, hp, beq_self_eq_true]
  · split
    · exact Settled_of_failed _ rfl
    · exact ParseProtocol_settled _ rfl

theorem ParseMethod_settled (c : HttpConnection)
    (hs : c.stage_ = START ∨ c.stage_ = METHOD) : Settled (ParseMethod c) := by
  unfold ParseMethod
  simp only
  split
  · rename_i hp
    right; right
    unfold LacksInput
    rcases hs with hs | hs
    · simp only [hs, hp, beq_self_eq_true]
    · simp only [hs, hp, beq_self_eq_true]
  · split
    · exact Settled_of_failed _ rfl
    · split
      · exact Settled_of_failed _ rfl
      · exact ParseUrl_settled _ rfl

theorem Parse_settled (c : HttpConnection) : Settled c.Parse := by
  cases hs : c.stage_ with
  | START =>
    rw [Parse_at_start c hs]
    exact ParseMethod_settled c (Or.inl hs)
  | METHOD =>
    have : c.Parse = ParseMethod c := by simp [HttpConnection.Parse, hs]
    rw [this]
    exact ParseMethod_settled c (Or.inr hs)
  | URL =>
    have : c.Parse = ParseUrl c := by simp [HttpConnection.Parse, hs]
    rw [this]
    exact ParseUrl_settled c hs
  | PROTOCOL =>
    have : c.Parse = ParseProtocol c := by simp [HttpConnection.Parse, hs]
    rw [this]
    exact ParseProtocol_settled c hs
  | HEADER =>
    have : c.Parse = ParseHeader c := by simp [HttpConnection.Parse, hs]
    rw [this]
    exact ParseHeader_settled c hs
  | BODY =>
    have : c.Parse = ParseBody c := by simp [HttpConnection.Parse, hs]
    rw [this]
    exact ParseBody_settled c hs
  | END =>
    rw [Parse_at_end c hs]
    exact Settled_of_end c hs
  | FAILED =>
    rw [Parse_at_failed c hs]
    exact Settled_of_failed c hs

theorem Parse_of_LacksInput (c : HttpConnection) (h : LacksInput c = true) :
    c.Parse = c := by
  unfold LacksInput at h
  cases hs : c.stage_ with
  | START =>
    rw [hs] at h
    simp only [beq_iff_eq] at h
    rw [Parse_at_start c hs]
    unfold ParseMethod
    simp only
    rw [if_pos h]
  | METHOD =>
    rw [hs] at h
    simp only [beq_iff_eq] at h
    have : c.Parse = ParseMethod c := by simp [HttpConnection.Parse, hs]
    rw [this]
    unfold ParseMethod
    simp only
    rw [if_pos h]
  | URL =>
    rw [hs] at h
    simp only [beq_iff_eq] at h
    have : c.Parse = ParseUrl c := by simp [HttpConnection.Parse, hs]
    rw [this]
    unfold ParseUrl
    simp only
    rw [if_pos h]
  | PROTOCOL =>
    rw [hs] at h
    simp only [beq_iff_eq] at h
    have : c.Parse = ParseProtocol c := by simp [HttpConnection.Parse, hs]
    rw [this]
    unfold ParseProtocol
    simp only
    rw [if_pos h]
  | HEADER =>
    rw [hs] at h
    have hf : StringContains c.reader_ kHttpDoubleLineFeed = false := by simpa using h
    have : c.Parse = ParseHeader c := by simp [HttpConnection.Parse, hs]
    rw [this]
    exact ParseHeader_stalled c hf
  | BODY =>
    rw [hs] at h
    simp only [Bool.and_eq_true, bne_iff_ne, ne_eq, decide_eq_true_eq,
      List.isEmpty_iff] at h
    obtain ⟨⟨hr, hn⟩, hlt⟩ := h
    have : c.Parse = ParseBody c := by simp [HttpConnection.Parse, hs]
    rw [this]
    unfold ParseBody
    simp only
    rw [if_neg hn, hr, StringPopSegmentAt_nil]
    have hreq : c.request_.AppendToBody [] = c.request_ := by
      simp [HttpRequest.AppendToBody]
    rw [hreq, if_pos hlt, ← hr]
  | END =>
    rw [hs] at h
    exact Bool.noConfusion h
  | FAILED =>
    rw [hs] at h
    exact Bool.noConfusion h

theorem Parse_of_settled (c : HttpConnection) (h : Settled c) : c.Parse = c := by
  rcases h with h | h | h
  · exact Parse_at_end c h
  · exact Parse_at_failed c h
  · exact Parse_of_LacksInput c h

/-! ### A declared length of zero -/

theorem ParseBody_zero (c : HttpConnection) (h0 : BodyContentLength c.request_ = 0)
    (hb : c.request_.body_ = []) :
    ParseBody c = { c with reader_ := c.reader_.drop 1, stage_ := END } := by
  have hn : BodyContentLength c.request_ ≠ toSizeT (-1) := by
    rw [h0, toSizeT_neg_one]; decide
  have hk : c.request_.body_.length ≤ BodyContentLength c.request_ := by
    rw [hb]; exact Nat.zero_le _
  rw [ParseBody_take c hn hk]
  have hreq : c.request_.AppendToBody (c.reader_.take
      (BodyContentLength c.request_ - c.request_.body_.length)) = c.request_ := by
    rw [h0]
    simp [HttpRequest.AppendToBody]
  rw [hreq]
  have hlt : ¬ c.request_.body_.length < BodyContentLength c.request_ := by
    rw [h0]; exact Nat.not_lt_zero _
  rw [if_neg hlt, h0, hb]
  rfl

theorem no_double_line_feed_after_line_feed (R : Str)
    (hR : ¬ kHttpDoubleLineFeed <:+: R) : ¬ kHttpDoubleLineFeed <:+: '\n' :: R := by
  rw [List.infix_cons_iff]
  intro h
  rcases h with h | h
  · obtain ⟨t, ht⟩ := h
    have : ('\r' : Char) = '\n' := by
      have := congrArg List.head? ht
      simp [kHttpDoubleLineFeed] at this
    exact absurd this (by decide)
  · exact hR h

/-! ### Sending -/

theorem SendLoop_partial (payload : Str) (k : Nat) (start now : Int) (errno : SendErrno)
    (turns : List SendTurn) (hk : 0 < k) (hk2 : k < payload.length)
    (hsize : payload.length ≤ kTcpMaximumPayloadSize) :
    SendLoop 0 start ({ bytes := k, errno := errno, clock := now } :: turns) payload =
      if now - start ≥ 0 then some (IoStatusCode.TIMEOUT, payload.drop k)
      else SendLoop 0 start turns (payload.drop k) := by
  have hbytes : toSizeT (k : Int) = k := by
    rw [toSizeT_of_nonneg _ (by omega) (by unfold kTcpMaximumPayloadSize at hsize; omega)]
    simp
  have h1 : ¬ (k : Int) = -1 := by omega
  have h0 : ¬ (k : Int) = 0 := by omega
  have hne : ¬ (payload.drop k).isEmpty = true := by
    rw [List.isEmpty_iff, List.drop_eq_nil_iff]
    omega
  rw [SendLoop]
  simp only
  rw [if_neg h1, if_neg h0, hbytes, if_neg hne]

theorem WritableEvent_send_error (m : ConnectionMap) (d : Int) (afterSend : Str)
    (setReadable : Bool) (now : Int) (hne : afterSend ≠ []) :
    (HttpServer.WritableEvent m d afterSend true setReadable now).find d = none := by
  unfold HttpServer.WritableEvent
  cases hf : m.find d with
  | none => simp only; exact hf
  | some found =>
    simp only
    have he : ¬ afterSend.isEmpty = true := by
      rw [List.isEmpty_iff]; exact hne
    rw [if_neg he, if_pos trivial]
    exact DeleteConnection_find d _

/-! ### Replacing -/

theorem StringPosition_at (pre rest tok : Str) :
    StringPosition (pre ++ rest) tok pre.length =
      match StrFind tok rest with
      | some p => pre.length + p
      | none => npos := by
  unfold StringPosition
  rw [if_pos (by simp), List.drop_left']
  rfl

theorem StringPosition_ne_npos (text tok : Str) (start : Nat)
    (h : StringPosition text tok start ≠ npos) :
    start ≤ text.length ∧ ∃ p, StrFind tok (text.drop start) = some p ∧
      StringPosition text tok start = start + p := by
  unfold StringPosition at h ⊢
  by_cases hs : start ≤ text.length
  · rw [if_pos hs] at h ⊢
    cases hf : StrFind tok (text.drop start) with
    | none => rw [hf] at h; exact absurd rfl h
    | some p => exact ⟨hs, p, rfl, rfl⟩
  · rw [if_neg hs] at h
    exact absurd rfl h

theorem StringReplaceLoop_isSome (from_ to_ : Str) (hne : from_ ≠ []) :
    ∀ (fuel : Nat) (text : Str) (offset number : Nat), text.length ≤ offset + fuel →
    (StringReplaceLoop from_ to_ (fuel + 1) text offset number).isSome = true := by
  have hpos : 0 < from_.length := List.length_pos.mpr hne
  intro fuel
  induction fuel with
  | zero =>
    intro text offset number h
    rw [StringReplaceLoop]
    split
    · rfl
    · rename_i hp
      obtain ⟨hs, p, hf, _⟩ := StringPosition_ne_npos _ _ _ hp
      have hb := StrFind_bound from_ _ p hf
      rw [List.length_drop] at hb
      omega
  | succ fuel ih =>
    intro text offset number h
    rw [StringReplaceLoop]
    split
    · rfl
    · rename_i hp
      obtain ⟨hs, p, hf, heq⟩ := StringPosition_ne_npos _ _ _ hp
      have hb := StrFind_bound from_ _ p hf
      rw [List.length_drop] at hb
      apply ih
      rw [heq]
      simp only [List.length_append, List.length_take, List.length_drop]
      omega

theorem StringReplace_isSome (text from_ to_ : Str) (hne : from_ ≠ []) :
    (StringReplace text from_ to_).isSome = true := by
  unfold StringReplace
  exact StringReplaceLoop_isSome from_ to_ hne text.length text 0 0 (by omega)

theorem StringReplace_once (from_ to_ pre post : Str) (hne : from_ ≠ [])
    (hfind : StrFind from_ (pre ++ from_ ++ post) = some pre.length)
    (hpost : StrFind from_ post = none) (hb : pre.length ≠ npos) :
    StringReplace (pre ++ from_ ++ post) from_ to_ = some (pre ++ to_ ++ post, 1) := by
  have hpos : 0 < from_.length := List.length_pos.mpr hne
  obtain ⟨k, hk⟩ : ∃ k, (pre ++ from_ ++ post).length + 1 = k + 1 + 1 :=
    ⟨(pre ++ from_ ++ post).length - 1, by
      simp only [List.length_append]; omega⟩
  have htake : (pre ++ from_ ++ post).take pre.length = pre := by
    rw [List.append_assoc, List.take_left']
    rfl
  have hdrop : (pre ++ from_ ++ post).drop (pre.length + from_.length) = post := by
    rw [← List.length_append, List.drop_left']
    rfl
  have hsecond : StringPosition (pre ++ to_ ++ post) from_ (pre.length + to_.length) = npos := by
    rw [← List.length_append, StringPosition_at, hpost]
  unfold StringReplace
  rw [hk, StringReplaceLoop]
  rw [StringPosition_found _ _ _ hfind, if_neg hb, htake, hdrop, StringReplaceLoop]
  rw [hsecond, if_pos rfl]

theorem StrFind_ab_skip : ∀ (m : Nat) (rest : Str),
    StrFind ['a', 'b'] (List.replicate m 'b' ++ rest) =
      (StrFind ['a', 'b'] rest).map (fun p => p + m) := by
  intro m
  induction m with
  | zero => intro rest; simp
  | succ m ih =>
    intro rest
    rw [List.replicate_succ, List.cons_append, StrFind]
    have hp : List.isPrefixOf ['a', 'b'] ('b' :: (List.replicate m 'b' ++ rest)) = false := by
      simp [List.isPrefixOf]
    rw [hp, ih]
    simp only [Bool.false_eq_true, if_false, Option.map_map]
    congr 1

theorem StrFind_ab_none : ∀ (n : Nat), StrFind ['a', 'b'] (List.replicate n 'a') = none := by
  intro n
  induction n with
  | zero => rfl
  | succ n ih =>
    rw [List.replicate_succ, StrFind]
    have hp : List.isPrefixOf ['a', 'b'] ('a' :: List.replicate n 'a') = false := by
      cases n with
      | zero => rfl
      | succ n => simp [List.isPrefixOf, List.replicate_succ]
    rw [hp, ih]
    rfl

theorem StringReplace_pass_aab (m n : Nat) (hm : m + 1 < npos) :
    StringReplace (List.replicate m 'b' ++ 'a' :: 'a' :: 'b' :: List.replicate n 'a')
      ['a', 'b'] ['b', 'b', 'a', 'a'] =
      some (List.replicate m 'b' ++ 'a' :: 'b' :: 'b' :: List.replicate (n + 2) 'a', 1) := by
  have h := StringReplace_once ['a', 'b'] ['b', 'b', 'a', 'a'] (List.replicate m 'b' ++ ['a'])
    (List.replicate n 'a') (by decide)
    (by
      rw [List.append_assoc, List.append_assoc, StrFind_ab_skip]
      simp [StrFind, List.isPrefixOf, Nat.add_comm])
    (StrFind_ab_none n)
    (by simp only [List.length_append, List.length_replicate, List.length_singleton]; omega)
  simpa [List.replicate_succ] using h

theorem StringReplace_pass_abb (m n : Nat) (hm : m < npos) :
    StringReplace (List.replicate m 'b' ++ 'a' :: 'b' :: 'b' :: List.replicate n 'a')
      ['a', 'b'] ['b', 'b', 'a', 'a'] =
      some (List.replicate (m + 2) 'b' ++ 'a' :: 'a' :: 'b' :: List.replicate n 'a', 1) := by
  have hfind : StrFind ['a', 'b'] ('b' :: List.replicate n 'a') = none := by
    rw [StrFind]
    have hp : List.isPrefixOf ['a', 'b'] ('b' :: List.replicate n 'a') = false := by
      simp [List.isPrefixOf]
    rw [hp, StrFind_ab_none]
    rfl
  have h := StringReplace_once ['a', 'b'] ['b', 'b', 'a', 'a'] (List.replicate m 'b')
    ('b' :: List.replicate n 'a') (by decide)
    (by
      rw [List.append_assoc, StrFind_ab_skip]
      simp [StrFind, List.isPrefixOf])
    hfind
    (by simp only [List.length_replicate]; omega)
  have hb : List.replicate (m + 2) 'b' = List.replicate m 'b' ++ ['b', 'b'] := by
    rw [List.replicate_add]
    rfl
  rw [hb]
  simpa using h

theorem StringReplaceAllLoop_grows : ∀ (j m n : Nat), m + 2 * j + 2 < npos →
    StringReplaceAllLoop ['a', 'b'] ['b', 'b', 'a', 'a'] (2 * j)
      (List.replicate m 'b' ++ 'a' :: 'a' :: 'b' :: List.replicate n 'a') =
      ReplaceAllState.running
        (List.replicate (m + 2 * j) 'b' ++ 'a' :: 'a' :: 'b' ::
          List.replicate (n + 2 * j) 'a') ∧
    StringReplaceAllLoop ['a', 'b'] ['b', 'b', 'a', 'a'] (2 * j + 1)
      (List.replicate m 'b' ++ 'a' :: 'a' :: 'b' :: List.replicate n 'a') =
      ReplaceAllState.running
        (List.replicate (m + 2 * j) 'b' ++ 'a' :: 'b' :: 'b' ::
          List.replicate (n + 2 * j + 2) 'a') := by
  intro j
  induction j with
  | zero =>
    intro m n h
    constructor
    · rfl
    · show StringReplaceAllLoop ['a', 'b'] ['b', 'b', 'a', 'a'] (0 + 1) _ = _
      rw [StringReplaceAllLoop, StringReplace_pass_aab m n (by omega)]
      rfl
  | succ j ih =>
    intro m n h
    obtain ⟨h1, h2⟩ := ih (m + 2) (n + 2) (by omega)
    have e1 : m + 2 + 2 * j = m + 2 * (j + 1) := by omega
    have e2 : n + 2 + 2 * j = n + 2 * (j + 1) := by omega
    rw [e1, e2] at h1 h2
    constructor
    · show StringReplaceAllLoop ['a', 'b'] ['b', 'b', 'a', 'a'] (2 * j + 1 + 1) _ = _
      rw [StringReplaceAllLoop, StringReplace_pass_aab m n (by omega)]
      simp only [gt_iff_lt, Nat.lt_one_iff, Nat.pos_of_ne_zero, if_true, Nat.zero_lt_one]
      rw [StringReplaceAllLoop, StringReplace_pass_abb m (n + 2) (by omega)]
      simp only [gt_iff_lt, Nat.zero_lt_one, if_true]
      exact h1
    · show StringReplaceAllLoop ['a', 'b'] ['b', 'b', 'a', 'a'] (2 * j + 1 + 1 + 1) _ = _
      rw [StringReplaceAllLoop, StringReplace_pass_aab m n (by omega)]
      simp only [gt_iff_lt, Nat.zero_lt_one, if_true]
      rw [StringReplaceAllLoop, StringReplace_pass_abb m (n + 2) (by omega)]
      simp only [gt_iff_lt, Nat.zero_lt_one, if_true]
      exact h2

/-- What `Parse` keeps for every byte stream delivered to a fresh connection
in any chunking, in terms of the integer `atoi(h)` that it reads from the value
`h` of `GetHeader("content-length")`: at END, `h` is empty, or `atoi(h)` is
`-1`, or the body has `atoi(h)` (as `size_t`) bytes; the body is never longer
than that, and it is empty when `h` is empty or `atoi(h)` is `-1`. -/
theorem parseChunks_body_length (now : Int) (chunks : List Str) :
    ((parseChunks (HttpConnection.new now) chunks).stage_ = END →
      (parseChunks (HttpConnection.new now) chunks).request_.GetHeader
        "content-length".toList = [] ∨
      atoi ((parseChunks (HttpConnection.new now) chunks).request_.GetHeader
        "content-length".toList) = -1 ∨
      (parseChunks (HttpConnection.new now) chunks).request_.body_.length =
        toSizeT (atoi ((parseChunks (HttpConnection.new now) chunks).request_.GetHeader
          "content-length".toList))) ∧
    ((parseChunks (HttpConnection.new now) chunks).request_.GetHeader
        "content-length".toList ≠ [] →
      atoi ((parseChunks (HttpConnection.new now) chunks).request_.GetHeader
        "content-length".toList) ≠ -1 →
      (parseChunks (HttpConnection.new now) chunks).request_.body_.length ≤
        toSizeT (atoi ((parseChunks (HttpConnection.new now) chunks).request_.GetHeader
          "content-length".toList))) ∧
    (((parseChunks (HttpConnection.new now) chunks).request_.GetHeader
        "content-length".toList = [] ∨
      atoi ((parseChunks (HttpConnection.new now) chunks).request_.GetHeader
        "content-length".toList) = -1) →
      (parseChunks (HttpConnection.new now) chunks).request_.body_ = []) ∧
    (0 ≤ atoi ((parseChunks (HttpConnection.new now) chunks).request_.GetHeader
        "content-length".toList) →
      (toSizeT (atoi ((parseChunks (HttpConnection.new now) chunks).request_.GetHeader
        "content-length".toList)) : Int) =
      atoi ((parseChunks (HttpConnection.new now) chunks).request_.GetHeader
        "content-length".toList)) := by
  have h0 : BodyWithinLength (HttpConnection.new now) := by
    unfold BodyWithinLength
    simp only [HttpConnection.new]
    rfl
  have h := BodyWithinLength_bound _ (parseChunks_within chunks _ h0)
  exact ⟨h.1, h.2.1, h.2.2, toSizeT_atoi_nonneg _⟩

/-! ## The claims -/

/-- C1: parsing `GET / HTTP/1.1\r\nHost: x\r\n\r\n` on a fresh connection
reaches END, but the header of the first line is stored under the key
`\nhost`, so `GetHeader("host")` is empty and not `x`. -/
theorem C1_first_header_not_found :
    (parseFresh "GET / HTTP/1.1\r\nHost: x\r\n\r\n".toList).stage_ = END ∧
    (parseFresh "GET / HTTP/1.1\r\nHost: x\r\n\r\n".toList).request_.GetHeader
      "host".toList = [] ∧
    (parseFresh "GET / HTTP/1.1\r\nHost: x\r\n\r\n".toList).request_.headers_ =
      [("\nhost".toList, "x".toList)] := by
  decide

/-- C2: parsing `POST /x HTTP/1.1\r\nContent-Length: 5\r\n\r\nhello` on a
fresh connection reaches END with an empty body and an empty
`GetHeader("content-length")`: the header is stored under the key
`\ncontent-length` and `hello` stays in the reader buffer. -/
theorem C2_body_not_read :
    parseFresh "POST /x HTTP/1.1\r\nContent-Length: 5\r\n\r\nhello".toList =
      { request_ :=
          { method_ := POST, url_ := "/x".toList, protocol_ := kHttpProtocol1_1,
            headers_ := [("\ncontent-length".toList, "5".toList)], body_ := [] },
        stage_ := END, reader_ := "hello".toList, writer_ := [],
        expiry_ := 10000 } ∧
    (parseFresh "POST /x HTTP/1.1\r\nContent-Length: 5\r\n\r\nhello".toList).request_.GetHeader
      "content-length".toList = [] := by
  decide

/-- C3: parsing `GET /missing HTTP/1.1\r\n\r\n` (the empty header block) on a
fresh connection does not reach END: the stage stays HEADER and the bytes
`\n\r\n` stay in the reader buffer. -/
theorem C3_empty_header_block_stalls :
    parseFresh "GET /missing HTTP/1.1\r\n\r\n".toList =
      { request_ :=
          { method_ := GET, url_ := "/missing".toList,
            protocol_ := kHttpProtocol1_1, headers_ := [], body_ := [] },
        stage_ := HEADER, reader_ := "\n\r\n".toList, writer_ := [],
        expiry_ := 10000 } := by
  decide

/-- C4: for every byte string `s`, delivering `s` to a fresh connection one
byte at a time with Parse after each byte ends in the same stage and with the
same request (method, url, protocol, header map, body) as delivering `s` at
once and calling Parse once. -/
theorem C4_byte_by_byte_equals_batch (now : Int) (s : Str) :
    (parseByteByByte (HttpConnection.new now) s).stage_ =
      ((HttpConnection.new now).Receive s).Parse.stage_ ∧
    (parseByteByByte (HttpConnection.new now) s).request_ =
      ((HttpConnection.new now).Receive s).Parse.request_ := by
  have h := parseByteByByte_batch now s []
  have hr : (HttpConnection.new now).Receive [] = HttpConnection.new now := by
    simp [HttpConnection.Receive, HttpConnection.new]
  have h0 : (HttpConnection.new now).Parse = HttpConnection.new now := by
    rw [Parse_at_start _ rfl]
    have hp : StringPosition (HttpConnection.new now).reader_ kStringSpace 0 = npos := rfl
    unfold ParseMethod
    simp only [hp, if_true]
  rw [hr, h0, List.nil_append] at h
  exact ⟨h.1, h.2.1⟩

/-- C5: the request `r` parsed from `GET / HTTP/1.1\r\nHost: x\r\n\r\n` is at
END, and parsing `r.AsString()` on a fresh connection reaches END with another
header map: the key `\nhost` of `r` comes back as `\n\nhost`. -/
theorem C5_round_trip_changes_headers :
    (parseFresh "GET / HTTP/1.1\r\nHost: x\r\n\r\n".toList).stage_ = END ∧
    (parseFresh "GET / HTTP/1.1\r\nHost: x\r\n\r\n".toList).request_.AsString =
      "GET / HTTP/1.1\r\n\nhost: x\r\n\r\n".toList ∧
    (parseFresh (parseFresh
      "GET / HTTP/1.1\r\nHost: x\r\n\r\n".toList).request_.AsString).stage_ = END ∧
    (parseFresh (parseFresh
      "GET / HTTP/1.1\r\nHost: x\r\n\r\n".toList).request_.AsString).request_.headers_ =
      [("\n\nhost".toList, "x".toList)] ∧
    (parseFresh (parseFresh
      "GET / HTTP/1.1\r\nHost: x\r\n\r\n".toList).request_.AsString).request_.headers_ ≠
    (parseFresh "GET / HTTP/1.1\r\nHost: x\r\n\r\n".toList).request_.headers_ := by
  decide

/-- C6: when the reader buffer is `tok`, a space and `rest`, `tok` holding no
space, Parse from stage START ends in FAILED unless `tok` is one of the ten
method tokens; for each of the ten tokens the method is set to its variant and
Parse goes on with the code of the URL stage on `rest`. -/
theorem C6_method_stage (c : HttpConnection) (tok rest : Str) (hstage : c.stage_ = START)
    (hbuf : c.reader_ = tok ++ ' ' :: rest) (hsp : ' ' ∉ tok)
    (hlen : c.reader_.length < npos) :
    (tok ∉ ["POST".toList, "GET".toList, "HEAD".toList, "PUT".toList,
        "DELETE".toList, "CONNECT".toList, "UPDATE".toList, "TRACE".toList,
        "PATCH".toList, "OPTIONS".toList] → c.Parse.stage_ = FAILED) ∧
    (∀ m : HttpMethod,
      (tok, m) ∈ [("POST".toList, POST), ("GET".toList, GET),
        ("HEAD".toList, HEAD), ("PUT".toList, PUT), ("DELETE".toList, DELETE),
        ("CONNECT".toList, CONNECT), ("UPDATE".toList, UPDATE),
        ("TRACE".toList, TRACE), ("PATCH".toList, PATCH),
        ("OPTIONS".toList, OPTIONS)] →
      c.Parse = ParseUrl { c with request_ := c.request_.SetMethod m,
                                  reader_ := rest, stage_ := URL } ∧
      c.Parse.request_.method_ = m) := by
  have hP : c.Parse = ParseMethod c := by simp [HttpConnection.Parse, hstage]
  have hstep := ParseMethod_step c tok rest hbuf hsp hlen
  constructor
  · intro hun
    have hinv := GetMethod_unrecognized tok hun
    rw [hP, hstep]
    by_cases he : tok.isEmpty = true
    · simp [he]
    · simp [he, hinv]
  · intro m hm
    obtain ⟨h1, h2, _, h4⟩ := GetMethod_recognized tok m hm
    have he : tok.isEmpty = false := by simpa using h4
    have hgo : c.Parse =
        ParseUrl { c with request_ := c.request_.SetMethod m, reader_ := rest, stage_ := URL } := by
      rw [hP, hstep]
      simp [he, h1, h2]
    refine ⟨hgo, ?_⟩
    rw [hgo, ParseUrl_method]
    rfl

theorem C6_method_stage_witness :
    ((HttpConnection.new 0).Receive "FOO / HTTP/1.1\r\n\r\n".toList).Parse.stage_ = FAILED ∧
    ((HttpConnection.new 0).Receive "PUT /a HTTP/1.1\r\n".toList).Parse.request_.method_ = PUT := by
  have h1 := C6_method_stage ((HttpConnection.new 0).Receive "FOO / HTTP/1.1\r\n\r\n".toList)
    "FOO".toList "/ HTTP/1.1\r\n\r\n".toList (by decide) (by decide) (by decide) (by decide)
  have h2 := C6_method_stage ((HttpConnection.new 0).Receive "PUT /a HTTP/1.1\r\n".toList)
    "PUT".toList "/a HTTP/1.1\r\n".toList (by decide) (by decide) (by decide) (by decide)
  exact ⟨h1.1 (by decide), (h2.2 PUT (by decide)).2⟩

/-- C7: when the reader buffer of a connection at START is a recognized method
token, a space, `url`, a space and `rest`, `url` holding no space, Parse ends
in FAILED when `url` is empty, does not begin with `/` or contains `//`;
otherwise the url of the request is `url` and Parse goes on with the code of
the PROTOCOL stage on `rest`. -/
theorem C7_url_stage (c : HttpConnection) (tok url rest : Str) (m : HttpMethod)
    (hstage : c.stage_ = START)
    (hm : (tok, m) ∈ [("POST".toList, POST), ("GET".toList, GET),
        ("HEAD".toList, HEAD), ("PUT".toList, PUT), ("DELETE".toList, DELETE),
        ("CONNECT".toList, CONNECT), ("UPDATE".toList, UPDATE),
        ("TRACE".toList, TRACE), ("PATCH".toList, PATCH),
        ("OPTIONS".toList, OPTIONS)])
    (hbuf : c.reader_ = tok ++ ' ' :: (url ++ ' ' :: rest)) (hsp : ' ' ∉ url)
    (hlen : c.reader_.length < npos) :
    ((url = [] ∨ url.head? ≠ some '/' ∨ "//".toList <:+: url) →
      c.Parse.stage_ = FAILED) ∧
    (¬ (url = [] ∨ url.head? ≠ some '/' ∨ "//".toList <:+: url) →
      c.Parse = ParseProtocol
        { c with request_ := (c.request_.SetMethod m).SetUrl url,
                 reader_ := rest, stage_ := PROTOCOL } ∧
      c.Parse.request_.url_ = url) := by
  have hP := Parse_request_line_url c tok url rest m hstage hm hbuf hsp hlen
  constructor
  · intro hbad
    rw [hP, if_pos hbad]
  · intro hgood
    rw [if_neg hgood] at hP
    refine ⟨hP, ?_⟩
    rw [hP, (ParseProtocol_fields _).2]
    rfl

theorem C7_url_stage_witness :
    ((HttpConnection.new 0).Receive "GET /a//b HTTP/1.1\r\n\r\n".toList).Parse.stage_ = FAILED ∧
    ((HttpConnection.new 0).Receive "GET /a/b HTTP/1.1\r\n".toList).Parse.request_.url_ =
      "/a/b".toList := by
  have h1 := C7_url_stage ((HttpConnection.new 0).Receive "GET /a//b HTTP/1.1\r\n\r\n".toList)
    "GET".toList "/a//b".toList "HTTP/1.1\r\n\r\n".toList GET (by decide) (by decide)
    (by decide) (by decide) (by decide)
  have h2 := C7_url_stage ((HttpConnection.new 0).Receive "GET /a/b HTTP/1.1\r\n".toList)
    "GET".toList "/a/b".toList "HTTP/1.1\r\n".toList GET (by decide) (by decide)
    (by decide) (by decide) (by decide)
  refine ⟨h1.1 (Or.inr (Or.inr ⟨"/a".toList, "b".toList, by decide⟩)), (h2.2 ?_).2⟩
  simp only [not_or]
  refine ⟨by decide, by decide, ?_⟩
  rw [← StringContains_iff _ _ (by decide)]
  decide

/-- C8: when the reader buffer of a connection at START is a recognized method
token, a space, a valid url, a space, `proto`, the first `\r\n` and `rest`,
Parse ends in FAILED when `proto` is not `HTTP/1.1` byte for byte; otherwise
the protocol of the request is `HTTP/1.1` and Parse goes on with the code of
the HEADER stage at stage HEADER. -/
theorem C8_protocol_stage (c : HttpConnection) (tok url proto rest : Str) (m : HttpMethod)
    (hstage : c.stage_ = START)
    (hm : (tok, m) ∈ [("POST".toList, POST), ("GET".toList, GET),
        ("HEAD".toList, HEAD), ("PUT".toList, PUT), ("DELETE".toList, DELETE),
        ("CONNECT".toList, CONNECT), ("UPDATE".toList, UPDATE),
        ("TRACE".toList, TRACE), ("PATCH".toList, PATCH),
        ("OPTIONS".toList, OPTIONS)])
    (hbuf : c.reader_ = tok ++ ' ' :: (url ++ ' ' :: (proto ++ '\r' :: '\n' :: rest)))
    (hsp : ' ' ∉ url)
    (hurl : ¬ (url = [] ∨ url.head? ≠ some '/' ∨ "//".toList <:+: url))
    (hfirst : ¬ "\r\n".toList <:+: proto ++ ['\r'])
    (hlen : c.reader_.length < npos) :
    (proto ≠ "HTTP/1.1".toList → c.Parse.stage_ = FAILED) ∧
    (proto = "HTTP/1.1".toList →
      c.Parse = ParseHeader
        { c with request_ := ((c.request_.SetMethod m).SetUrl url).SetProtocol
                   "HTTP/1.1".toList,
                 reader_ := '\n' :: rest, stage_ := HEADER } ∧
      c.Parse.request_.protocol_ = "HTTP/1.1".toList) := by
  have hP := Parse_request_line_url c tok url (proto ++ '\r' :: '\n' :: rest) m hstage hm
    hbuf hsp hlen
  rw [if_neg hurl] at hP
  have hlen2 : (proto ++ '\r' :: '\n' :: rest).length < npos := by
    rw [hbuf] at hlen; simp at hlen ⊢; omega
  have hstep := ParseProtocol_step
    { c with request_ := (c.request_.SetMethod m).SetUrl url,
             reader_ := proto ++ '\r' :: '\n' :: rest, stage_ := PROTOCOL }
    proto rest rfl hfirst hlen2
  rw [hstep] at hP
  constructor
  · intro hne
    have hcond : (proto.isEmpty || proto != kHttpProtocol1_1) = true := by
      have : (proto != kHttpProtocol1_1) = true := by
        simpa [kHttpProtocol1_1] using hne
      rw [this, Bool.or_true]
    rw [hP, if_pos hcond]
  · intro heq
    have hcond : ¬ (proto.isEmpty || proto != kHttpProtocol1_1) = true := by
      subst heq; decide
    rw [if_neg hcond] at hP
    refine ⟨hP, ?_⟩
    rw [hP, (ParseHeader_fields _).2.2]
    rfl

theorem C8_protocol_stage_witness :
    ((HttpConnection.new 0).Receive "GET / HTTP/1.0\r\n\r\n".toList).Parse.stage_ = FAILED ∧
    ((HttpConnection.new 0).Receive "GET / HTTP/1.1\r\nA: b".toList).Parse.request_.protocol_ =
      "HTTP/1.1".toList := by
  have hurl : ¬ ("/".toList = [] ∨ "/".toList.head? ≠ some '/' ∨ "//".toList <:+: "/".toList) := by
    simp only [not_or]
    refine ⟨by decide, by decide, ?_⟩
    rw [← StringContains_iff _ _ (by decide)]
    decide
  have hfirst : ∀ p : Str, StringContains (p ++ ['\r']) "\r\n".toList = false →
      (p ++ ['\r']).length < npos → ¬ "\r\n".toList <:+: p ++ ['\r'] := by
    intro p h1 h2 h3
    rw [(StringContains_iff _ _ h2).mpr h3] at h1
    exact Bool.noConfusion h1
  have h1 := C8_protocol_stage ((HttpConnection.new 0).Receive "GET / HTTP/1.0\r\n\r\n".toList)
    "GET".toList "/".toList "HTTP/1.0".toList "\r\n".toList GET (by decide) (by decide)
    (by decide) (by decide) hurl (hfirst _ (by decide) (by decide)) (by decide)
  have h2 := C8_protocol_stage ((HttpConnection.new 0).Receive "GET / HTTP/1.1\r\nA: b".toList)
    "GET".toList "/".toList "HTTP/1.1".toList "A: b".toList GET (by decide) (by decide)
    (by decide) (by decide) hurl (hfirst _ (by decide) (by decide)) (by decide)
  exact ⟨h1.1 (by decide), (h2.2 rfl).2⟩

/-- C9: with `: v` as the first header line, `GET / HTTP/1.1\r\n: v\r\n\r\n`
is not rejected: the key of the first line is `\n`, not empty, and Parse
reaches END; with `Host: a:80` as the first line the key is `\nhost`, not
`host`, the value being `a:80`. -/
theorem C9_first_line_empty_key_accepted :
    (parseFresh "GET / HTTP/1.1\r\n: v\r\n\r\n".toList).stage_ = END ∧
    (parseFresh "GET / HTTP/1.1\r\n: v\r\n\r\n".toList).request_.headers_ =
      [("\n".toList, "v".toList)] ∧
    (parseFresh "GET / HTTP/1.1\r\nHost: a:80\r\n\r\n".toList).request_.headers_ =
      [("\nhost".toList, "a:80".toList)] := by
  decide

/-- C10: on the registry built by the calls of `regs` on a new server,
`ExecuteHandler(r)` returns the response of the callback registered (first)
for the url and method of `r`, applied to `r`, and invokes that callback
only; when no call of `regs` has the url and method of `r` it invokes no
callback and returns `Build(404)`: status 404, message `Not Found`, empty
body, `content-length` `0`.  A handler registered for `/a` is not dispatched
for `/a/` or `/a?x=1`. -/
theorem C10_dispatch (regs : List (HttpMethod × Str × HttpCallback))
    (r : HttpRequest) (now : Int) :
    (∀ g : HttpMethod × Str × HttpCallback,
      regs.find? (fun g => g.1 == r.method_ && g.2.1 == r.url_) = some g →
      (registerAll HttpServer.new regs).ExecuteHandlerTrace r now =
        (g.2.2 r, [{ method_ := g.1, url_ := g.2.1, callback_ := g.2.2 }]) ∧
      (registerAll HttpServer.new regs).ExecuteHandler r now = g.2.2 r) ∧
    ((∀ g ∈ regs, ¬ (g.1 = r.method_ ∧ g.2.1 = r.url_)) →
      (registerAll HttpServer.new regs).ExecuteHandlerTrace r now =
        (HttpResponse.Build 404 now, []) ∧
      ((registerAll HttpServer.new regs).ExecuteHandler r now).status_ = 404 ∧
      ((registerAll HttpServer.new regs).ExecuteHandler r now).message_ =
        "Not Found".toList ∧
      ((registerAll HttpServer.new regs).ExecuteHandler r now).body_ = [] ∧
      ((registerAll HttpServer.new regs).ExecuteHandler r now).GetHeader
        "content-length".toList = "0".toList) ∧
    (∀ (m : HttpMethod) (cb : HttpCallback),
      (r.url_ = "/a/".toList ∨ r.url_ = "/a?x=1".toList) →
      (registerAll HttpServer.new [(m, "/a".toList, cb)]).ExecuteHandlerTrace r now =
        (HttpResponse.Build 404 now, [])) := by
  refine ⟨?_, ?_, ?_⟩
  · intro g hg
    have h := registerAll_dispatch regs r now
    rw [hg] at h
    exact ⟨h, by rw [HttpServer.ExecuteHandler, h]⟩
  · intro hnone
    have hf : regs.find? (fun g => g.1 == r.method_ && g.2.1 == r.url_) = none := by
      rw [List.find?_eq_none]
      intro g hg
      have := hnone g hg
      simpa using this
    have h := registerAll_dispatch regs r now
    rw [hf] at h
    have hb := Build_not_found now
    refine ⟨h, ?_, ?_, ?_, ?_⟩ <;> rw [HttpServer.ExecuteHandler, h]
    · exact hb.1
    · exact hb.2.1
    · exact hb.2.2.1
    · exact hb.2.2.2
  · intro m cb hurl
    have h := registerAll_dispatch [(m, "/a".toList, cb)] r now
    have hf : List.find? (fun g => g.1 == r.method_ && g.2.1 == r.url_)
        [(m, "/a".toList, cb)] = none := by
      rcases hurl with hu | hu <;> simp [hu]
    rw [hf] at h
    exact h

theorem C10_dispatch_witness :
    (registerAll HttpServer.new
      [(GET, "/".toList, fun _ => HttpResponse.BuildBody 200 "hi".toList 7),
       (GET, "/".toList, fun _ => HttpResponse.Build 500 7)]).ExecuteHandler
      (parseFresh "GET / HTTP/1.1\r\nHost: x\r\n\r\n".toList).request_ 7 =
      HttpResponse.BuildBody 200 "hi".toList 7 ∧
    ((registerAll HttpServer.new
      [(GET, "/".toList, fun _ => HttpResponse.BuildBody 200 "hi".toList 7)]).ExecuteHandler
      (parseFresh "POST / HTTP/1.1\r\nHost: x\r\n\r\n".toList).request_ 7).status_ = 404 :=
  ⟨((C10_dispatch
      [(GET, "/".toList, fun _ => HttpResponse.BuildBody 200 "hi".toList 7),
       (GET, "/".toList, fun _ => HttpResponse.Build 500 7)]
      (parseFresh "GET / HTTP/1.1\r\nHost: x\r\n\r\n".toList).request_ 7).1
      (GET, "/".toList, fun _ => HttpResponse.BuildBody 200 "hi".toList 7) rfl).2,
   ((C10_dispatch
      [(GET, "/".toList, fun _ => HttpResponse.BuildBody 200 "hi".toList 7)]
      (parseFresh "POST / HTTP/1.1\r\nHost: x\r\n\r\n".toList).request_ 7).2.1
      (by intro g hg; simp at hg; subst hg; decide)).2.1⟩

/-- C11 (as stated, refuted): on a registry that already holds a handler for
`GET /`, after `RegisterHandler(GET, "/", c1)` and
`RegisterHandler(GET, "/", c2)` the callback dispatched for `GET /` is the
one stored before, not `c1`. -/
theorem C11_earlier_handler_stays_dispatched :
    (((registerAll HttpServer.new
        [(GET, "/".toList, fun _ => HttpResponse.Build 200 0)]).RegisterHandler GET
        "/".toList (fun _ => HttpResponse.Build 201 0)).RegisterHandler GET "/".toList
        (fun _ => HttpResponse.Build 202 0)).ExecuteHandler HttpRequest.Initialize 0 =
      HttpResponse.Build 200 0 ∧
    (((registerAll HttpServer.new
        [(GET, "/".toList, fun _ => HttpResponse.Build 200 0)]).RegisterHandler GET
        "/".toList (fun _ => HttpResponse.Build 201 0)).RegisterHandler GET "/".toList
        (fun _ => HttpResponse.Build 202 0)).ExecuteHandler HttpRequest.Initialize 0 ≠
      (fun _ => HttpResponse.Build 201 0) HttpRequest.Initialize := by
  decide

/-- C11 (amended): for every server state, `RegisterHandler(m, u, c1)`
followed by `RegisterHandler(m, u, c2)` leaves the server, its registry
included, identical to the one after `RegisterHandler(m, u, c1)` alone; when
the server is not running and stored no handler for `(u, m)` before, `c1` is
the callback dispatched for `(u, m)`, and the only one invoked. -/
theorem C11_second_registration_dropped (s : HttpServer) (m : HttpMethod) (u : Str)
    (c1 c2 : HttpCallback) (r : HttpRequest) (now : Int) :
    (s.RegisterHandler m u c1).RegisterHandler m u c2 = s.RegisterHandler m u c1 ∧
    (s.running_ = false →
      (∀ e ∈ s.handlers_, ¬ (e.1 = u ∧ e.2.method_ = m)) →
      r.url_ = u → r.method_ = m →
      ((s.RegisterHandler m u c1).RegisterHandler m u c2).ExecuteHandlerTrace r now =
        (c1 r, [{ method_ := m, url_ := u, callback_ := c1 }]) ∧
      ((s.RegisterHandler m u c1).RegisterHandler m u c2).ExecuteHandler r now = c1 r) := by
  have h := RegisterHandler_twice s m u c1 c2
  refine ⟨h, ?_⟩
  intro hrun hnone hurl hmethod
  have hd := RegisterHandler_dispatch_new s m u c1 r now hrun hnone hurl hmethod
  rw [h]
  exact ⟨hd, by rw [HttpServer.ExecuteHandler, hd]⟩

theorem C11_second_registration_dropped_witness :
    ((HttpServer.new.RegisterHandler GET "/".toList
        (fun _ => HttpResponse.Build 201 0)).RegisterHandler GET "/".toList
        (fun _ => HttpResponse.Build 202 0)).ExecuteHandler HttpRequest.Initialize 0 =
      HttpResponse.Build 201 0 :=
  ((C11_second_registration_dropped HttpServer.new GET "/".toList
    (fun _ => HttpResponse.Build 201 0) (fun _ => HttpResponse.Build 202 0)
    HttpRequest.Initialize 0).2 rfl (by intro e he; simp [HttpServer.new] at he) rfl rfl).2

/-- C12: in the registry built by any sequence of `RegisterHandler` calls on
a new server, every entry is stored under the url of its handler and no two
stored handlers have both the same url and the same method. -/
theorem C12_registry_pairs_unique (regs : List (HttpMethod × Str × HttpCallback)) :
    (∀ e ∈ (registerAll HttpServer.new regs).handlers_, e.1 = e.2.url_) ∧
    (registerAll HttpServer.new regs).handlers_.Pairwise
      (fun a b => ¬ (a.2.url_ = b.2.url_ ∧ a.2.method_ = b.2.method_)) :=
  registerAll_invariant regs HttpServer.new
    (by intro e he; simp [HttpServer.new] at he) (by simp [HttpServer.new])

/-- C13: for every status `s`, body `b` (shorter than `2^64` bytes) and clock
value `t` of the range `0 .. 2^64 - 1`, `Build(s, b).AsString()` is the
status line, the three header lines `content-length`, `date` and `server` in
this order, the blank line and `b`; `Build(s).AsString()` is the same with
`content-length: 0` and no body. -/
theorem C13_build_as_string (s : Int) (b : Str) (t : Nat) (ht : t < 2 ^ 64)
    (hb : b.length < 2 ^ 64) :
    (HttpResponse.BuildBody s b (t : Int)).AsString =
      "HTTP/1.1 ".toList ++ (toString s).toList ++ " ".toList ++
        HttpConstants.GetStatusString s ++ "\r\n".toList ++
        "content-length: ".toList ++ (toString b.length).toList ++ "\r\n".toList ++
        "date: ".toList ++ (toString t).toList ++ "\r\n".toList ++
        "server: alvagis version 1.0\r\n".toList ++ "\r\n".toList ++ b ∧
    (HttpResponse.Build s (t : Int)).AsString =
      "HTTP/1.1 ".toList ++ (toString s).toList ++ " ".toList ++
        HttpConstants.GetStatusString s ++ "\r\n".toList ++
        "content-length: 0\r\n".toList ++
        "date: ".toList ++ (toString t).toList ++ "\r\n".toList ++
        "server: alvagis version 1.0\r\n".toList ++ "\r\n".toList := by
  have hsz : toSizeT (t : Int) = t := by
    rw [toSizeT_of_nonneg _ (Int.ofNat_nonneg t) (by exact_mod_cast ht)]
    simp
  constructor
  · rw [BuildBody_AsString, hsz, to_string_eq _ ht, to_string_eq _ hb]
  · rw [Build_AsString, hsz, to_string_eq _ ht]

theorem C13_build_as_string_witness :
    (HttpResponse.BuildBody 200 "hi".toList ((1700000000 : Nat) : Int)).AsString =
      ("HTTP/1.1 200 OK\r\n" ++ "content-length: 2\r\n" ++ "date: 1700000000\r\n" ++
        "server: alvagis version 1.0\r\n" ++ "\r\n" ++ "hi").toList :=
  (C13_build_as_string 200 "hi".toList 1700000000 (by decide) (by decide)).1.trans
    (by decide)

/-- C14: `GetStatusString(304)` is `Not Modfied`, not the `Not Modified` of
the table of the spec; the other thirty listed codes have their listed phrase. -/
theorem C14_status_304_misspelled :
    HttpConstants.GetStatusString 304 = "Not Modfied".toList ∧
    HttpConstants.GetStatusString 304 ≠ "Not Modified".toList ∧
    ([((100 : Int), "Continue"), (101, "Switching Protocols"), (102, "Processing"),
      (200, "OK"), (201, "Created"), (202, "Accepted"), (204, "No Content"),
      (301, "Moved Permanently"), (302, "Found"), (303, "See Other"),
      (400, "Bad Request"), (401, "Unauthorized"), (403, "Forbidden"),
      (404, "Not Found"), (405, "Method Not Allowed"), (406, "Not Acceptable"),
      (408, "Request Timeout"), (410, "Gone"), (411, "Length Required"),
      (413, "Request Entity Too Large"), (414, "Request URI Too Long"),
      (415, "Unsupported Media Type"), (417, "Expectation Failed"),
      (422, "Unprocessable Entity"), (423, "Locked"), (429, "Too Many Requests"),
      (500, "Internal Server Error"), (501, "Not Implemented"), (502, "Bad Gateway"),
      (503, "Service Unavailable")].all
      (fun p => HttpConstants.GetStatusString p.1 == p.2.toList)) = true := by
  decide

/-- C15: for each of the ten method tokens `M`, `GetMethod(M)` is not INVALID
and `GetMethodString(GetMethod(M))` is `M`; `GetMethod(GetMethodString(m))` is
`m` for every variant `m`, INVALID included. -/
theorem C15_method_round_trip :
    (∀ M ∈ ["POST".toList, "GET".toList, "HEAD".toList, "PUT".toList, "DELETE".toList,
        "CONNECT".toList, "UPDATE".toList, "TRACE".toList, "PATCH".toList,
        "OPTIONS".toList],
      HttpConstants.GetMethod M ≠ INVALID ∧
      HttpConstants.GetMethodString (HttpConstants.GetMethod M) = M) ∧
    (∀ m : HttpMethod, HttpConstants.GetMethod (HttpConstants.GetMethodString m) = m) := by
  constructor
  · decide
  · intro m
    cases m <;> decide

theorem C15_method_round_trip_witness :
    HttpConstants.GetMethod "GET".toList ≠ INVALID ∧
    HttpConstants.GetMethodString (HttpConstants.GetMethod "GET".toList) = "GET".toList :=
  C15_method_round_trip.1 "GET".toList (by decide)

/-- C16: for every request `r` and response `p` and all keys `k1`, `k2` with
equal lower-case forms, `GetHeader(k1)` equals `GetHeader(k2)`, and after
`AddHeader(k1, v)` the lookup `GetHeader(k2)` returns `v`. -/
theorem C16_header_lookup_ignores_case (r : HttpRequest) (p : HttpResponse)
    (k1 k2 v : Str) (n : Nat) (h : StringToLower k1 = StringToLower k2) :
    r.GetHeader k1 = r.GetHeader k2 ∧ p.GetHeader k1 = p.GetHeader k2 ∧
    (r.AddHeader k1 v).GetHeader k2 = v ∧ (p.AddHeader k1 v).GetHeader k2 = v ∧
    (p.AddHeaderSize k1 n).GetHeader k2 = to_string n := by
  refine ⟨?_, ?_, ?_, ?_, ?_⟩
  · simp only [HttpRequest.GetHeader, h]
  · simp only [HttpResponse.GetHeader, h]
  · simp only [HttpRequest.GetHeader, HttpRequest.AddHeader, ← h, HeaderMap_find_set]
  · simp only [HttpResponse.GetHeader, HttpResponse.AddHeader, ← h, HeaderMap_find_set]
  · simp only [HttpResponse.GetHeader, HttpResponse.AddHeaderSize, ← h, HeaderMap_find_set]

theorem C16_header_lookup_ignores_case_witness :
    ((parseFresh "GET / HTTP/1.1\r\nA: b\r\nHost: x\r\n\r\n".toList).request_.AddHeader
      "Content-Length".toList "5".toList).GetHeader "content-LENGTH".toList = "5".toList :=
  (C16_header_lookup_ignores_case
    (parseFresh "GET / HTTP/1.1\r\nA: b\r\nHost: x\r\n\r\n".toList).request_
    (HttpResponse.Build 200 0) "Content-Length".toList "content-LENGTH".toList
    "5".toList 0 (by decide)).2.2.1

/-- C17: for every request and keys `k`, `k2` with equal lower-case forms,
after `AddHeader(k, v1)` and then `AddHeader(k2, v2)` the lookup
`GetHeader(k)` returns `v2`, `CountHeaders` is the same as after the first
call alone (the map is the one that `AddHeader(k, v2)` alone gives), and
`GetHeader(j)` is unchanged for every key `j` with another lower-case form;
a map with strictly increasing keys keeps strictly increasing keys, so it
holds one entry per key. -/
theorem C17_last_write_wins (r : HttpRequest) (k k2 v1 v2 j : Str)
    (h : StringToLower k = StringToLower k2) :
    ((r.AddHeader k v1).AddHeader k2 v2).GetHeader k = v2 ∧
    ((r.AddHeader k v1).AddHeader k2 v2).CountHeaders = (r.AddHeader k v1).CountHeaders ∧
    ((r.AddHeader k v1).AddHeader k2 v2).headers_ = (r.AddHeader k v2).headers_ ∧
    (StringToLower j ≠ StringToLower k →
      ((r.AddHeader k v1).AddHeader k2 v2).GetHeader j = r.GetHeader j) ∧
    (r.headers_.WellFormed →
      ((r.AddHeader k v1).AddHeader k2 v2).headers_.WellFormed ∧
      (((r.AddHeader k v1).AddHeader k2 v2).headers_.map Prod.fst).Nodup) := by
  have hraw : (r.headers_.set (StringToLower k) v1).set (StringToLower k2) v2 =
      r.headers_.set (StringToLower k) v2 := by
    rw [← h, HeaderMap_set_set]
  refine ⟨?_, ?_, ?_, ?_, ?_⟩
  · simp only [HttpRequest.GetHeader, HttpRequest.AddHeader, hraw, HeaderMap_find_set]
  · simp only [HttpRequest.CountHeaders, HttpRequest.AddHeader, hraw]
    exact HeaderMap_set_length _ _ _ _
  · simp only [HttpRequest.AddHeader, hraw]
  · intro hj
    simp only [HttpRequest.GetHeader, HttpRequest.AddHeader, hraw,
      HeaderMap_find_set_other _ _ _ hj]
  · intro hw
    have hw2 : ((r.AddHeader k v1).AddHeader k2 v2).headers_.WellFormed := by
      simp only [HttpRequest.AddHeader, hraw]
      exact HeaderMap_set_wellFormed _ _ _ hw
    exact ⟨hw2, HeaderMap_wellFormed_nodup _ hw2⟩

theorem C17_last_write_wins_witness :
    (((parseFresh "GET / HTTP/1.1\r\nA: b\r\nHost: x\r\n\r\n".toList).request_.AddHeader
      "Accept".toList "a".toList).AddHeader "ACCEPT".toList "b".toList).GetHeader
      "Accept".toList = "b".toList ∧
    (((parseFresh "GET / HTTP/1.1\r\nA: b\r\nHost: x\r\n\r\n".toList).request_.AddHeader
      "Accept".toList "a".toList).AddHeader "ACCEPT".toList "b".toList).GetHeader
      "HOST".toList = "x".toList :=
  ⟨(C17_last_write_wins
      (parseFresh "GET / HTTP/1.1\r\nA: b\r\nHost: x\r\n\r\n".toList).request_
      "Accept".toList "ACCEPT".toList "a".toList "b".toList "HOST".toList (by decide)).1,
   ((C17_last_write_wins
      (parseFresh "GET / HTTP/1.1\r\nA: b\r\nHost: x\r\n\r\n".toList).request_
      "Accept".toList "ACCEPT".toList "a".toList "b".toList "HOST".toList
      (by decide)).2.2.2.1 (by decide)).trans (by decide)⟩

/-- C18: `Restart` sets the stage to START and the expiry to `now + 10000`
but leaves the request as it is.  After the request
`GET / HTTP/1.1\r\nA: b\r\nConnection: keep-alive\r\nContent-Length: 2\r\n\r\nhi`
and `Restart`, the request parsed next from `GET / HTTP/1.1\r\nX: y\r\n\r\n`
still has the header `connection: keep-alive` and the body `hi`. -/
theorem C18_restart_keeps_request :
    (parseFresh
      "GET / HTTP/1.1\r\nA: b\r\nConnection: keep-alive\r\nContent-Length: 2\r\n\r\nhi".toList).stage_
      = END ∧
    ((parseFresh
      "GET / HTTP/1.1\r\nA: b\r\nConnection: keep-alive\r\nContent-Length: 2\r\n\r\nhi".toList).Restart
      5) =
      { request_ :=
          { method_ := GET, url_ := "/".toList, protocol_ := kHttpProtocol1_1,
            headers_ := [("\na".toList, "b".toList),
                         ("connection".toList, "keep-alive".toList),
                         ("content-length".toList, "2".toList)],
            body_ := "hi".toList },
        stage_ := START, reader_ := [], writer_ := [], expiry_ := 10005 } ∧
    ((parseFresh
      "GET / HTTP/1.1\r\nA: b\r\nConnection: keep-alive\r\nContent-Length: 2\r\n\r\nhi".toList).Restart
      5).request_ ≠ HttpRequest.Initialize ∧
    ((((parseFresh
      "GET / HTTP/1.1\r\nA: b\r\nConnection: keep-alive\r\nContent-Length: 2\r\n\r\nhi".toList).Restart
      5).Receive "GET / HTTP/1.1\r\nX: y\r\n\r\n".toList).Parse) =
      { request_ :=
          { method_ := GET, url_ := "/".toList, protocol_ := kHttpProtocol1_1,
            headers_ := [("\na".toList, "b".toList), ("\nx".toList, "y".toList),
                         ("connection".toList, "keep-alive".toList),
                         ("content-length".toList, "2".toList)],
            body_ := "hi".toList },
        stage_ := END, reader_ := [], writer_ := [], expiry_ := 10005 } := by
  decide

/-- C19: on a writable event of `d` after which the writer buffer is empty,
`SetReadable` succeeding, the connection stays in the connection map,
restarted, when `GetHeader` of the handled request gives `keep-alive` byte for
byte for a key that is `connection` in any letter case: the entry of `d` then
has the stage START, the expiry `now + 10000`, the empty writer buffer, and
the request and the reader buffer it had.  Otherwise the connection is removed
from the map.  The other connections are untouched. -/
theorem C19_keep_alive_decides (m : ConnectionMap) (d : Int) (c : HttpConnection)
    (key : Str) (hasErrors : Bool) (now : Int) (hfind : m.find d = some c)
    (hkey : StringToLower key = "connection".toList) :
    (c.request_.GetHeader key = "keep-alive".toList →
      (HttpServer.WritableEvent m d [] hasErrors true now).find d =
        some { request_ := c.request_, stage_ := START, reader_ := c.reader_,
               writer_ := [], expiry_ := now + 10000 }) ∧
    (c.request_.GetHeader key ≠ "keep-alive".toList →
      (HttpServer.WritableEvent m d [] hasErrors true now).find d = none) ∧
    (∀ d2 : Int, d2 ≠ d →
      (HttpServer.WritableEvent m d [] hasErrors true now).find d2 = m.find d2) := by
  have hk : c.request_.GetHeader key = c.request_.GetHeader "connection".toList := by
    simp only [HttpRequest.GetHeader, hkey]
    rfl
  rw [hk, WritableEvent_drained m d c hasErrors now hfind]
  refine ⟨?_, ?_, ?_⟩
  · intro h
    rw [if_pos h]
    exact ConnectionMap_find_update d _ m c hfind
  · intro h
    rw [if_neg h]
    exact DeleteConnection_find d _
  · intro d2 hne
    split
    · exact ConnectionMap_find_update_other d d2 _ hne m
    · rw [DeleteConnection_find_other d d2 hne, ConnectionMap_find_update_other d d2 _ hne m]

theorem C19_keep_alive_decides_witness :
    (HttpServer.WritableEvent
      [(7, parseFresh "GET / HTTP/1.1\r\nA: b\r\nConnection: keep-alive\r\n\r\n".toList)]
      7 [] false true 5).find 7 =
      some { request_ :=
               (parseFresh
                 "GET / HTTP/1.1\r\nA: b\r\nConnection: keep-alive\r\n\r\n".toList).request_,
             stage_ := START, reader_ := [], writer_ := [], expiry_ := 10005 } ∧
    (parseFresh "GET / HTTP/1.1\r\nA: b\r\nConnection: keep-alive\r\n\r\n".toList).stage_ =
      END ∧
    (parseFresh "GET / HTTP/1.1\r\nA: b\r\nConnection: keep-alive\r\n\r\n".toList).expiry_ =
      10000 ∧
    (HttpServer.WritableEvent
      [(7, parseFresh "GET / HTTP/1.1\r\nA: b\r\nConnection: Keep-Alive\r\n\r\n".toList)]
      7 [] false true 5).find 7 = none :=
  ⟨(C19_keep_alive_decides
      [(7, parseFresh "GET / HTTP/1.1\r\nA: b\r\nConnection: keep-alive\r\n\r\n".toList)]
      7 (parseFresh "GET / HTTP/1.1\r\nA: b\r\nConnection: keep-alive\r\n\r\n".toList)
      "Connection".toList false 5 (by decide) (by decide)).1 (by decide),
   by decide, by decide,
   (C19_keep_alive_decides
      [(7, parseFresh "GET / HTTP/1.1\r\nA: b\r\nConnection: Keep-Alive\r\n\r\n".toList)]
      7 (parseFresh "GET / HTTP/1.1\r\nA: b\r\nConnection: Keep-Alive\r\n\r\n".toList)
      "Connection".toList false 5 (by decide) (by decide)).2.1 (by decide)⟩

/-- C20: the body at END need not have the declared length.  With
`Content-Length: 4294967301` followed by `helloworld`, Parse reaches END with
the body `hello`: `atoi` gives the `int` 5, and five bytes are not the declared
4294967301.  With `Content-Length: -1` Parse reaches END with the header not
empty and an empty body: the `int` -1 is the value that Parse uses for "no
length".  With `Content-Length: 5` the body at END is `hello`, as declared. -/
theorem C20_declared_length_not_kept :
    (parseChunks (HttpConnection.new 0)
      ["POST /x HTTP/1.1\r\nA: b\r\nContent-Length: 4294967301\r\n\r\nhelloworld".toList]).stage_
      = END ∧
    (parseChunks (HttpConnection.new 0)
      ["POST /x HTTP/1.1\r\nA: b\r\nContent-Length: 4294967301\r\n\r\nhelloworld".toList]
      ).request_.GetHeader "content-length".toList = "4294967301".toList ∧
    (parseChunks (HttpConnection.new 0)
      ["POST /x HTTP/1.1\r\nA: b\r\nContent-Length: 4294967301\r\n\r\nhelloworld".toList]
      ).request_.body_ = "hello".toList ∧
    atoi "4294967301".toList = 5 ∧
    (parseChunks (HttpConnection.new 0)
      ["POST /x HTTP/1.1\r\nA: b\r\nContent-Le".toList,
       "ngth: 4294967301\r\n\r\nhe".toList, "lloworld".toList]).stage_ = END ∧
    (parseChunks (HttpConnection.new 0)
      ["POST /x HTTP/1.1\r\nA: b\r\nContent-Le".toList,
       "ngth: 4294967301\r\n\r\nhe".toList, "lloworld".toList]).request_.body_ =
      "hello".toList ∧
    (parseChunks (HttpConnection.new 0)
      ["GET / HTTP/1.1\r\nA: b\r\nContent-Length: -1\r\n\r\n".toList]).stage_ = END ∧
    (parseChunks (HttpConnection.new 0)
      ["GET / HTTP/1.1\r\nA: b\r\nContent-Length: -1\r\n\r\n".toList]).request_.GetHeader
      "content-length".toList = "-1".toList ∧
    (parseChunks (HttpConnection.new 0)
      ["GET / HTTP/1.1\r\nA: b\r\nContent-Length: -1\r\n\r\n".toList]).request_.body_ = [] ∧
    atoi "-1".toList = -1 ∧
    (parseChunks (HttpConnection.new 0)
      ["POST /x HTTP/1.1\r\nA: b\r\nContent-Length: 5\r\n\r\nhello".toList]).stage_ = END ∧
    (parseChunks (HttpConnection.new 0)
      ["POST /x HTTP/1.1\r\nA: b\r\nContent-Length: 5\r\n\r\nhello".toList]).request_.body_ =
      "hello".toList := by
  decide

/-- C21: a recognized `content-length: 0` does not leave the bytes behind the
blank line alone.  Whenever the BODY stage is entered with a declared length
of 0 and an empty body, the stage becomes END and the first byte of the reader
buffer is removed; and for every byte string `tail` that follows the request
`GET / HTTP/1.1\r\nhost: a\r\ncontent-length: 0\r\n\r\n`, Parse reaches END
with an empty body and the reader buffer is `tail` without its first byte. -/
theorem C21_zero_length_drops_a_byte (tail : Str)
    (hlen : ("GET / HTTP/1.1\r\nhost: a\r\ncontent-length: 0\r\n\r\n".toList ++ tail).length
      < npos) :
    (∀ c : HttpConnection, c.stage_ = BODY → BodyContentLength c.request_ = 0 →
      c.request_.body_ = [] →
      c.Parse = { c with reader_ := c.reader_.drop 1, stage_ := END }) ∧
    (parseFresh ("GET / HTTP/1.1\r\nhost: a\r\ncontent-length: 0\r\n\r\n".toList ++
      tail)).stage_ = END ∧
    (parseFresh ("GET / HTTP/1.1\r\nhost: a\r\ncontent-length: 0\r\n\r\n".toList ++
      tail)).request_.body_ = [] ∧
    (parseFresh ("GET / HTTP/1.1\r\nhost: a\r\ncontent-length: 0\r\n\r\n".toList ++
      tail)).request_.GetHeader "Content-Length".toList = "0".toList ∧
    (parseFresh ("GET / HTTP/1.1\r\nhost: a\r\ncontent-length: 0\r\n\r\n".toList ++
      tail)).reader_ = tail.drop 1 := by
  have hgen : ∀ c : HttpConnection, c.stage_ = BODY → BodyContentLength c.request_ = 0 →
      c.request_.body_ = [] →
      c.Parse = { c with reader_ := c.reader_.drop 1, stage_ := END } := by
    intro c hs h0 hb
    have : c.Parse = ParseBody c := by simp [HttpConnection.Parse, hs]
    rw [this]
    exact ParseBody_zero c h0 hb
  refine ⟨hgen, ?_⟩
  have hurl : ¬ ("/".toList = [] ∨ "/".toList.head? ≠ some '/' ∨ "//".toList <:+: "/".toList) := by
    simp only [not_or]
    refine ⟨by decide, by decide, ?_⟩
    rw [← StringContains_iff _ _ (by decide)]
    decide
  have hfirst : ¬ kHttpLineFeed <:+: "HTTP/1.1".toList ++ ['\r'] := by
    rw [← StringContains_iff _ _ (by decide)]
    decide
  have hP := Parse_request_line_url
    ((HttpConnection.new 0).Receive
      ("GET / HTTP/1.1\r\nhost: a\r\ncontent-length: 0\r\n\r\n".toList ++ tail))
    "GET".toList "/".toList
    ("HTTP/1.1".toList ++ '\r' :: '\n' ::
      ("host: a\r\ncontent-length: 0\r\n\r\n".toList ++ tail)) GET rfl (by decide) rfl
    (by decide) hlen
  rw [if_neg hurl] at hP
  have hlen2 : ("HTTP/1.1".toList ++ '\r' :: '\n' ::
      ("host: a\r\ncontent-length: 0\r\n\r\n".toList ++ tail)).length < npos := by
    have h1 : "GET / HTTP/1.1\r\nhost: a\r\ncontent-length: 0\r\n\r\n".toList.length = 46 := by
      decide
    have h2 : "HTTP/1.1".toList.length = 8 := by decide
    have h3 : "host: a\r\ncontent-length: 0\r\n\r\n".toList.length = 30 := by decide
    simp only [List.length_append, List.length_cons] at hlen ⊢
    omega
  have hstep := ParseProtocol_step
    { ((HttpConnection.new 0).Receive
        ("GET / HTTP/1.1\r\nhost: a\r\ncontent-length: 0\r\n\r\n".toList ++ tail)) with
      request_ := (((HttpConnection.new 0).Receive
        ("GET / HTTP/1.1\r\nhost: a\r\ncontent-length: 0\r\n\r\n".toList ++
          tail)).request_.SetMethod GET).SetUrl "/".toList,
      reader_ := "HTTP/1.1".toList ++ '\r' :: '\n' ::
        ("host: a\r\ncontent-length: 0\r\n\r\n".toList ++ tail),
      stage_ := PROTOCOL }
    "HTTP/1.1".toList ("host: a\r\ncontent-length: 0\r\n\r\n".toList ++ tail) rfl hfirst hlen2
  rw [if_neg (by decide)] at hstep
  rw [hstep] at hP
  have hfind : StrFind kHttpDoubleLineFeed
      ("\nhost: a\r\ncontent-length: 0\r\n\r\n".toList ++ tail) = some 27 :=
    StrFind_append _ tail _ 27 (by decide)
  have hcontains : StringContains
      ("\nhost: a\r\ncontent-length: 0\r\n\r\n".toList ++ tail) kHttpDoubleLineFeed = true := by
    unfold StringContains
    rw [StringPosition_found _ _ 27 hfind]
    decide
  have hahead : HeaderBlockAhead "\nhost: a\r\ncontent-length: 0\r\n\r\n".toList := by
    left
    rw [← StringContains_iff _ _ (by decide)]
    decide
  have hfuel := (HeaderLoop_fuel "\nhost: a\r\ncontent-length: 0\r\n\r\n".toList.length
    ((HttpRequest.Initialize.SetMethod GET).SetUrl "/".toList |>.SetProtocol kHttpProtocol1_1)
    "\nhost: a\r\ncontent-length: 0\r\n\r\n".toList
    (("\nhost: a\r\ncontent-length: 0\r\n\r\n".toList ++ tail).length + 1)
    (Nat.le_refl _) (by simp only [List.length_append]; omega)).1
  have hloop := HeaderLoop_append tail
    (("\nhost: a\r\ncontent-length: 0\r\n\r\n".toList ++ tail).length + 1)
    ((HttpRequest.Initialize.SetMethod GET).SetUrl "/".toList |>.SetProtocol kHttpProtocol1_1)
    "\nhost: a\r\ncontent-length: 0\r\n\r\n".toList true
    ((((HttpRequest.Initialize.SetMethod GET).SetUrl "/".toList |>.SetProtocol
      kHttpProtocol1_1).AddHeader "\nhost".toList "a".toList).AddHeader
      "content-length".toList "0".toList)
    [] hahead (by rw [hfuel]; decide)
  have hhead := ParseHeader_eq
    { ((HttpConnection.new 0).Receive
        ("GET / HTTP/1.1\r\nhost: a\r\ncontent-length: 0\r\n\r\n".toList ++ tail)) with
      request_ := ((((HttpConnection.new 0).Receive
        ("GET / HTTP/1.1\r\nhost: a\r\ncontent-length: 0\r\n\r\n".toList ++
          tail)).request_.SetMethod GET).SetUrl "/".toList).SetProtocol kHttpProtocol1_1,
      reader_ := '\n' :: ("host: a\r\ncontent-length: 0\r\n\r\n".toList ++ tail),
      stage_ := HEADER }
    true _ _ hcontains hloop
  rw [if_pos rfl] at hhead
  have hzero : BodyContentLength
      ((((HttpRequest.Initialize.SetMethod GET).SetUrl "/".toList |>.SetProtocol
        kHttpProtocol1_1).AddHeader "\nhost".toList "a".toList).AddHeader
        "content-length".toList "0".toList) = 0 := by decide
  have hget : HttpRequest.GetHeader
      ((((HttpRequest.Initialize.SetMethod GET).SetUrl "/".toList |>.SetProtocol
        kHttpProtocol1_1).AddHeader "\nhost".toList "a".toList).AddHeader
        "content-length".toList "0".toList) "Content-Length".toList = "0".toList := by decide
  rw [hhead, ParseBody_zero] at hP
  · unfold parseFresh
    rw [hP]
    exact ⟨rfl, rfl, hget, rfl⟩
  · exact hzero
  · rfl

theorem C21_zero_length_drops_a_byte_witness :
    (parseFresh ("GET / HTTP/1.1\r\nhost: a\r\ncontent-length: 0\r\n\r\n".toList ++
      "GET /next HTTP/1.1\r\n\r\n".toList)).stage_ = END ∧
    (parseFresh ("GET / HTTP/1.1\r\nhost: a\r\ncontent-length: 0\r\n\r\n".toList ++
      "GET /next HTTP/1.1\r\n\r\n".toList)).reader_ = "ET /next HTTP/1.1\r\n\r\n".toList :=
  ⟨(C21_zero_length_drops_a_byte "GET /next HTTP/1.1\r\n\r\n".toList (by decide)).2.1,
   (C21_zero_length_drops_a_byte "GET /next HTTP/1.1\r\n\r\n".toList (by decide)).2.2.2.2⟩

/-- C22: a connection whose stage is FAILED or END is left as it is by
`Parse`, whatever the reader buffer holds: the stage, the request and the
reader buffer (and every other field) are unchanged. -/
theorem C22_failed_and_end_terminal (c : HttpConnection) (bytes : Str)
    (h : c.stage_ = FAILED ∨ c.stage_ = END) :
    c.Parse = c ∧
    ({ c with reader_ := bytes }).Parse.stage_ = c.stage_ ∧
    ({ c with reader_ := bytes }).Parse.request_ = c.request_ ∧
    ({ c with reader_ := bytes }).Parse.reader_ = bytes := by
  have key : ∀ d : HttpConnection, d.stage_ = FAILED ∨ d.stage_ = END → d.Parse = d := by
    intro d hd
    cases hd with
    | inl hf => exact Parse_at_failed d hf
    | inr he => exact Parse_at_end d he
  have h2 := key { c with reader_ := bytes } h
  refine ⟨key c h, ?_, ?_, ?_⟩ <;> rw [h2]

theorem C22_failed_and_end_terminal_witness :
    ({ (HttpConnection.new 0) with stage_ := FAILED }).Parse =
      { (HttpConnection.new 0) with stage_ := FAILED } ∧
    ({ (HttpConnection.new 0) with stage_ := END, reader_ := "GET / ".toList }).Parse.reader_ =
      "GET / ".toList :=
  ⟨(C22_failed_and_end_terminal { (HttpConnection.new 0) with stage_ := FAILED } []
      (Or.inl rfl)).1,
   (C22_failed_and_end_terminal { (HttpConnection.new 0) with stage_ := END } "GET / ".toList
      (Or.inr rfl)).2.2.2⟩

/-- C23: for every reader buffer `b` (shorter than `npos`) and non-empty token
`t`: when `t` occurs in `b`, `PopSegment(t)` returns a string `s` and leaves a
buffer `b2` with `b = s ++ t ++ b2`, `t` beginning at no index of `b` below
the length of `s`, and `b2` is a suffix of `b` that is shorter than `b`; when
`t` does not occur in `b`, it returns the empty string and leaves `b`. -/
theorem C23_pop_segment_token (b t : Str) (ht : t ≠ []) (hlen : b.length < npos) :
    (t <:+: b → ∃ s b2, StringPopSegment b t = (s, b2) ∧ b = s ++ t ++ b2 ∧
      (∀ q, q < s.length → ¬ t <+: b.drop q) ∧ b2 <:+ b ∧ b2.length < b.length) ∧
    (¬ t <:+: b → StringPopSegment b t = ([], b)) := by
  constructor
  · intro hin
    have hsome := (StrFind_isSome_iff t b).mpr hin
    cases hf : StrFind t b with
    | none => simp [hf] at hsome
    | some p =>
      have hb := StrFind_bound t b p hf
      obtain ⟨hpre, hfirst⟩ := StrFind_first t b p hf
      have hp : p ≠ npos := by omega
      have hpop := StringPopSegment_found b t p hf
      rw [if_neg hp] at hpop
      obtain ⟨u, hu⟩ := hpre
      have hdrop : b.drop (p + t.length) = u := by
        rw [← List.drop_drop, ← hu]
        simp
      have hsplit : b = b.take p ++ t ++ u := by
        rw [List.append_assoc, hu]
        exact (List.take_append_drop p b).symm
      have htl : 0 < t.length := List.length_pos.mpr ht
      have hlen_take : (b.take p).length = p := by
        rw [List.length_take]; omega
      refine ⟨b.take p, u, ?_, hsplit, ?_, ?_, ?_⟩
      · rw [hpop, hdrop]
      · intro q hq
        exact hfirst q (by omega)
      · rw [← hdrop]; exact List.drop_suffix _ _
      · have := congrArg List.length hsplit
        simp only [List.length_append] at this
        omega
  · intro hnot
    cases hf : StrFind t b with
    | none => exact StringPopSegment_not_found b t hf
    | some p =>
      exact absurd ((StrFind_isSome_iff t b).mp (by simp [hf])) hnot

theorem C23_pop_segment_token_witness :
    (∃ s b2, StringPopSegment "a: b\r\nc: d\r\n".toList "\r\n".toList = (s, b2) ∧
      "a: b\r\nc: d\r\n".toList = s ++ "\r\n".toList ++ b2 ∧
      (∀ q, q < s.length → ¬ "\r\n".toList <+: "a: b\r\nc: d\r\n".toList.drop q) ∧
      b2 <:+ "a: b\r\nc: d\r\n".toList ∧ b2.length < "a: b\r\nc: d\r\n".toList.length) ∧
    StringPopSegment "a: b".toList "\r\n".toList = ([], "a: b".toList) :=
  ⟨(C23_pop_segment_token "a: b\r\nc: d\r\n".toList "\r\n".toList (by decide)
      (by decide)).1 (by
        rw [← StringContains_iff _ _ (by decide)]
        decide),
   (C23_pop_segment_token "a: b".toList "\r\n".toList (by decide) (by decide)).2 (by
        rw [← StringContains_iff _ _ (by decide)]
        decide)⟩

/-- C24: for every reader buffer `b` (not longer than `npos`) and position
`p`: when `p < |b|`, `PopSegment(p)` returns the first `p` bytes of `b` and
leaves the bytes of `b` from index `p + 1` on, the byte at index `p` being
discarded; when `p >= |b|` and `p` is not `npos`, it returns `b` and leaves the
empty buffer; for `npos` it returns the empty string and leaves `b`. -/
theorem C24_pop_segment_position (b : Str) (p : Nat) (hlen : b.length ≤ npos) :
    (p < b.length → StringPopSegmentAt b p = (b.take p, b.drop (p + 1)) ∧
      ∃ x, b[p]? = some x ∧ b = b.take p ++ x :: b.drop (p + 1)) ∧
    (b.length ≤ p → p ≠ npos → StringPopSegmentAt b p = (b, [])) ∧
    StringPopSegmentAt b npos = ([], b) := by
  refine ⟨?_, ?_, ?_⟩
  · intro hp
    have hne : p ≠ npos := by omega
    refine ⟨StringPopSegmentAt_take b p hne, b[p], ?_, ?_⟩
    · simp [hp]
    · have h1 : b.drop p = b[p] :: b.drop (p + 1) := List.drop_eq_getElem_cons hp
      rw [← h1]
      exact (List.take_append_drop p b).symm
  · intro hp hne
    unfold StringPopSegmentAt
    rw [if_neg hne, if_pos hp]
  · unfold StringPopSegmentAt
    rw [if_pos rfl]
    rfl

theorem C24_pop_segment_position_witness :
    StringPopSegmentAt "GET /x".toList 3 = ("GET".toList, "/x".toList) ∧
    StringPopSegmentAt "GET".toList 5 = ("GET".toList, []) :=
  ⟨((C24_pop_segment_position "GET /x".toList 3 (by decide)).1 (by decide)).1,
   (C24_pop_segment_position "GET".toList 5 (by decide)).2.1 (by decide) (by decide)⟩

/-- C25: for every payload (within the payload limit) of which the socket
accepts `k` bytes, `0 < k < |payload|`, in the first turn of `Send` with
timeout 0, the clock not running backwards: `Send` removes the first `k`
bytes and returns TIMEOUT, neither SUCCESS nor BLOCKED; after `SendSome` the
writer holds the rest and `HasErrors()` is true, and the writable branch of
`Serve` then deletes the connection instead of keeping it for a later
writable event. -/
theorem C25_partial_send_reports_timeout (socket : TcpSocket) (payload : Str) (k : Nat)
    (start now : Int) (errno : SendErrno) (turns : List SendTurn) (status : IoStatusCode)
    (m : ConnectionMap) (d : Int) (setReadable : Bool) (clock : Int)
    (hsocket : socket.blocking = false ∧ socket.connected_ = true ∧ socket.good = true)
    (hsize : payload.length ≤ kTcpMaximumPayloadSize)
    (hk : 0 < k) (hk2 : k < payload.length) (hclock : start ≤ now) :
    socket.Send start ({ bytes := k, errno := errno, clock := now } :: turns) payload 0 =
      some (IoStatusCode.TIMEOUT, payload.drop k) ∧
    TcpWriter.SendSome { buffer_ := payload, status_ := status } socket start
      ({ bytes := k, errno := errno, clock := now } :: turns) =
      some { buffer_ := payload.drop k, status_ := IoStatusCode.TIMEOUT } ∧
    TcpWriter.HasErrors { buffer_ := payload.drop k, status_ := IoStatusCode.TIMEOUT } = true ∧
    TcpWriter.IsEmpty { buffer_ := payload.drop k, status_ := IoStatusCode.TIMEOUT } = false ∧
    (HttpServer.WritableEvent m d (payload.drop k) true setReadable clock).find d = none := by
  obtain ⟨hb, hc, hg⟩ := hsocket
  have hsend : socket.Send start ({ bytes := k, errno := errno, clock := now } :: turns)
      payload 0 = some (IoStatusCode.TIMEOUT, payload.drop k) := by
    unfold TcpSocket.Send
    rw [hb, hc, hg]
    simp only [Bool.false_eq_true, if_false, Bool.not_true]
    rw [if_neg (by omega), SendLoop_partial payload k start now errno turns hk hk2 hsize,
      if_pos (by omega)]
  have hne : payload.drop k ≠ [] := by
    rw [Ne, List.drop_eq_nil_iff]
    omega
  refine ⟨hsend, ?_, rfl, ?_, WritableEvent_send_error m d _ setReadable clock hne⟩
  · unfold TcpWriter.SendSome
    simp only
    rw [hsend]
  · unfold TcpWriter.IsEmpty
    simp only
    cases hd : payload.drop k with
    | nil => exact absurd hd hne
    | cons a l => rfl

theorem C25_partial_send_reports_timeout_witness :
    TcpSocket.Send { blocking := false, connected_ := true, good := true } 100
      [{ bytes := 2, errno := SendErrno.other, clock := 100 }] "hello".toList 0 =
      some (IoStatusCode.TIMEOUT, "llo".toList) ∧
    (HttpServer.WritableEvent [(7, HttpConnection.new 0)] 7 "llo".toList true true 100).find 7 =
      none :=
  ⟨(C25_partial_send_reports_timeout { blocking := false, connected_ := true, good := true }
      "hello".toList 2 100 100 SendErrno.other [] IoStatusCode.NONE
      [(7, HttpConnection.new 0)] 7 true 100 ⟨rfl, rfl, rfl⟩ (by decide) (by decide)
      (by decide) (by decide)).1,
   (C25_partial_send_reports_timeout { blocking := false, connected_ := true, good := true }
      "hello".toList 2 100 100 SendErrno.other [] IoStatusCode.NONE
      [(7, HttpConnection.new 0)] 7 true 100 ⟨rfl, rfl, rfl⟩ (by decide) (by decide)
      (by decide) (by decide)).2.2.2.2⟩

/-- C26: for every connection map and clock value `now`, the sweep
`DeleteExpiredConnections` during which the clock reads `now` keeps exactly
the entries whose expiry is greater than `now`, in their order and with their
connection state: an entry is in the map afterwards if and only if it was in
the map before and its expiry is not `<= now`, and a descriptor whose
connection has not expired is still found with the same connection.  When the
clock moves during the sweep, its readings lying between `lo` and `hi`, every
entry left has an expiry greater than `lo` and every entry with an expiry
greater than `hi` is left. -/
theorem C26_expiry_sweep (m : ConnectionMap) (now : Int) :
    HttpServer.DeleteExpiredConnections m (fun _ => now) =
      m.filter (fun e => decide (¬ e.2.expiry_ ≤ now)) ∧
    (∀ e, e ∈ HttpServer.DeleteExpiredConnections m (fun _ => now) ↔
      (e ∈ m ∧ ¬ e.2.expiry_ ≤ now)) ∧
    (∀ d c, m.find d = some c → ¬ c.expiry_ ≤ now →
      (HttpServer.DeleteExpiredConnections m (fun _ => now)).find d = some c) ∧
    (∀ d c, (HttpServer.DeleteExpiredConnections m (fun _ => now)).find d = some c →
      ¬ c.expiry_ ≤ now) ∧
    (∀ (clock : Nat → Int) (lo hi : Int), (∀ i, lo ≤ clock i ∧ clock i ≤ hi) →
      (∀ e, e ∈ HttpServer.DeleteExpiredConnections m clock → e ∈ m ∧ lo < e.2.expiry_) ∧
      (∀ e, e ∈ m → hi < e.2.expiry_ → e ∈ HttpServer.DeleteExpiredConnections m clock)) := by
  have heq : HttpServer.DeleteExpiredConnections m (fun _ => now) =
      m.filter (fun e => decide (¬ e.2.expiry_ ≤ now)) :=
    DeleteExpiredLoop_constant now m 0
  refine ⟨heq, ?_, ?_, ?_, fun clock lo hi hclock => DeleteExpiredLoop_between clock lo hi hclock m 0⟩
  · intro e
    rw [heq, List.mem_filter]
    simp
  · rw [heq]
    intro d c
    induction m with
    | nil => intro h; simp [ConnectionMap.find] at h
    | cons e rest ih =>
      obtain ⟨k, v⟩ := e
      intro hfind hexp
      by_cases hk : d = k
      · subst hk
        rw [ConnectionMap_find_cons_self] at hfind
        have hv : v = c := Option.some.inj hfind
        subst hv
        rw [List.filter_cons_of_pos (by simpa using hexp), ConnectionMap_find_cons_self]
      · rw [ConnectionMap_find_cons_ne d k v rest hk] at hfind
        have hrest := ih (DeleteExpiredLoop_constant now rest 0) hfind hexp
        by_cases hv : v.expiry_ ≤ now
        · rw [List.filter_cons_of_neg (by simpa using hv)]
          exact hrest
        · rw [List.filter_cons_of_pos (by simpa using hv),
            ConnectionMap_find_cons_ne d k v _ hk]
          exact hrest
  · rw [heq]
    intro d c hfind
    have hmem : (d, c) ∈ m.filter (fun e => decide (¬ e.2.expiry_ ≤ now)) := by
      unfold ConnectionMap.find at hfind
      exact lookup_mem _ _ _ hfind
    have := (List.mem_filter.mp hmem).2
    simpa using this

theorem C26_expiry_sweep_witness :
    HttpServer.DeleteExpiredConnections
      [(3, { (HttpConnection.new 0) with expiry_ := 5 }),
       (4, { (HttpConnection.new 0) with expiry_ := 10 }),
       (6, { (HttpConnection.new 0) with expiry_ := 11 })] (fun _ => 10) =
      [(6, { (HttpConnection.new 0) with expiry_ := 11 })] :=
  (C26_expiry_sweep
    [(3, { (HttpConnection.new 0) with expiry_ := 5 }),
     (4, { (HttpConnection.new 0) with expiry_ := 10 }),
     (6, { (HttpConnection.new 0) with expiry_ := 11 })] 10).1.trans (by decide)

/-- C27: for every connection state, a second call of `Parse` with no bytes
added leaves the connection (stage, request, reader buffer) as the first call
left it; a call made when the current stage waits for input leaves the
connection unchanged; and after every call the stage is END or FAILED or
waits for input. -/
theorem C27_parse_idempotent (c : HttpConnection) :
    c.Parse.Parse = c.Parse ∧
    (LacksInput c = true → c.Parse = c) ∧
    (c.Parse.stage_ = END ∨ c.Parse.stage_ = FAILED ∨ LacksInput c.Parse = true) :=
  ⟨Parse_of_settled _ (Parse_settled c), Parse_of_LacksInput c, Parse_settled c⟩

/-- C28: for every connection state, the reader buffer after `Parse` is a
suffix of the reader buffer before it. -/
theorem C28_reader_suffix (c : HttpConnection) : c.Parse.reader_ <:+ c.reader_ := by
  unfold HttpConnection.Parse
  split
  · exact ParseMethod_suffix c
  · exact ParseMethod_suffix c
  · exact ParseUrl_suffix c
  · exact ParseProtocol_suffix c
  · exact ParseHeader_suffix c
  · exact ParseBody_suffix c
  · exact List.suffix_refl _
  · exact List.suffix_refl _

/-- C29: the PROTOCOL stage pops `\r\n` by position, which removes the `\r`
only.  For every request line `M U HTTP/1.1\r\n` (`M` a recognized method, `U`
a valid URL) followed by bytes `R` that hold no `\r\n\r\n`, Parse on a
connection at START ends in stage HEADER with the reader buffer `\n` followed
by `R`, which is not `R`. -/
theorem C29_line_feed_stays_in_buffer (c : HttpConnection) (tok url R : Str)
    (m : HttpMethod) (hstage : c.stage_ = START)
    (hm : (tok, m) ∈ [("POST".toList, POST), ("GET".toList, GET),
        ("HEAD".toList, HEAD), ("PUT".toList, PUT), ("DELETE".toList, DELETE),
        ("CONNECT".toList, CONNECT), ("UPDATE".toList, UPDATE),
        ("TRACE".toList, TRACE), ("PATCH".toList, PATCH),
        ("OPTIONS".toList, OPTIONS)])
    (hbuf : c.reader_ = tok ++ ' ' :: (url ++ ' ' :: ("HTTP/1.1".toList ++ '\r' :: '\n' :: R)))
    (hsp : ' ' ∉ url)
    (hurl : ¬ (url = [] ∨ url.head? ≠ some '/' ∨ "//".toList <:+: url))
    (hR : ¬ "\r\n\r\n".toList <:+: R)
    (hlen : c.reader_.length < npos) :
    c.Parse.stage_ = HEADER ∧ c.Parse.reader_ = '\n' :: R ∧ c.Parse.reader_ ≠ R := by
  have hP := Parse_request_line_url c tok url ("HTTP/1.1".toList ++ '\r' :: '\n' :: R) m
    hstage hm hbuf hsp hlen
  rw [if_neg hurl] at hP
  have hlen2 : ("HTTP/1.1".toList ++ '\r' :: '\n' :: R).length < npos := by
    rw [hbuf] at hlen
    simp only [List.length_append, List.length_cons] at hlen ⊢
    omega
  have hfirst : ¬ kHttpLineFeed <:+: "HTTP/1.1".toList ++ ['\r'] := by
    rw [← StringContains_iff _ _ (by decide)]
    decide
  have hstep := ParseProtocol_step
    { c with request_ := (c.request_.SetMethod m).SetUrl url,
             reader_ := "HTTP/1.1".toList ++ '\r' :: '\n' :: R, stage_ := PROTOCOL }
    "HTTP/1.1".toList R rfl hfirst hlen2
  rw [if_neg (by decide)] at hstep
  have hlen3 : ('\n' :: R).length < npos := by
    simp only [List.length_append, List.length_cons] at hlen2 ⊢
    omega
  have hstall : StringContains ('\n' :: R) kHttpDoubleLineFeed = false := by
    cases hc : StringContains ('\n' :: R) kHttpDoubleLineFeed with
    | false => rfl
    | true =>
      exact absurd ((StringContains_iff _ _ hlen3).mp hc)
        (no_double_line_feed_after_line_feed R hR)
  rw [hstep, ParseHeader_stalled _ hstall] at hP
  rw [hP]
  refine ⟨rfl, rfl, ?_⟩
  intro h
  have := congrArg List.length h
  simp at this

theorem C29_line_feed_stays_in_buffer_witness :
    ((HttpConnection.new 0).Receive "GET / HTTP/1.1\r\nHost: x".toList).Parse.stage_ = HEADER ∧
    ((HttpConnection.new 0).Receive "GET / HTTP/1.1\r\nHost: x".toList).Parse.reader_ =
      "\nHost: x".toList := by
  have hurl : ¬ ("/".toList = [] ∨ "/".toList.head? ≠ some '/' ∨ "//".toList <:+: "/".toList) := by
    simp only [not_or]
    refine ⟨by decide, by decide, ?_⟩
    rw [← StringContains_iff _ _ (by decide)]
    decide
  have hR : ¬ "\r\n\r\n".toList <:+: "Host: x".toList := by
    rw [← StringContains_iff _ _ (by decide)]
    decide
  have h := C29_line_feed_stays_in_buffer
    ((HttpConnection.new 0).Receive "GET / HTTP/1.1\r\nHost: x".toList)
    "GET".toList "/".toList "Host: x".toList GET (by decide) (by decide) (by decide)
    (by decide) hurl hR (by decide)
  exact ⟨h.1, h.2.1⟩

/-- C30: `StringReplaceAll` returns at once with the text unchanged when `to`
contains `from`, which is always so for an empty `from`, and every single pass
of `StringReplace` with a non-empty `from` comes to an end; but the passes need
not reach a text without `from`.  For the text `aab`, `from = ab` and
`to = bbaa` (`to` does not contain `from`), after `2j` passes the loop is still
running with `2j` times `b`, then `aab`, then `2j` times `a`, and after
`2j + 1` passes with `2j` times `b`, then `abb`, then `2j + 2` times `a`: every
pass makes one replacement and the text grows by two bytes, for as long as the
text fits a `size_t` (here for every `j < 2^62`). -/
theorem C30_replace_all_keeps_growing :
    (∀ (fuel : Nat) (text from_ to_ : Str), StringContains to_ from_ = true →
      StringReplaceAll fuel text from_ to_ = ReplaceAllState.returned text) ∧
    (∀ to_ : Str, StringContains to_ [] = true) ∧
    (∀ (text from_ to_ : Str), from_ ≠ [] → (StringReplace text from_ to_).isSome = true) ∧
    StringContains "bbaa".toList "ab".toList = false ∧
    (∀ j : Nat, j < 2 ^ 62 →
      StringReplaceAll (2 * j) "aab".toList "ab".toList "bbaa".toList =
        ReplaceAllState.running
          (List.replicate (2 * j) 'b' ++ ("aab".toList ++ List.replicate (2 * j) 'a')) ∧
      StringReplaceAll (2 * j + 1) "aab".toList "ab".toList "bbaa".toList =
        ReplaceAllState.running
          (List.replicate (2 * j) 'b' ++ ("abb".toList ++ List.replicate (2 * j + 2) 'a'))) := by
  refine ⟨?_, ?_, ?_, by decide, ?_⟩
  · intro fuel text from_ to_ h
    unfold StringReplaceAll
    rw [if_pos h]
  · intro to_
    unfold StringContains
    rw [StringPosition_zero]
    cases to_ with
    | nil => rfl
    | cons c rest => rfl
  · intro text from_ to_ hne
    exact StringReplace_isSome text from_ to_ hne
  · intro j hj
    have hno : ¬ StringContains "bbaa".toList "ab".toList = true := by decide
    have h := StringReplaceAllLoop_grows j 0 0 (by unfold npos; omega)
    simp only [Nat.zero_add, List.replicate_zero, List.nil_append] at h
    unfold StringReplaceAll
    rw [if_neg hno, if_neg hno]
    exact h

theorem C30_replace_all_keeps_growing_witness :
    StringReplaceAll 4 "aab".toList "ab".toList "bbaa".toList =
      ReplaceAllState.running "bbbbaabaaaa".toList ∧
    StringReplaceAll 5 "aab".toList "ab".toList "bbaa".toList =
      ReplaceAllState.running "bbbbabbaaaaaa".toList :=
  ⟨((C30_replace_all_keeps_growing.2.2.2.2 2 (by decide)).1).trans (by decide),
   ((C30_replace_all_keeps_growing.2.2.2.2 2 (by decide)).2).trans (by decide)⟩
